import Mathlib

/-!
# Zephyr ECS core: a shallow embedding of `Engine::Core` and its verification

Source files embedded here:

* `includes/Core/SparseArray.hpp` : `SparseArray<Component>`
* `includes/Core/World.hpp`, `src/Core/World.cpp` : `World`, `World::Query`
* `includes/Core/Systems/System.hpp`, `GenericSystem.hpp` : `System`, `GenericSystem`
* `includes/Core/Clock.hpp`, `src/Core/Clock/Clock.cpp` : `Clock`
* `includes/Core/Events/EventHandler.hpp` : `EventHandler<Event>`
* `includes/Core/Events/EventsManager.hpp`, `src/Core/EventsManager.cpp` : `EventManager`
* `includes/Core/App.hpp` : `App`

Modelling conventions.

* `std::size_t` ids and indices are natural numbers, below `2^64` (the comparison
  `aIndex < 0` of the source is vacuous for an unsigned index and is dropped; the counter
  `_nextId` is taken below `2^64`, which it is after fewer than `2^64` calls of
  `createEntity`).  Where the source computes with an index, `aIndex + 1` in `init` and
  `emplace` and `aIndexes[i] - i` in the batch `removeEvent`, the embedding computes modulo
  `2^64`.  The definitions take every `resize` to succeed: `max_size()`, above which
  `resize` throws `std::length_error`, depends on the component type and on the library,
  and the memory of the machine, on which `std::bad_alloc` depends, is not embedded.  The
  statements on the growth of a store at a given index take a parameter `max_size`, at most
  `2^64 - 1`, that stands for `std::vector::max_size()`, and bound the index by it.
* `int` fields of components are integers in the range of a 32-bit `int`; the result of an
  `int` operation is reduced to that range by `intWrap`, the wrap of two's complement that
  the compiled code performs (the overflow is undefined in C++).  `double` times are
  rationals.
* A C++ exception is a value of `Exn`.  An operation that may throw after it has already
  written to the object returns a `Res`: the state the object is left in together with the
  returned value or the exception.
* `boost::container::flat_map` is a list of entries kept strictly ascending by key.
* `std::type_index` is a natural number, `std::string` a list of characters compared
  lexicographically.
* All component types are embedded into one payload type `α` (the store of a type index
  holds the values of that component type), and all event types into one payload type `ε`.
* A system holds a reference to the world that owns it.  The state a callback or an
  `update` acts on is `WorldState` (components, free list, counter); `World` adds the
  member `_systems`.  Updates that add or remove systems while `runSystems` iterates over
  `_systems` are outside the embedding.
* Loops whose bound the loop body can move (`Query::forEach`) take a `fuel` argument, the
  number of iterations the embedding allows; `Status.fuelOut` marks a run that used it up.
* `runSystems` and `forEach` also return the list of names or ids on which `update` or the
  callback was invoked, in order of invocation.
-/

namespace Engine.Core

/-! ## Exceptions -/

/-- The exception classes declared with `DEFINE_EXCEPTION_FROM` in `SparseArray.hpp`,
`World.hpp`, `EventsManager.hpp` and `App.hpp`. -/
inductive Exn where
  | SparseArrayExceptionOutOfRange
  | SparseArrayExceptionEmpty
  | WorldExceptionComponentAlreadyRegistered
  | WorldExceptionComponentNotRegistered
  | WorldExceptionSystemAlreadyRegistered
  | WorldExceptionSystemNotRegistered
  | EventManagerExceptionNoHandler
  | AppExceptionOutOfRange
  | AppExceptionKeyNotFound
  | AppExceptionKeyAlreadyExists
  deriving DecidableEq, Repr

/-- Result of a member function that may throw: `state` is the object after the call
(whatever was written before a throw stays written), `value` the returned value or the
exception. -/
structure Res (σ : Type) (β : Type) where
  state : σ
  value : Except Exn β

/-! ## `std::vector` helpers -/

/-- The call `std::vector::resize(n, v)`: truncate to `n` elements or pad with copies of `v`. -/
def vectorResize {τ : Type} (l : List τ) (n : Nat) (v : τ) : List τ :=
  l.take n ++ List.replicate (n - l.length) v

/-! ## `SparseArray<Component>` -/

/-- `SparseArray<Component>`: a vector of optional components, indexed by entity id. -/
structure SparseArray (α : Type) where
  _array : List (Option α)
  deriving DecidableEq, Repr

namespace SparseArray

variable {α : Type}

/-- `SparseArray::size`. -/
def size (s : SparseArray α) : Nat := s._array.length

/-- `SparseArray::get`: out of range, then empty, then the value. -/
def get (s : SparseArray α) (aIndex : Nat) : Except Exn α :=
  if aIndex ≥ s._array.length then
    .error .SparseArrayExceptionOutOfRange
  else
    match s._array.getD aIndex none with
    | none => .error .SparseArrayExceptionEmpty
    | some v => .ok v

/-- `SparseArray::set`: no growth, out of range throws before anything is written. -/
def set (s : SparseArray α) (aIndex : Nat) (aValue : α) : Except Exn (SparseArray α) :=
  if aIndex ≥ s._array.length then
    .error .SparseArrayExceptionOutOfRange
  else
    .ok ⟨s._array.set aIndex (some aValue)⟩

/-- `SparseArray::has`. -/
def has (s : SparseArray α) (aIndex : Nat) : Except Exn Bool :=
  if aIndex ≥ s._array.length then
    .error .SparseArrayExceptionOutOfRange
  else
    .ok (s._array.getD aIndex none).isSome

/-- `SparseArray::init`: resize to `aIndex + 1` with `std::nullopt` when needed, then reset
the slot.  The sum `aIndex + 1` is computed in `std::size_t`: at `aIndex = SIZE_MAX` it is
0, the store is emptied by `resize(0)`, and the write `_array[aIndex] = std::nullopt` that
follows is out of bounds and does not reach the vector.  The `resize` is taken to succeed
(for `aIndex + 1` above `max_size()` the source throws `std::length_error`). -/
def init (s : SparseArray α) (aIndex : Nat) : SparseArray α :=
  let grown :=
    if aIndex ≥ s._array.length then vectorResize s._array ((aIndex + 1) % 2 ^ 64) none
    else s._array
  ⟨grown.set aIndex none⟩

/-- `SparseArray::emplace`: resize when needed, store the constructed component, return it.
The sum `aIndex + 1` is computed in `std::size_t`: at `aIndex = SIZE_MAX` it is 0, the
store is emptied by `resize(0)`, and the `emplace` through `_array[aIndex]` that follows is
out of bounds and does not reach the vector; what the call returns is the value written
through that reference.  The `resize` is taken to succeed (for `aIndex + 1` above
`max_size()` the source throws `std::length_error`). -/
def emplace (s : SparseArray α) (aIndex : Nat) (aValue : α) : SparseArray α × α :=
  let grown :=
    if aIndex ≥ s._array.length then vectorResize s._array ((aIndex + 1) % 2 ^ 64) none
    else s._array
  (⟨grown.set aIndex (some aValue)⟩, aValue)

/-- `SparseArray::erase`: reset the slot, never shrink. -/
def erase (s : SparseArray α) (aIndex : Nat) : Except Exn (SparseArray α) :=
  if aIndex ≥ s._array.length then
    .error .SparseArrayExceptionOutOfRange
  else
    .ok ⟨s._array.set aIndex none⟩

/-- `SparseArray::clear`. -/
def clear (_s : SparseArray α) : SparseArray α := ⟨[]⟩

end SparseArray

/-! ## `boost::container::flat_map` -/

namespace FlatMap

variable {κ β : Type} [LinearOrder κ]

/-- Lookup by key in the entry vector. -/
def findRaw (k : κ) : List (κ × β) → Option β
  | [] => none
  | e :: r => if e.1 = k then some e.2 else findRaw k r

/-- `m[k] = v` on the entry vector: overwrite the entry of `k`, or insert it at its place in
key order. -/
def insertRaw (k : κ) (v : β) : List (κ × β) → List (κ × β)
  | [] => [(k, v)]
  | e :: r =>
    if k < e.1 then (k, v) :: e :: r
    else if k = e.1 then (k, v) :: r
    else e :: insertRaw k v r

/-- `erase(k)` on the entry vector. -/
def eraseRaw (k : κ) (l : List (κ × β)) : List (κ × β) :=
  l.filter (fun e => decide (e.1 ≠ k))

/-- Write through a reference to the mapped value of `k` (no entry is added or removed). -/
def modifyRaw (k : κ) (f : β → β) (l : List (κ × β)) : List (κ × β) :=
  l.map (fun e => if e.1 = k then (e.1, f e.2) else e)

end FlatMap

/-- `boost::container::flat_map<κ, β>`: entries in strictly ascending key order. -/
structure FlatMap (κ : Type) (β : Type) [LinearOrder κ] where
  entries : List (κ × β)
  ordered : (entries.map Prod.fst).Pairwise (fun a b => a < b)

namespace FlatMap

variable {κ β : Type} [LinearOrder κ]

theorem keys_modifyRaw (k : κ) (f : β → β) (l : List (κ × β)) :
    (modifyRaw k f l).map Prod.fst = l.map Prod.fst := by
  induction l with
  | nil => rfl
  | cons e r ih =>
    simp only [modifyRaw, List.map_cons] at ih ⊢
    rw [ih]
    by_cases h : e.1 = k <;> simp [h]

theorem mem_keys_insertRaw (k : κ) (v : β) (l : List (κ × β)) (x : κ)
    (hx : x ∈ (insertRaw k v l).map Prod.fst) : x = k ∨ x ∈ l.map Prod.fst := by
  induction l with
  | nil => simpa [insertRaw] using hx
  | cons e r ih =>
    simp only [insertRaw] at hx
    split_ifs at hx with h1 h2
    · simp only [List.map_cons, List.mem_cons] at hx ⊢
      exact hx
    · simp only [List.map_cons, List.mem_cons] at hx ⊢
      rcases hx with hx | hx
      · exact Or.inl hx
      · exact Or.inr (Or.inr hx)
    · simp only [List.map_cons, List.mem_cons] at hx ⊢
      rcases hx with hx | hx
      · exact Or.inr (Or.inl hx)
      · rcases ih hx with h | h
        · exact Or.inl h
        · exact Or.inr (Or.inr h)

theorem ordered_insertRaw (k : κ) (v : β) (l : List (κ × β))
    (hl : (l.map Prod.fst).Pairwise (fun a b => a < b)) :
    ((insertRaw k v l).map Prod.fst).Pairwise (fun a b => a < b) := by
  induction l with
  | nil => simp [insertRaw]
  | cons e r ih =>
    simp only [List.map_cons, List.pairwise_cons] at hl
    simp only [insertRaw]
    split_ifs with h1 h2
    · simp only [List.map_cons, List.pairwise_cons, List.mem_cons]
      refine ⟨?_, hl.1, hl.2⟩
      rintro a (rfl | ha)
      · exact h1
      · exact lt_trans h1 (hl.1 a ha)
    · simp only [List.map_cons, List.pairwise_cons]
      refine ⟨?_, hl.2⟩
      intro a ha
      rw [h2]
      exact hl.1 a ha
    · simp only [List.map_cons, List.pairwise_cons]
      refine ⟨?_, ih hl.2⟩
      intro a ha
      rcases mem_keys_insertRaw k v r a ha with h | h
      · rw [h]
        exact lt_of_le_of_ne (not_lt.mp h1) (Ne.symm h2)
      · exact hl.1 a h

theorem ordered_eraseRaw (k : κ) (l : List (κ × β))
    (hl : (l.map Prod.fst).Pairwise (fun a b => a < b)) :
    ((eraseRaw k l).map Prod.fst).Pairwise (fun a b => a < b) :=
  hl.sublist ((List.filter_sublist l).map Prod.fst)

/-- The default-constructed (empty) map. -/
def empty : FlatMap κ β := ⟨[], List.Pairwise.nil⟩

/-- The keys in iteration order. -/
def keys (m : FlatMap κ β) : List κ := m.entries.map Prod.fst

/-- The call `find(k)`: the mapped value, or `none` for `end()`. -/
def find (m : FlatMap κ β) (k : κ) : Option β := findRaw k m.entries

/-- The assignment `m[k] = v`. -/
def insert (m : FlatMap κ β) (k : κ) (v : β) : FlatMap κ β :=
  ⟨insertRaw k v m.entries, ordered_insertRaw k v m.entries m.ordered⟩

/-- The call `erase(k)`. -/
def erase (m : FlatMap κ β) (k : κ) : FlatMap κ β :=
  ⟨eraseRaw k m.entries, ordered_eraseRaw k m.entries m.ordered⟩

/-- Write through a reference to the mapped value of `k`. -/
def modify (m : FlatMap κ β) (k : κ) (f : β → β) : FlatMap κ β :=
  ⟨modifyRaw k f m.entries, by rw [keys_modifyRaw]; exact m.ordered⟩

end FlatMap

/-! ## `Clock` -/

/-- `Engine::Clock`: the time point of the last `restart` and the duration measured by it
(seconds); readings of `high_resolution_clock::now()` are passed in. -/
structure Clock where
  _lastTime : ℚ
  _delta : ℚ

namespace Clock

/-- The constant `time` of `Clock.cpp`. -/
def time : ℚ := 1000

/-- A clock constructed at time `now`: `_lastTime {now()}`, `_delta {0}`. -/
def new (now : ℚ) : Clock := ⟨now, 0⟩

/-- `Clock::getElapsedTime`. -/
def getElapsedTime (c : Clock) : ℚ := c._delta * time

/-- `Clock::restart`, with `currentTime` the reading of the system clock. -/
def restart (c : Clock) (currentTime : ℚ) : Clock × ℚ :=
  let c1 : Clock := ⟨currentTime, currentTime - c._lastTime⟩
  (c1, c1.getElapsedTime)

end Clock

/-! ## `World`: entities and components -/

/-- `std::type_index`, a totally ordered key. -/
abbrev TypeIndex := Nat

/-- The members `_components`, `_ids` and `_nextId` of `World`.  The init and erase closures
stored next to each store are determined by the key (they are `initFunc` and `eraseFunc`
below), so an entry is represented by its store.  The member `_systems` is added in
`World` further down: a system holds a reference to the world, so what a system acts on is
declared first. -/
structure WorldState (α : Type) where
  _components : FlatMap TypeIndex (SparseArray α)
  _ids : List Nat
  _nextId : Nat

/-- Position of the first smallest element among `rest`, which starts at position `i`,
given the best position and value so far (the scan of `std::min_element`). -/
def minElementFrom (smallest : Nat) (smallestVal : Nat) (i : Nat) : List Nat → Nat
  | [] => smallest
  | x :: rest =>
    if x < smallestVal then minElementFrom i x (i + 1) rest
    else minElementFrom smallest smallestVal (i + 1) rest

/-- `std::min_element(first, last)` as a position: the first smallest element, `last` (here
the length, 0) on an empty range. -/
def minElement : List Nat → Nat
  | [] => 0
  | x :: rest => minElementFrom 0 x 1 rest

/-- What `*it` reads after `v.erase(it)` when `it` was at position `p` of the vector `old`.
`erase` moves the tail one place down and shortens the vector by one, leaving the storage
in place, so position `p` now holds the element that followed the erased one; when the
erased element was the last, its storage is untouched and still holds the erased value. -/
def derefErased (old : List Nat) (p : Nat) : Nat :=
  (old.eraseIdx p).getD p (old.getD p 0)

namespace WorldState

variable {α : Type}

/-- A default-constructed world. -/
def new : WorldState α := ⟨FlatMap.empty, [], 0⟩

/-- `World::getComponent<Component>` (both overloads): the store, or
`WorldExceptionComponentNotRegistered`. -/
def getComponent (w : WorldState α) (typeIndex : TypeIndex) : Except Exn (SparseArray α) :=
  match w._components.find typeIndex with
  | none => .error .WorldExceptionComponentNotRegistered
  | some s => .ok s

/-- `World::registerComponent<Component>`. -/
def registerComponent (w : WorldState α) (typeIndex : TypeIndex) :
    Res (WorldState α) (SparseArray α) :=
  match w._components.find typeIndex with
  | some _ => ⟨w, .error .WorldExceptionComponentAlreadyRegistered⟩
  | none =>
    ⟨{ w with _components := w._components.insert typeIndex ⟨[]⟩ }, .ok ⟨[]⟩⟩

/-- `World::registerComponents<Components...>`: the fold `(registerComponent<C>(), ...)`,
left to right, stopping at the first exception. -/
def registerComponents (w : WorldState α) : List TypeIndex → Res (WorldState α) Unit
  | [] => ⟨w, .ok ()⟩
  | t :: ts =>
    match w.registerComponent t with
    | ⟨w1, .error e⟩ => ⟨w1, .error e⟩
    | ⟨w1, .ok _⟩ => registerComponents w1 ts

/-- `World::hasComponents<Components...>`: the fold `(... && getComponent<C>().has(aIndex))`,
evaluated left to right with the short circuit of `&&`; `true` for an empty pack. -/
def hasComponents (w : WorldState α) : List TypeIndex → Nat → Except Exn Bool
  | [], _ => .ok true
  | t :: ts, aIndex =>
    match w.getComponent t with
    | .error e => .error e
    | .ok s =>
      match s.has aIndex with
      | .error e => .error e
      | .ok false => .ok false
      | .ok true => hasComponents w ts aIndex

/-- `World::removeComponent<Component>`. -/
def removeComponent (w : WorldState α) (typeIndex : TypeIndex) : Res (WorldState α) Unit :=
  match w._components.find typeIndex with
  | none => ⟨w, .error .WorldExceptionComponentNotRegistered⟩
  | some _ => ⟨{ w with _components := w._components.erase typeIndex }, .ok ()⟩

/-- `World::addComponentToEntity<Component>`: `getComponent`, `set`, `get`; the catch clause
rethrows `WorldExceptionComponentNotRegistered`, other exceptions pass through. -/
def addComponentToEntity (w : WorldState α) (typeIndex : TypeIndex) (aIndex : Nat)
    (aComponent : α) : Res (WorldState α) α :=
  match w.getComponent typeIndex with
  | .error _ => ⟨w, .error .WorldExceptionComponentNotRegistered⟩
  | .ok component =>
    match component.set aIndex aComponent with
    | .error e => ⟨w, .error e⟩
    | .ok component1 =>
      ⟨{ w with _components := w._components.modify typeIndex (fun _ => component1) },
        component1.get aIndex⟩

/-- `World::emplaceComponentToEntity<Component>`. -/
def emplaceComponentToEntity (w : WorldState α) (typeIndex : TypeIndex) (aIndex : Nat)
    (aValue : α) : Res (WorldState α) α :=
  match w.getComponent typeIndex with
  | .error _ => ⟨w, .error .WorldExceptionComponentNotRegistered⟩
  | .ok component =>
    ⟨{ w with _components :=
        w._components.modify typeIndex (fun _ => (component.emplace aIndex aValue).1) },
      (component.emplace aIndex aValue).1.get aIndex⟩

/-- `World::removeComponentFromEntity<Component>`. -/
def removeComponentFromEntity (w : WorldState α) (typeIndex : TypeIndex) (aIndex : Nat) :
    Res (WorldState α) Unit :=
  match w.getComponent typeIndex with
  | .error _ => ⟨w, .error .WorldExceptionComponentNotRegistered⟩
  | .ok component =>
    match component.erase aIndex with
    | .error e => ⟨w, .error e⟩
    | .ok component1 =>
      ⟨{ w with _components := w._components.modify typeIndex (fun _ => component1) }, .ok ()⟩

/-- The init closure stored by `registerComponent<Component>` (reached through
`getInitFunc`): `aWorld.getComponent<Component>().init(aIdx)`. -/
def initFunc (typeIndex : TypeIndex) (aWorld : WorldState α) (aIdx : Nat) :
    Res (WorldState α) Unit :=
  match aWorld.getComponent typeIndex with
  | .error e => ⟨aWorld, .error e⟩
  | .ok myComponent =>
    ⟨{ aWorld with
        _components := aWorld._components.modify typeIndex (fun _ => myComponent.init aIdx) },
      .ok ()⟩

/-- The erase closure stored by `registerComponent<Component>` (reached through
`getEraseFunc`): `aWorld.getComponent<Component>().erase(aIdx)`. -/
def eraseFunc (typeIndex : TypeIndex) (aWorld : WorldState α) (aIdx : Nat) :
    Res (WorldState α) Unit :=
  match aWorld.getComponent typeIndex with
  | .error e => ⟨aWorld, .error e⟩
  | .ok myComponent =>
    match myComponent.erase aIdx with
    | .error e => ⟨aWorld, .error e⟩
    | .ok myComponent1 =>
      ⟨{ aWorld with
          _components := aWorld._components.modify typeIndex (fun _ => myComponent1) },
        .ok ()⟩

/-- The loop `for (const auto &component : _components)` of `createEntity` and `killEntity`,
over the keys still to visit: call the closure of each, stop at the first exception. -/
def forComponents (f : TypeIndex → WorldState α → Nat → Res (WorldState α) Unit)
    (aIdx : Nat) : List TypeIndex → WorldState α → Res (WorldState α) Unit
  | [], w => ⟨w, .ok ()⟩
  | t :: ts, w =>
    match f t w aIdx with
    | ⟨w1, .error e⟩ => ⟨w1, .error e⟩
    | ⟨w1, .ok _⟩ => forComponents f aIdx ts w1

/-- `World::createEntity`.  With an empty `_ids` the counter is used and incremented.
Otherwise the first smallest element of `_ids` is erased and `newIdx` is then read through
the erased iterator (`_ids.erase(smallestIdx); newIdx = *smallestIdx;`), see `derefErased`.
The init closure of every registered component is then run on `newIdx`. -/
def createEntity (w : WorldState α) : Res (WorldState α) Nat :=
  let newIdx : Nat :=
    if w._ids.isEmpty then w._nextId else derefErased w._ids (minElement w._ids)
  let w1 : WorldState α :=
    if w._ids.isEmpty then { w with _nextId := w._nextId + 1 }
    else { w with _ids := w._ids.eraseIdx (minElement w._ids) }
  match forComponents initFunc newIdx w1._components.keys w1 with
  | ⟨w2, .error e⟩ => ⟨w2, .error e⟩
  | ⟨w2, .ok _⟩ => ⟨w2, .ok newIdx⟩

/-- `World::killEntity`: `push_back` the id, then run the erase closure of every registered
component. -/
def killEntity (w : WorldState α) (aIndex : Nat) : Res (WorldState α) Unit :=
  let w1 : WorldState α := { w with _ids := w._ids ++ [aIndex] }
  forComponents eraseFunc aIndex w1._components.keys w1

/-- `World::getCurrentId`. -/
def getCurrentId (w : WorldState α) : Nat := w._nextId

end WorldState

/-! ## `World::Query` -/

/-- How a loop of the embedding ended: it ran to its end, an exception left it, or the
step budget of the embedding was used up (the source loop has no bound of its own when the
callback keeps raising the ceiling). -/
inductive Status where
  | done
  | raised (e : Exn)
  | fuelOut
  deriving DecidableEq, Repr

/-- The callback type of `Query::forEach`,
`std::function<void(World &, double, std::size_t, Components &...)>`: it receives the world,
`deltaTime`, the id and the components of the id (in the order of the signature), and acts
on the world; what it writes through the component references is written to the world. -/
abbrev Callback (α : Type) := WorldState α → ℚ → Nat → List α → Res (WorldState α) Unit

/-- Outcome of a scan: the world it leaves, the ids the callback was invoked on (in order
of invocation), and how the scan ended. -/
structure QueryRun (α : Type) where
  world : WorldState α
  visited : List Nat
  status : Status

namespace Query

variable {α : Type}

/-- The argument pack `getComponent<Components>().get(idx)...` of the callback call. -/
def componentRefs (w : WorldState α) : List TypeIndex → Nat → Except Exn (List α)
  | [], _ => .ok []
  | t :: ts, idx =>
    match w.getComponent t with
    | .error e => .error e
    | .ok s =>
      match s.get idx with
      | .error e => .error e
      | .ok v =>
        match componentRefs w ts idx with
        | .error e => .error e
        | .ok vs => .ok (v :: vs)

/-- The loop of `Query::forEach` from `idx` on, with at most `fuel` iterations.  The bound
`getCurrentId()` is read again before every iteration. -/
def forEachFrom (Components : List TypeIndex) (deltaTime : ℚ) (func : Callback α) :
    Nat → Nat → WorldState α → QueryRun α
  | 0, idx, w => ⟨w, [], if idx < w.getCurrentId then .fuelOut else .done⟩
  | fuel + 1, idx, w =>
    if idx < w.getCurrentId then
      match w.hasComponents Components idx with
      | .error e => ⟨w, [], .raised e⟩
      | .ok false => forEachFrom Components deltaTime func fuel (idx + 1) w
      | .ok true =>
        match componentRefs w Components idx with
        | .error e => ⟨w, [], .raised e⟩
        | .ok refs =>
          match func w deltaTime idx refs with
          | ⟨w1, .error e⟩ => ⟨w1, [idx], .raised e⟩
          | ⟨w1, .ok _⟩ =>
            match forEachFrom Components deltaTime func fuel (idx + 1) w1 with
            | ⟨w2, visited, status⟩ => ⟨w2, idx :: visited, status⟩
    else ⟨w, [], .done⟩

/-- `World::Query<Components...>::forEach`, the loop from id 0. -/
def forEach (Components : List TypeIndex) (fuel : Nat) (world : WorldState α) (deltaTime : ℚ)
    (func : Callback α) : QueryRun α :=
  forEachFrom Components deltaTime func fuel 0 world

end Query

/-! ## Systems -/

/-- `Engine::Core::System`: the abstract `update()`.  An update acts on the world it holds a
reference to; `fuel` bounds the iterations of each scan it runs. -/
structure System (α : Type) where
  update : Nat → WorldState α → WorldState α × Status
  _isActivated : Bool := true

/-- `GenericSystem<Func, Components...>`: the callback, the signature and the clock. -/
structure GenericSystem (α : Type) where
  Components : List TypeIndex
  _updateFunc : Callback α
  _clock : Clock

namespace GenericSystem

variable {α : Type}

/-- `GenericSystem::update`: read the clock, then scan. -/
def update (g : GenericSystem α) (fuel : Nat) (world : WorldState α) : WorldState α × Status :=
  let deltaTime := g._clock.getElapsedTime
  match Query.forEach g.Components fuel world deltaTime g._updateFunc with
  | ⟨w1, _, status⟩ => (w1, status)

/-- A `GenericSystem` seen through its base class. -/
def toSystem (g : GenericSystem α) : System α := ⟨g.update, true⟩

end GenericSystem

/-- `std::string`. -/
abbrev Name := List Char

/-- `createSystem<Components...>(aWorld, aName, aUpdateFunc)`: the pair of the name and a
new `GenericSystem` (whose clock is constructed at time `now`). -/
def createSystem {α : Type} (Components : List TypeIndex) (aName : Name)
    (aUpdateFunc : Callback α) (now : ℚ) : Name × System α :=
  (aName, (GenericSystem.mk Components aUpdateFunc (Clock.new now)).toSystem)

/-- `Engine::Core::World`: the entity and component state together with `_systems`. -/
structure World (α : Type) extends WorldState α where
  _systems : FlatMap Name (System α)

/-- Outcome of `runSystems`: the world it leaves, the names of the systems whose `update`
was invoked (in order of invocation), and how the loop ended. -/
structure SystemsRun (α : Type) where
  world : World α
  invoked : List Name
  status : Status

namespace World

variable {α : Type}

/-- A default-constructed world. -/
def new : World α := ⟨WorldState.new, FlatMap.empty⟩

/-- A member function of the entity and component part, called on the world. -/
def onState {β : Type} (w : World α) (f : WorldState α → Res (WorldState α) β) :
    Res (World α) β :=
  match f w.toWorldState with
  | ⟨s, v⟩ => ⟨{ w with toWorldState := s }, v⟩

/-- `World::addSystem`. -/
def addSystem (w : World α) (aSystem : Name × System α) : Res (World α) Unit :=
  match w._systems.find aSystem.1 with
  | some _ => ⟨w, .error .WorldExceptionSystemAlreadyRegistered⟩
  | none => ⟨{ w with _systems := w._systems.insert aSystem.1 aSystem.2 }, .ok ()⟩

/-- `World::removeSystem`. -/
def removeSystem (w : World α) (aFuncName : Name) : Res (World α) Unit :=
  match w._systems.find aFuncName with
  | none => ⟨w, .error .WorldExceptionSystemNotRegistered⟩
  | some _ => ⟨{ w with _systems := w._systems.erase aFuncName }, .ok ()⟩

/-- The loop of `World::runSystems` over the entries still to visit: `update()` of each in
turn; an update that does not run to its end ends the loop. -/
def runSystemsFrom (fuel : Nat) : List (Name × System α) → WorldState α →
    WorldState α × List Name × Status
  | [], s => (s, [], .done)
  | e :: rest, s =>
    match e.2.update fuel s with
    | (s1, .done) =>
      match runSystemsFrom fuel rest s1 with
      | (s2, invoked, status) => (s2, e.1 :: invoked, status)
    | (s1, status) => (s1, [e.1], status)

/-- `World::runSystems`. -/
def runSystems (w : World α) (fuel : Nat) : SystemsRun α :=
  match runSystemsFrom fuel w._systems.entries w.toWorldState with
  | (s, invoked, status) => ⟨{ w with toWorldState := s }, invoked, status⟩

end World

end Engine.Core

/-! ## `Engine::Event::EventHandler<Event>` -/

namespace Engine.Event

open Engine.Core

/-- The subtraction of two `std::size_t` values, which wraps modulo `2^64`. -/
def sizeSub (a b : Nat) : Nat := (a % 2 ^ 64 + (2 ^ 64 - b % 2 ^ 64)) % 2 ^ 64

/-- `std::find(first, last, v)` as a position: the first element equal to `v`, or the length
of the range for `last`. -/
def stdFind {τ : Type} [DecidableEq τ] (v : τ) : List τ → Nat
  | [] => 0
  | x :: rest => if x = v then 0 else stdFind v rest + 1

/-- The elements of a list whose position, counted from `n`, is not in `ps`, in the order of
the list: what removing the positions `ps` is to leave.  Used to state what the loop of the
batch `removeEvent` computes. -/
def keepOutside {τ : Type} (ps : List Nat) : Nat → List τ → List τ
  | _, [] => []
  | n, x :: xs => if n ∈ ps then keepOutside ps (n + 1) xs else x :: keepOutside ps (n + 1) xs

/-- `EventHandler<Event>`: the vector `_events`.  The mutex `_mutex` guards calls from
several threads; the embedding is of calls made one after the other. -/
structure EventHandler (ε : Type) where
  _events : List ε
  deriving DecidableEq, Repr

namespace EventHandler

variable {ε : Type}

/-- `EventHandler::pushEvent`. -/
def pushEvent (h : EventHandler ε) (aEvent : ε) : EventHandler ε :=
  ⟨h._events ++ [aEvent]⟩

/-- `EventHandler::getEvents` (both overloads). -/
def getEvents (h : EventHandler ε) : List ε := h._events

/-- `EventHandler::clearEvents`. -/
def clearEvents (_h : EventHandler ε) : EventHandler ε := ⟨[]⟩

/-- `EventHandler::removeEvent(const std::size_t aIdx)`: return at once when the index is
out of range, otherwise erase the element at the index. -/
def removeEvent (h : EventHandler ε) (aIdx : Nat) : EventHandler ε :=
  if aIdx ≥ h._events.length then h else ⟨h._events.eraseIdx aIdx⟩

/-- `EventHandler::removeEvent(const Event &aEvent)`, the overload that takes a value:
`std::find`, then erase at the position found unless it is `end()`. -/
def removeEventByValue [DecidableEq ε] (h : EventHandler ε) (aEvent : ε) : EventHandler ε :=
  let itx := stdFind aEvent h._events
  if itx ≠ h._events.length then ⟨h._events.eraseIdx itx⟩ else h

end EventHandler

/-! ## `Engine::Event::EventManager` -/

/-- The values a `std::any` holds in `EventManager`: an `EventHandler<Event>` (as stored by
`initEventHandler<Event>`), or a `std::pair<std::any, func>`, which is what a `std::any`
constructed from a whole map entry holds. -/
inductive AnyValue (ε : Type) where
  | handler (Event : TypeIndex) (h : EventHandler ε)
  | pair (first : AnyValue ε)
  deriving DecidableEq, Repr

/-- `std::any_cast<EventHandler<Event> &>(operand)`: the handler when the operand holds an
`EventHandler<Event>`; otherwise `std::bad_any_cast` is thrown (`none`). -/
def anyCast {ε : Type} (Event : TypeIndex) : AnyValue ε → Option (EventHandler ε)
  | .handler t h => if t = Event then some h else none
  | .pair _ => none

/-- The mapped type `eventHandler = std::pair<std::any, func>` of `_eventsHandler`.  The
second member, the closure stored by `initEventHandler<Event>`, is determined by the key
(it is `clearFunc` below), so an entry is represented by its first member. -/
structure eventHandler (ε : Type) where
  first : AnyValue ε
  deriving DecidableEq, Repr

/-- `EventManager`: the map `_eventsHandler`. -/
structure EventManager (ε : Type) where
  _eventsHandler : FlatMap TypeIndex (eventHandler ε)

namespace EventManager

variable {ε : Type}

/-- The manager as constructed by `getInstance`: no handler. -/
def new : EventManager ε := ⟨FlatMap.empty⟩

/-- `EventManager::getHandler<Event>`.  When the key is absent NoHandler is thrown.
Otherwise the source casts the map entry itself,
`std::any_cast<EventHandler<Event> &>(handler)` with `handler` the
`std::pair<std::any, func>` returned by `at`, not its member `handler.first`: the operand
of the cast is a `std::any` made from the pair.  (libstdc++ rejects this instantiation at
compile time; read as a run-time cast it throws `bad_any_cast`, which the catch clause
turns into NoHandler.) -/
def getHandler (m : EventManager ε) (Event : TypeIndex) : Except Exn (EventHandler ε) :=
  match m._eventsHandler.find Event with
  | none => .error .EventManagerExceptionNoHandler
  | some handler =>
    match anyCast Event (AnyValue.pair handler.first) with
    | none => .error .EventManagerExceptionNoHandler
    | some component => .ok component

/-- A write through the reference returned by `getHandler<Event>`: the handler held by the
entry of `Event` is replaced. -/
def putHandler (m : EventManager ε) (Event : TypeIndex) (h : EventHandler ε) :
    EventManager ε :=
  ⟨m._eventsHandler.modify Event (fun _ => ⟨.handler Event h⟩)⟩

/-- `EventManager::pushEvent<Event>`: the catch clause is for `bad_any_cast`, so the
NoHandler of `getHandler` passes through. -/
def pushEvent (m : EventManager ε) (Event : TypeIndex) (aEvent : ε) :
    Res (EventManager ε) Unit :=
  match m.getHandler Event with
  | .error e => ⟨m, .error e⟩
  | .ok handler => ⟨m.putHandler Event (handler.pushEvent aEvent), .ok ()⟩

/-- `EventManager::getEventsByType<Event>`. -/
def getEventsByType (m : EventManager ε) (Event : TypeIndex) : Except Exn (List ε) :=
  match m.getHandler Event with
  | .error e => .error e
  | .ok handler => .ok handler.getEvents

/-- The closure stored by `initEventHandler<Event>`:
`aEventManager.getHandler<Event>().clearEvents()`. -/
def clearFunc (Event : TypeIndex) (aEventManager : EventManager ε) :
    Res (EventManager ε) Unit :=
  match aEventManager.getHandler Event with
  | .error e => ⟨aEventManager, .error e⟩
  | .ok handler => ⟨aEventManager.putHandler Event handler.clearEvents, .ok ()⟩

/-- The loop of `keepEventsAndClear` over the keys still to visit: the closure of every key
that is not in `eventIndexList` is called; an exception ends the loop. -/
def keepEventsAndClearFrom (eventIndexList : List TypeIndex) :
    List TypeIndex → EventManager ε → Res (EventManager ε) Unit
  | [], m => ⟨m, .ok ()⟩
  | k :: rest, m =>
    if k ∈ eventIndexList then keepEventsAndClearFrom eventIndexList rest m
    else
      match clearFunc k m with
      | ⟨m1, .error e⟩ => ⟨m1, .error e⟩
      | ⟨m1, .ok _⟩ => keepEventsAndClearFrom eventIndexList rest m1

/-- `EventManager::keepEventsAndClear<EventList...>`. -/
def keepEventsAndClear (m : EventManager ε) (EventList : List TypeIndex) :
    Res (EventManager ε) Unit :=
  keepEventsAndClearFrom EventList m._eventsHandler.keys m

/-- `EventManager::removeEvent<Event>(const std::size_t aIndex)`: return at once when the
key is absent.  The body names `getHandler<Event>` after that test, so this member template
is instantiated only together with `getHandler<Event>`, whose cast no compiler accepts; the
embedding is the reading of the body as it is written. -/
def removeEvent (m : EventManager ε) (Event : TypeIndex) (aIndex : Nat) :
    Res (EventManager ε) Unit :=
  match m._eventsHandler.find Event with
  | none => ⟨m, .ok ()⟩
  | some _ =>
    match m.getHandler Event with
    | .error e => ⟨m, .error e⟩
    | .ok handler => ⟨m.putHandler Event (handler.removeEvent aIndex), .ok ()⟩

/-- The loop `for (size_t i = 0; i < aIndexes.size(); i++)` of the batch `removeEvent`, from
counter `i` on, over the indexes still to visit: `idx = aIndexes[i] - i` in `std::size_t`,
then `handler.removeEvent(idx)`. -/
def removeEventsLoop : Nat → List Nat → EventHandler ε → EventHandler ε
  | _, [], handler => handler
  | i, a :: rest, handler => removeEventsLoop (i + 1) rest (handler.removeEvent (sizeSub a i))

/-- `EventManager::removeEvent<Event>(std::vector<size_t> aIndexes)`, the batch overload. -/
def removeEvents (m : EventManager ε) (Event : TypeIndex) (aIndexes : List Nat) :
    Res (EventManager ε) Unit :=
  match m._eventsHandler.find Event with
  | none => ⟨m, .ok ()⟩
  | some _ =>
    match m.getHandler Event with
    | .error e => ⟨m, .error e⟩
    | .ok handler => ⟨m.putHandler Event (removeEventsLoop 0 aIndexes handler), .ok ()⟩

/-- `EventManager::initEventHandler<Event>`: nothing when the key is present, otherwise a
new entry with an empty `EventHandler<Event>` and the clear closure.  The closure names
`getHandler<Event>`, so this member template is instantiated only together with
`getHandler<Event>`, whose cast no compiler accepts; the embedding is the reading of the
body as it is written. -/
def initEventHandler (m : EventManager ε) (Event : TypeIndex) : EventManager ε :=
  match m._eventsHandler.find Event with
  | some _ => m
  | none => ⟨m._eventsHandler.insert Event ⟨.handler Event ⟨[]⟩⟩⟩

/-- `EventManager::initEventHandlers<EventList...>`: the fold
`(initEventHandler<EventList>(), ...)`. -/
def initEventHandlers (m : EventManager ε) : List TypeIndex → EventManager ε
  | [] => m
  | t :: rest => initEventHandlers (m.initEventHandler t) rest

/-- The queue held for `Event`: the events of the `EventHandler<Event>` in the first member
of its entry, `none` when the type has no entry. -/
def queue (m : EventManager ε) (Event : TypeIndex) : Option (List ε) :=
  match m._eventsHandler.find Event with
  | some ⟨.handler _ h⟩ => some h._events
  | _ => none

end EventManager

end Engine.Event

/-! ## `Engine::App` -/

namespace Engine

open Engine.Core

/-- `App::world = std::unique_ptr<Core::World>`: null, or the address of the world it
owns. -/
abbrev WorldPtr := Option Nat

/-- `App<Key>` with the default `Key = std::size_t`: the map `_worlds` and `_currentWorld`. -/
structure App where
  _worlds : FlatMap Nat WorldPtr
  _currentWorld : Nat

namespace App

/-- `App::removeWorld`. -/
def removeWorld (a : App) (aKey : Nat) : Res App Unit :=
  match a._worlds.find aKey with
  | none => ⟨a, .error .AppExceptionKeyNotFound⟩
  | some _ => ⟨{ a with _worlds := a._worlds.erase aKey }, .ok ()⟩

/-- `App::getCurrentWorld` (both overloads). -/
def getCurrentWorld (a : App) : Except Exn WorldPtr :=
  match a._worlds.find a._currentWorld with
  | none => .error .AppExceptionKeyNotFound
  | some w => .ok w

/-- `App::setCurrentWorld`. -/
def setCurrentWorld (a : App) (key : Nat) : Res App Unit :=
  match a._worlds.find key with
  | none => ⟨a, .error .AppExceptionKeyNotFound⟩
  | some _ => ⟨{ a with _currentWorld := key }, .ok ()⟩

end App

end Engine

namespace Engine.Core

/-! ## Calls used in the statements, callbacks and example worlds -/

/-- The expression `getComponent<T>().get(aIndex)`. -/
def WorldState.component {α : Type} (w : WorldState α) (typeIndex : TypeIndex) (aIndex : Nat) :
    Except Exn α :=
  match w.getComponent typeIndex with
  | .error e => .error e
  | .ok s => s.get aIndex

/-- An assignment through the reference `getComponent<T>().get(aIndex)` that a callback
received: the value of the slot is replaced. -/
def WorldState.assign {α : Type} (w : WorldState α) (typeIndex : TypeIndex) (aIndex : Nat)
    (v : α) : WorldState α :=
  { w with
    _components := w._components.modify typeIndex (fun s => ⟨s._array.set aIndex (some v)⟩) }

/-- Sequencing of two calls: the second is made on the state the first leaves, unless the
first threw. -/
def Res.next {σ β γ : Type} (r : Res σ β) (f : σ → Res σ γ) : Res σ γ :=
  match r with
  | ⟨s, .error e⟩ => ⟨s, .error e⟩
  | ⟨s, .ok _⟩ => f s

/-- A callback that only reads: it returns without writing to the world. -/
def readOnly {α : Type} : Callback α := fun w _ _ _ => ⟨w, .ok ()⟩

/-- A callback that calls `world.getComponent` for the type under key 9 and writes nothing:
in a world where that type is not registered every invocation throws
`WorldExceptionComponentNotRegistered`. -/
def readUnregistered : Callback Int := fun w _ _ _ =>
  match w.getComponent 9 with
  | .error e => ⟨w, .error e⟩
  | .ok _ => ⟨w, .ok ()⟩

/-- The world left by invoking the callback on the ids of a list, one after the other in
list order, each with the components the id has when its turn comes (an id whose argument
pack cannot be built is passed over). -/
def Query.replay {α : Type} (Components : List TypeIndex) (deltaTime : ℚ) (func : Callback α) :
    List Nat → WorldState α → WorldState α
  | [], w => w
  | idx :: rest, w =>
    match Query.componentRefs w Components idx with
    | .error _ => Query.replay Components deltaTime func rest w
    | .ok refs => Query.replay Components deltaTime func rest (func w deltaTime idx refs).state

/-- The world left by the `update` of the systems of a list, one after the other in list
order. -/
def World.applyUpdates {α : Type} (fuel : Nat) :
    List (Name × System α) → WorldState α → WorldState α
  | [], s => s
  | e :: rest, s => World.applyUpdates fuel rest (e.2.update fuel s).1

/-- The value an `int` holds after an operation whose mathematical result is `x`: `x`
reduced to the range from `-2^31` to `2^31 - 1` by the wrap of two's complement. -/
def intWrap (x : Int) : Int := (x + 2 ^ 31) % 2 ^ 32 - 2 ^ 31

/-- The update function of the test and of the scenario, over the signature (A, B) with
`A = {hp}` and `B = {cap}`, both fields of type `int`: `cop1.hp--; cop2.maxHp -= 2;`. -/
def decrementBoth (A B : TypeIndex) : Callback Int := fun w _ idx refs =>
  match refs with
  | [hp, cap] => ⟨(w.assign A idx (intWrap (hp - 1))).assign B idx (intWrap (cap - 2)), .ok ()⟩
  | _ => ⟨w, .ok ()⟩

/-- An update function over the signature (A) with `A = {hp}` under key 0, the field of
type `int`: `cop1.hp--;`. -/
def decrementHp : Callback Int := fun w _ idx refs =>
  match refs with
  | [hp] => ⟨w.assign 0 idx (intWrap (hp - 1)), .ok ()⟩
  | _ => ⟨w, .ok ()⟩

/-- A callback that, when invoked on id 0, calls `createEntity` and attaches the component
of type 0 to the new entity; on other ids it does nothing. -/
def spawnOnce : Callback Int := fun w _ idx _ =>
  if idx = 0 then
    match w.createEntity with
    | ⟨w1, .error e⟩ => ⟨w1, .error e⟩
    | ⟨w1, .ok newIdx⟩ =>
      match w1.addComponentToEntity 0 newIdx 1 with
      | ⟨w2, .error e⟩ => ⟨w2, .error e⟩
      | ⟨w2, .ok _⟩ => ⟨w2, .ok ()⟩
  else ⟨w, .ok ()⟩

/-- A callback that overwrites the component of type 0 of the visited id with 7. -/
def overwrite : Callback Int := fun w _ idx _ =>
  match w.addComponentToEntity 0 idx 7 with
  | ⟨w1, .error e⟩ => ⟨w1, .error e⟩
  | ⟨w1, .ok _⟩ => ⟨w1, .ok ()⟩

/-- A world with no component type in which entities 0 and 1 were created and then killed,
0 first: the sequence `createEntity(); createEntity(); killEntity(0); killEntity(1)` on a
default-constructed world. -/
def killedZeroThenOne : WorldState Unit :=
  ((((WorldState.new.createEntity).state.createEntity).state.killEntity 0).state.killEntity
    1).state

/-- A world with one component type (key 0) and two entities, entity 1 holding the
component 5: the state after `registerComponent`, two `createEntity` and
`addComponentToEntity(1, 5)` on a default-constructed world. -/
def oneStoreWorld : WorldState Int :=
  ⟨⟨[(0, ⟨[none, some 5]⟩)], by simp⟩, [], 2⟩

/-- A world with two component types (keys 0 and 1) and three entities: entities 0 and 2
hold both components, entity 1 only the second. -/
def twoStoreWorld : WorldState Int :=
  ⟨⟨[(0, ⟨[some 10, none, some 10]⟩), (1, ⟨[some 10, some 10, some 10]⟩)], by simp⟩, [], 3⟩

/-- A world with one component type (key 0) and one entity, which holds the component. -/
def spawnWorld : WorldState Int :=
  ⟨⟨[(0, ⟨[some 1]⟩)], by simp⟩, [], 1⟩

/-- The entity and component state with one component type (key 0) and one entity, whose
`hp` is `v`. -/
def hpState (v : Int) : WorldState Int :=
  ⟨⟨[(0, ⟨[some v]⟩)], by simp⟩, [], 1⟩

/-- A world in state `hpState v` to which two systems that decrement `hp` were added, under
the names of the test, `MySystemClass` first. -/
def twoSystemsWorld (v : Int) : World Int :=
  ((World.addSystem ⟨hpState v, FlatMap.empty⟩
      (createSystem [0] "MySystemClass".toList decrementHp 0)).next
    (fun w => w.addSystem (createSystem [0] "MySystem".toList decrementHp 0))).state

/-- A world in state `hpState v` to which two systems over the signature (A) were added: "A",
whose callback `readUnregistered` throws, and "B", which decrements `hp`. -/
def throwingSystemsWorld (v : Int) : World Int :=
  ((World.addSystem ⟨hpState v, FlatMap.empty⟩
      (createSystem [0] "A".toList readUnregistered 0)).next
    (fun w => w.addSystem (createSystem [0] "B".toList decrementHp 0))).state

/-- The scenario of C7 with `A` registered under key 0 and `B` under key 1: register both,
add the system, create three entities, attach `A{h}` and `B{h}` to entities 0 and 2 and
`B{h}` to entity 1. -/
def scenario (h : Int) : Res (World Int) Int :=
  (World.new.onState (fun s => s.registerComponents [0, 1]))
    |>.next (fun w => w.addSystem (createSystem [0, 1] "MySystem".toList (decrementBoth 0 1) 0))
    |>.next (fun w => w.onState WorldState.createEntity)
    |>.next (fun w => w.onState WorldState.createEntity)
    |>.next (fun w => w.onState WorldState.createEntity)
    |>.next (fun w => w.onState (fun s => s.addComponentToEntity 0 0 h))
    |>.next (fun w => w.onState (fun s => s.addComponentToEntity 1 0 h))
    |>.next (fun w => w.onState (fun s => s.addComponentToEntity 0 2 h))
    |>.next (fun w => w.onState (fun s => s.addComponentToEntity 1 2 h))
    |>.next (fun w => w.onState (fun s => s.addComponentToEntity 1 1 h))

/-- The entity and component state the scenario sets up. -/
def scenarioState (h : Int) : WorldState Int :=
  ⟨⟨[(0, ⟨[some h, none, some h]⟩), (1, ⟨[some h, some h, some h]⟩)], by simp⟩, [], 3⟩

/-- The store after a call of `set` or `erase`.  Both throw before they write, so the store
is the one the call produced, or the store as it was when the call threw. -/
def SparseArray.after {α : Type} (s : SparseArray α) (r : Except Exn (SparseArray α)) :
    SparseArray α :=
  match r with
  | .ok s1 => s1
  | .error _ => s

/-- A store of length 3 with values at indices 0 and 2 and an absent slot at index 1. -/
def sampleStore : SparseArray Int := ⟨[some 4, none, some 6]⟩

/-- A bus on which the event type 0 was ensured and nothing else was done:
`initEventHandler<E>()` on the manager as constructed. -/
def ensuredBus : Engine.Event.EventManager Int :=
  Engine.Event.EventManager.new.initEventHandler 0

/-- A bus on which the event types 0 and 1 were ensured: `initEventHandlers<E1, E2>()` on
the manager as constructed. -/
def twoTypesBus : Engine.Event.EventManager Int :=
  Engine.Event.EventManager.new.initEventHandlers [0, 1]

/-- A bus state in which the handler of type 0 holds `[10, .., 16]` and the handler of type
1 holds `[20, 21]`. -/
def loadedBus : Engine.Event.EventManager Int :=
  ⟨⟨[(0, ⟨.handler 0 ⟨[10, 11, 12, 13, 14, 15, 16]⟩⟩), (1, ⟨.handler 1 ⟨[20, 21]⟩⟩)],
    by simp⟩⟩

/-- An event queue in which the value 7 occurs twice. -/
def sampleQueue : Engine.Event.EventHandler Int := ⟨[5, 7, 6, 7, 8]⟩

/-- A callback over the signature (A) with `A` under key 0 that stores the `deltaTime` it
receives in the component of the visited id. -/
def recordDelta : Callback ℚ := fun w deltaTime idx _ => ⟨w.assign 0 idx deltaTime, .ok ()⟩

/-- The entity and component state with one component type (key 0) and one entity, whose
component holds `v`. -/
def deltaState (v : ℚ) : WorldState ℚ :=
  ⟨⟨[(0, ⟨[some v]⟩)], by simp⟩, [], 1⟩

/-- A world in state `deltaState v` to which the system `recordDelta` was added by
`addSystem(createSystem<A>(world, "Rec", recordDelta))` at time `now`. -/
def recordingWorld (v now : ℚ) : World ℚ :=
  (World.addSystem ⟨deltaState v, FlatMap.empty⟩
    (createSystem [0] "Rec".toList recordDelta now)).state

/-- A call of the entity and component interface of `World`, as a value: the calls of which
a sequence of operations is made. -/
inductive WorldCall (α : Type) where
  | createEntity
  | killEntity (aIndex : Nat)
  | addComponentToEntity (typeIndex : TypeIndex) (aIndex : Nat) (aComponent : α)
  | emplaceComponentToEntity (typeIndex : TypeIndex) (aIndex : Nat) (aValue : α)
  | removeComponentFromEntity (typeIndex : TypeIndex) (aIndex : Nat)

/-- The world a call leaves, whether the call returned or threw. -/
def WorldCall.after {α : Type} : WorldCall α → WorldState α → WorldState α
  | .createEntity, w => w.createEntity.state
  | .killEntity aIndex, w => (w.killEntity aIndex).state
  | .addComponentToEntity t aIndex v, w => (w.addComponentToEntity t aIndex v).state
  | .emplaceComponentToEntity t aIndex v, w => (w.emplaceComponentToEntity t aIndex v).state
  | .removeComponentFromEntity t aIndex, w => (w.removeComponentFromEntity t aIndex).state

/-- The world a sequence of calls leaves, each call made on the world the previous one
left. -/
def WorldState.afterCalls {α : Type} (w : WorldState α) : List (WorldCall α) → WorldState α
  | [] => w
  | c :: rest => WorldState.afterCalls (c.after w) rest

/-- A world together with the ids that are live in it: returned by `createEntity` and not
killed since. -/
structure Tracked (α : Type) where
  world : WorldState α
  live : List Nat

/-- One call under the discipline that `killEntity` is only called on a live id: `none`
when the call breaks the discipline, otherwise the world the call leaves and the ids that
are then live. -/
def Tracked.call {α : Type} (s : Tracked α) : WorldCall α → Option (Tracked α)
  | .createEntity =>
    match s.world.createEntity with
    | ⟨w, .ok newIdx⟩ => some ⟨w, newIdx :: s.live⟩
    | ⟨w, .error _⟩ => some ⟨w, s.live⟩
  | .killEntity aIndex =>
    if aIndex ∈ s.live then
      some ⟨(s.world.killEntity aIndex).state, s.live.filter (fun x => decide (x ≠ aIndex))⟩
    else none
  | c => some ⟨c.after s.world, s.live⟩

/-- A sequence of calls under the discipline of `Tracked.call`. -/
def Tracked.calls {α : Type} (s : Tracked α) : List (WorldCall α) → Option (Tracked α)
  | [] => some s
  | c :: rest =>
    match s.call c with
    | none => none
    | some s1 => Tracked.calls s1 rest

/-- The registered types are `K` and every registered store is at least as long as the
ceiling. -/
def WorldState.CoversCeiling {α : Type} (w : WorldState α) (K : List TypeIndex) : Prop :=
  w._components.keys = K ∧ ∀ t s, w._components.find t = some s → w._nextId ≤ s.size

/-- A world with three component types (keys 0, 1, 2) and one entity, in which the stores
of types 0 and 2 were grown to two slots by `emplaceComponentToEntity` at index 1 and the
store of type 1 has the one slot `createEntity` gave it. -/
def unevenWorld : WorldState Int :=
  ⟨⟨[(0, ⟨[some 1, some 2]⟩), (1, ⟨[some 3]⟩), (2, ⟨[some 4, some 5]⟩)], by simp⟩, [], 1⟩

/-! ## Lemmas: vectors and stores -/

theorem vectorResize_length {τ : Type} (l : List τ) (n : Nat) (v : τ) :
    (vectorResize l n v).length = n := by
  simp only [vectorResize, List.length_append, List.length_take, List.length_replicate]
  omega

theorem vectorResize_getElem? {τ : Type} (l : List τ) (n : Nat) (v : τ) (j : Nat)
    (hn : l.length ≤ n) :
    (vectorResize l n v)[j]? = if j < l.length then l[j]? else if j < n then some v else none := by
  unfold vectorResize
  rw [List.take_of_length_le hn]
  by_cases h : j < l.length
  · rw [List.getElem?_append_left h, if_pos h]
  · rw [List.getElem?_append_right (not_lt.mp h), if_neg h, List.getElem?_replicate]
    by_cases h2 : j < n
    · rw [if_pos h2, if_pos (by omega)]
    · rw [if_neg h2, if_neg (by omega)]

namespace SparseArray

variable {α : Type}

/-- Below `SIZE_MAX` the sum `aIndex + 1` of `init` does not wrap. -/
theorem init_of_lt (s : SparseArray α) (i : Nat) (hi : i + 1 < 2 ^ 64) :
    s.init i =
      ⟨(if i ≥ s._array.length then vectorResize s._array (i + 1) none
        else s._array).set i none⟩ := by
  unfold init
  rw [Nat.mod_eq_of_lt hi]

/-- At `SIZE_MAX` the sum `aIndex + 1` of `init` is 0: the store is emptied. -/
theorem init_sizeMax (s : SparseArray α) (hs : s._array.length ≤ 2 ^ 64 - 1) :
    s.init (2 ^ 64 - 1) = ⟨[]⟩ := by
  unfold init
  rw [if_pos hs]
  have h0 : (2 ^ 64 - 1 + 1) % 2 ^ 64 = 0 := by norm_num
  rw [h0]
  simp [vectorResize]

theorem init_length (s : SparseArray α) (i : Nat) (hi : i + 1 < 2 ^ 64) :
    (s.init i)._array.length = max s._array.length (i + 1) := by
  rw [init_of_lt s i hi]
  by_cases h : i ≥ s._array.length
  · simp only [h, if_true, List.length_set, vectorResize_length]
    omega
  · simp only [h, if_false, List.length_set]
    omega

theorem init_getElem? (s : SparseArray α) (i j : Nat) (hi : i + 1 < 2 ^ 64) :
    (s.init i)._array[j]? =
      if j = i then some none
      else if j < s._array.length then s._array[j]?
      else if j < i + 1 then some none else none := by
  rw [init_of_lt s i hi]
  by_cases h : i ≥ s._array.length
  · simp only [h, if_true, List.getElem?_set, vectorResize_length]
    rw [vectorResize_getElem? _ _ _ _ (by omega)]
    by_cases hj : j = i
    · subst hj
      simp
    · simp [hj, Ne.symm hj]
  · simp only [h, if_false, List.getElem?_set]
    by_cases hj : j = i
    · subst hj
      simp at h
      simp [h]
    · simp only [hj, Ne.symm hj, if_false]
      by_cases h3 : j < s._array.length
      · simp [h3]
      · simp only [h3, if_false]
        rw [List.getElem?_eq_none (by omega)]
        simp at h
        rw [if_neg (by omega)]

theorem has_of_lt (s : SparseArray α) (i : Nat) (h : i < s._array.length) :
    s.has i = .ok (s._array.getD i none).isSome := by
  unfold has
  rw [if_neg (by omega)]

theorem has_of_ge (s : SparseArray α) (i : Nat) (h : s._array.length ≤ i) :
    s.has i = .error .SparseArrayExceptionOutOfRange := by
  unfold has
  rw [if_pos h]

theorem erase_of_lt (s : SparseArray α) (i : Nat) (h : i < s._array.length) :
    s.erase i = .ok ⟨s._array.set i none⟩ := by
  unfold erase
  rw [if_neg (by omega)]

theorem has_init (s : SparseArray α) (i : Nat) (hi : i + 1 < 2 ^ 64) :
    (s.init i).has i = .ok false := by
  have hlen := init_length s i hi
  have hget := init_getElem? s i i hi
  rw [has_of_lt _ _ (by omega)]
  rw [List.getD_eq_getElem?_getD, hget]
  simp

end SparseArray

/-! ## Lemmas: `flat_map` -/

namespace FlatMap

variable {κ β : Type} [LinearOrder κ]

theorem findRaw_modifyRaw (k k' : κ) (f : β → β) (l : List (κ × β)) :
    findRaw k' (modifyRaw k f l) = if k' = k then (findRaw k l).map f else findRaw k' l := by
  induction l with
  | nil => simp [modifyRaw, findRaw]
  | cons e r ih =>
    simp only [modifyRaw, List.map_cons] at ih ⊢
    by_cases h1 : e.1 = k
    · by_cases h2 : k' = k
      · subst h2
        simp [findRaw, h1]
      · have h3 : ¬ e.1 = k' := fun h => h2 (h ▸ h1)
        simp only [h1, if_true, findRaw, h2, if_false]
        rw [if_neg (fun h => h2 h.symm), if_neg (fun h => h2 h.symm), ih, if_neg h2]
    · by_cases h2 : k' = k
      · subst h2
        simp only [h1, if_false, findRaw, if_true]
        rw [ih, if_pos rfl]
      · simp only [h1, if_false, findRaw, h2]
        rw [ih, if_neg h2]

theorem findRaw_insertRaw (k k' : κ) (v : β) (l : List (κ × β)) :
    findRaw k' (insertRaw k v l) = if k' = k then some v else findRaw k' l := by
  induction l with
  | nil =>
    by_cases h : k' = k
    · simp [insertRaw, findRaw, h]
    · simp [insertRaw, findRaw, h, Ne.symm h]
  | cons e r ih =>
    simp only [insertRaw]
    by_cases h3 : k' = k
    · subst h3
      by_cases h1 : k' < e.1
      · simp [h1, findRaw]
      · by_cases h2 : k' = e.1
        · simp [h2, findRaw]
        · simp only [h1, h2, if_false, findRaw, if_true]
          rw [if_neg (fun h => h2 h.symm), ih, if_pos rfl]
    · rw [if_neg h3]
      by_cases h1 : k < e.1
      · simp only [h1, if_true]
        rw [findRaw]
        exact if_neg (fun h => h3 h.symm)
      · by_cases h2 : k = e.1
        · rw [if_neg h1, if_pos h2]
          have h4 : ¬ k = k' := fun h => h3 h.symm
          have h5 : ¬ e.1 = k' := fun h => h3 (h.symm.trans h2.symm)
          simp only [findRaw]
          rw [if_neg h4, if_neg h5]
        · simp only [h1, h2, if_false, findRaw]
          rw [ih, if_neg h3]

theorem findRaw_eraseRaw (k k' : κ) (l : List (κ × β)) :
    findRaw k' (eraseRaw k l) = if k' = k then none else findRaw k' l := by
  induction l with
  | nil => simp [eraseRaw, findRaw]
  | cons e r ih =>
    simp only [eraseRaw] at ih ⊢
    by_cases h1 : e.1 = k
    · have : decide (e.1 ≠ k) = false := by simp [h1]
      rw [List.filter_cons_of_neg (by simp [h1]), ih]
      by_cases h2 : k' = k
      · simp [h2]
      · have h3 : ¬ e.1 = k' := fun h => h2 (h ▸ h1)
        simp [findRaw, h2, h3]
    · rw [List.filter_cons_of_pos (by simp [h1])]
      simp only [findRaw]
      rw [ih]
      by_cases h2 : k' = k
      · have h3 : ¬ e.1 = k' := fun h => h1 (h.trans h2)
        simp [h2, h3, h1]
      · simp [h2]

theorem findRaw_isSome_iff (k : κ) (l : List (κ × β)) :
    (findRaw k l).isSome = true ↔ k ∈ l.map Prod.fst := by
  induction l with
  | nil => simp [findRaw]
  | cons e r ih =>
    by_cases h : e.1 = k
    · simp [findRaw, h]
    · simp only [findRaw, h, if_false, List.map_cons, List.mem_cons]
      rw [ih]
      constructor
      · exact Or.inr
      · rintro (h1 | h1)
        · exact absurd h1.symm h
        · exact h1

theorem find_modify (m : FlatMap κ β) (k k' : κ) (f : β → β) :
    (m.modify k f).find k' = if k' = k then (m.find k).map f else m.find k' :=
  findRaw_modifyRaw k k' f m.entries

theorem find_insert (m : FlatMap κ β) (k k' : κ) (v : β) :
    (m.insert k v).find k' = if k' = k then some v else m.find k' :=
  findRaw_insertRaw k k' v m.entries

theorem find_erase (m : FlatMap κ β) (k k' : κ) :
    (m.erase k).find k' = if k' = k then none else m.find k' :=
  findRaw_eraseRaw k k' m.entries

theorem keys_modify (m : FlatMap κ β) (k : κ) (f : β → β) : (m.modify k f).keys = m.keys :=
  keys_modifyRaw k f m.entries

theorem mem_keys_iff (m : FlatMap κ β) (k : κ) : k ∈ m.keys ↔ ∃ v, m.find k = some v := by
  rw [← Option.isSome_iff_exists]
  exact (findRaw_isSome_iff k m.entries).symm

theorem keys_nodup (m : FlatMap κ β) : m.keys.Nodup :=
  m.ordered.imp (fun h => ne_of_lt h)

end FlatMap

/-! ## Lemmas: the component loops of `createEntity` and `killEntity` -/

namespace WorldState

variable {α : Type}

theorem getComponent_of_find (w : WorldState α) (t : TypeIndex) (s : SparseArray α)
    (h : w._components.find t = some s) : w.getComponent t = .ok s := by
  unfold getComponent
  rw [h]

theorem getComponent_of_find_none (w : WorldState α) (t : TypeIndex)
    (h : w._components.find t = none) :
    w.getComponent t = .error .WorldExceptionComponentNotRegistered := by
  unfold getComponent
  rw [h]

theorem initFunc_of_find (t : TypeIndex) (w : WorldState α) (i : Nat) (s : SparseArray α)
    (h : w._components.find t = some s) :
    initFunc t w i =
      ⟨{ w with _components := w._components.modify t (fun _ => s.init i) }, .ok ()⟩ := by
  unfold initFunc
  rw [getComponent_of_find w t s h]

theorem eraseFunc_of_find (t : TypeIndex) (w : WorldState α) (i : Nat) (s s1 : SparseArray α)
    (h : w._components.find t = some s) (he : s.erase i = .ok s1) :
    eraseFunc t w i =
      ⟨{ w with _components := w._components.modify t (fun _ => s1) }, .ok ()⟩ := by
  unfold eraseFunc
  rw [getComponent_of_find w t s h]
  simp only [he]

/-- A loop whose closure rewrites the store of its key by `g` runs to the end when `g`
succeeds on every store it meets, and rewrites exactly the stores of the visited keys. -/
theorem forComponents_ok (f : TypeIndex → WorldState α → Nat → Res (WorldState α) Unit)
    (g : SparseArray α → Except Exn (SparseArray α)) (i : Nat)
    (hf : ∀ t (w : WorldState α) s s1, w._components.find t = some s → g s = .ok s1 →
      f t w i = ⟨{ w with _components := w._components.modify t (fun _ => s1) }, .ok ()⟩)
    (ts : List TypeIndex) (w : WorldState α) (hnd : ts.Nodup)
    (hts : ∀ t ∈ ts, ∃ s s1, w._components.find t = some s ∧ g s = .ok s1) :
    ∃ r : WorldState α, forComponents f i ts w = ⟨r, .ok ()⟩ ∧ r._ids = w._ids ∧
      r._nextId = w._nextId ∧ r._components.keys = w._components.keys ∧
      ∀ t, r._components.find t =
        if t ∈ ts then (w._components.find t).bind (fun s => (g s).toOption)
        else w._components.find t := by
  induction ts generalizing w with
  | nil => exact ⟨w, rfl, rfl, rfl, rfl, fun t => by simp⟩
  | cons t ts ih =>
    obtain ⟨s, s1, hs, hg⟩ := hts t (List.mem_cons_self t ts)
    have hnd' := List.nodup_cons.mp hnd
    have hstep := hf t w s s1 hs hg
    have hfind : ∀ x, x ≠ t →
        (w._components.modify t (fun _ => s1)).find x = w._components.find x := by
      intro x hx
      rw [FlatMap.find_modify, if_neg hx]
    obtain ⟨r, hr, hids, hnext, hkeys, hfindr⟩ :=
      ih { w with _components := w._components.modify t (fun _ => s1) } hnd'.2
        (by
          intro x hx
          have hxt : x ≠ t := fun h => hnd'.1 (h ▸ hx)
          obtain ⟨sx, sx1, h1, h2⟩ := hts x (List.mem_cons_of_mem t hx)
          exact ⟨sx, sx1, by simpa [hfind x hxt] using h1, h2⟩)
    refine ⟨r, ?_, hids, hnext, ?_, ?_⟩
    · simp only [forComponents, hstep]
      exact hr
    · rw [hkeys]
      exact FlatMap.keys_modify _ _ _
    · intro x
      rw [hfindr x]
      by_cases hxt : x = t
      · subst hxt
        simp only [hnd'.1, if_false, List.mem_cons, true_or, if_true]
        rw [FlatMap.find_modify, if_pos rfl, hs]
        simp [hg, Except.toOption]
      · simp only [List.mem_cons, hxt, false_or]
        rw [hfind x hxt]

/-- The id chosen by `createEntity`. -/
theorem createEntity_spec (w : WorldState α) :
    ∃ r : WorldState α,
      w.createEntity =
        ⟨r, .ok (if w._ids.isEmpty then w._nextId
                  else derefErased w._ids (minElement w._ids))⟩ ∧
      r._ids = (if w._ids.isEmpty then w._ids else w._ids.eraseIdx (minElement w._ids)) ∧
      r._nextId = (if w._ids.isEmpty then w._nextId + 1 else w._nextId) ∧
      r._components.keys = w._components.keys ∧
      ∀ t, r._components.find t =
        (w._components.find t).map
          (fun s => s.init (if w._ids.isEmpty then w._nextId
                            else derefErased w._ids (minElement w._ids))) := by
  generalize hn : (if w._ids.isEmpty then w._nextId
                    else derefErased w._ids (minElement w._ids)) = newIdx
  generalize hw1 : (if w._ids.isEmpty then { w with _nextId := w._nextId + 1 }
      else { w with _ids := w._ids.eraseIdx (minElement w._ids) } : WorldState α) = w1
  have hc : w1._components = w._components := by
    rw [← hw1]; split_ifs <;> rfl
  obtain ⟨r, hr, hids, hnext, hkeys, hfind⟩ :=
    forComponents_ok initFunc (fun s => .ok (s.init newIdx)) newIdx
      (fun t w s s1 hs hg => by
        rw [initFunc_of_find t w newIdx s hs]
        cases hg
        rfl)
      w1._components.keys w1 w1._components.keys_nodup
      (fun t ht => by
        obtain ⟨s, hs⟩ := (FlatMap.mem_keys_iff _ _).mp ht
        exact ⟨s, _, hs, rfl⟩)
  refine ⟨r, ?_, ?_, ?_, ?_, ?_⟩
  · simp only [createEntity, hn, hw1, hr]
  · rw [hids, ← hw1]; split_ifs <;> rfl
  · rw [hnext, ← hw1]; split_ifs <;> rfl
  · rw [hkeys, hc]
  · intro t
    rw [hfind t, hc]
    by_cases ht : t ∈ w._components.keys
    · rw [if_pos ht]
      cases w._components.find t <;> simp [Except.toOption]
    · rw [if_neg ht]
      have : w._components.find t = none := by
        cases h : w._components.find t with
        | none => rfl
        | some v => exact absurd ((FlatMap.mem_keys_iff _ _).mpr ⟨v, h⟩) ht
      rw [this]
      rfl

/-- The effect of `killEntity` on an id that is in range of every store. -/
theorem killEntity_spec (w : WorldState α) (id : Nat)
    (hlen : ∀ t s, w._components.find t = some s → id < s._array.length) :
    ∃ r : WorldState α, w.killEntity id = ⟨r, .ok ()⟩ ∧ r._ids = w._ids ++ [id] ∧
      r._nextId = w._nextId ∧ r._components.keys = w._components.keys ∧
      ∀ t, r._components.find t =
        (w._components.find t).map (fun s => ⟨s._array.set id none⟩) := by
  obtain ⟨r, hr, hids, hnext, hkeys, hfind⟩ :=
    forComponents_ok eraseFunc (fun s => s.erase id) id
      (fun t w s s1 hs hg => eraseFunc_of_find t w id s s1 hs hg)
      w._components.keys { w with _ids := w._ids ++ [id] } w._components.keys_nodup
      (fun t ht => by
        obtain ⟨s, hs⟩ := (FlatMap.mem_keys_iff _ _).mp ht
        exact ⟨s, _, hs, SparseArray.erase_of_lt s id (hlen t s hs)⟩)
  refine ⟨r, ?_, hids, hnext, hkeys, ?_⟩
  · simp only [killEntity]
    exact hr
  · intro t
    rw [hfind t]
    by_cases ht : t ∈ w._components.keys
    · rw [if_pos ht]
      cases h : w._components.find t with
      | none => rfl
      | some s =>
        show (s.erase id).toOption = _
        rw [SparseArray.erase_of_lt s id (hlen t s h)]
        rfl
    · rw [if_neg ht]
      have : w._components.find t = none := by
        cases h : w._components.find t with
        | none => rfl
        | some v => exact absurd ((FlatMap.mem_keys_iff _ _).mpr ⟨v, h⟩) ht
      simp only [this]
      rfl

end WorldState

/-! ## The example worlds are reachable -/

theorem oneStoreWorld_reached :
    ((((WorldState.new.registerComponent 0).state.createEntity).state.createEntity).state
      |>.addComponentToEntity 0 1 5).state = oneStoreWorld := rfl

theorem twoStoreWorld_reached : (scenario 10).state.toWorldState = twoStoreWorld := rfl

theorem hpState_reached (v : Int) :
    (((WorldState.new.registerComponent 0).state.createEntity).state
      |>.addComponentToEntity 0 0 v).state = hpState v := rfl

theorem spawnWorld_reached : hpState 1 = spawnWorld := rfl

/-! ## Entity lifecycle (C1 to C4) -/

/-- C1, evaluated where the code departs from it: with the free list `[0, 1]` the smallest
freed id is 0, `createEntity` erases that 0 from the free list and then returns 1, the value
read through the erased iterator; the free list is left as `[1]` although 1 has just been
handed out, and the next `createEntity` returns 1 again. -/
theorem createEntity_returns_successor_of_minimum :
    killedZeroThenOne._ids = [0, 1] ∧
      killedZeroThenOne.createEntity.value = .ok 1 ∧
      killedZeroThenOne.createEntity.state._ids = [1] ∧
      killedZeroThenOne.createEntity.state._nextId = killedZeroThenOne._nextId ∧
      killedZeroThenOne.createEntity.state.createEntity.value = .ok 1 :=
  ⟨rfl, rfl, rfl, rfl, rfl⟩

/-- C2: in a world whose free list is empty, `createEntity` returns the counter, increments
the counter by exactly one and leaves the free list empty; hence the first `createEntity`
of a fresh world returns 0 and a second `createEntity` returns a different id. -/
theorem createEntity_mints_counter {α : Type} (w : WorldState α) (h : w._ids = []) :
    w.createEntity.value = .ok w._nextId ∧
      w.createEntity.state._nextId = w._nextId + 1 ∧
      w.createEntity.state._ids = [] ∧
      (WorldState.new : WorldState α).createEntity.value = .ok 0 ∧
      w.createEntity.state.createEntity.value = .ok (w._nextId + 1) ∧
      w.createEntity.state.createEntity.value ≠ w.createEntity.value := by
  obtain ⟨r, hr, hids, hnext, -, -⟩ := WorldState.createEntity_spec w
  simp only [h, List.isEmpty_nil, if_true] at hr hids hnext
  obtain ⟨r2, hr2, -, -, -, -⟩ := WorldState.createEntity_spec r
  simp only [hids, List.isEmpty_nil, if_true, hnext] at hr2
  obtain ⟨r0, hr0, -, -, -, -⟩ := WorldState.createEntity_spec (WorldState.new : WorldState α)
  have h0 : (WorldState.new : WorldState α)._ids = [] := rfl
  have h1 : (WorldState.new : WorldState α)._nextId = 0 := rfl
  simp only [h0, List.isEmpty_nil, if_true, h1] at hr0
  refine ⟨?_, ?_, ?_, ?_, ?_, ?_⟩
  · rw [hr]
  · rw [hr]
    exact hnext
  · rw [hr]
    exact hids
  · rw [hr0]
  · rw [hr]
    show r.createEntity.value = _
    rw [hr2]
  · rw [hr]
    show r.createEntity.value ≠ .ok w._nextId
    rw [hr2]
    intro hc
    injection hc with hc
    omega

/-- Witness of C2 on a default-constructed world. -/
theorem createEntity_mints_counter_witness :
    (WorldState.new : WorldState Unit)._ids = [] ∧
      (WorldState.new : WorldState Unit).createEntity.value = .ok 0 :=
  ⟨rfl, (createEntity_mints_counter (WorldState.new : WorldState Unit) rfl).1⟩

/-- C3: when `id` is below the length of every registered store, `killEntity(id)` returns
normally, `id` is in the free list afterwards, `hasComponents<T>(id)` is false for every
registered `T`, and every store keeps its length and the slot of every other id (the set of
registered types is unchanged as well). -/
theorem killEntity_erases_entity {α : Type} (w : WorldState α) (id : Nat)
    (hlen : ∀ t s, w._components.find t = some s → id < s.size) :
    (w.killEntity id).value = .ok () ∧
      id ∈ (w.killEntity id).state._ids ∧
      (w.killEntity id).state._components.keys = w._components.keys ∧
      (∀ t s, w._components.find t = some s →
        (w.killEntity id).state.hasComponents [t] id = .ok false) ∧
      (∀ t s, w._components.find t = some s →
        ∃ s1, (w.killEntity id).state._components.find t = some s1 ∧ s1.size = s.size ∧
          ∀ j, j ≠ id → s1._array[j]? = s._array[j]?) := by
  obtain ⟨r, hr, hids, -, hkeys, hfind⟩ := WorldState.killEntity_spec w id hlen
  rw [hr]
  refine ⟨rfl, ?_, hkeys, ?_, ?_⟩
  · show id ∈ r._ids
    rw [hids]
    simp
  · intro t s hs
    show r.hasComponents [t] id = .ok false
    have hft : r._components.find t = some ⟨s._array.set id none⟩ := by
      rw [hfind t, hs]
      rfl
    have hl : id < s._array.length := hlen t s hs
    simp only [WorldState.hasComponents, WorldState.getComponent_of_find r t _ hft]
    rw [SparseArray.has_of_lt _ _ (by simpa using hl)]
    simp [List.getD_eq_getElem?_getD, hl]
  · intro t s hs
    refine ⟨⟨s._array.set id none⟩, ?_, ?_, ?_⟩
    · show r._components.find t = _
      rw [hfind t, hs]
      rfl
    · simp [SparseArray.size]
    · intro j hj
      simp [List.getElem?_set, Ne.symm hj]

/-- Witness of C3: killing entity 1 of `oneStoreWorld`. -/
theorem killEntity_erases_entity_witness :
    (∀ t s, oneStoreWorld._components.find t = some s → 1 < s.size) ∧
      (oneStoreWorld.killEntity 1).value = .ok () ∧
      oneStoreWorld.hasComponents [0] 1 = .ok true ∧
      (oneStoreWorld.killEntity 1).state.hasComponents [0] 1 = .ok false :=
  have hlen : ∀ t s, oneStoreWorld._components.find t = some s → 1 < s.size := by
    intro t s h
    have h1 : FlatMap.findRaw t [((0 : TypeIndex), (⟨[none, some 5]⟩ : SparseArray Int))] =
        some s := h
    simp only [FlatMap.findRaw] at h1
    split_ifs at h1
    cases h1
    decide
  ⟨hlen, (killEntity_erases_entity oneStoreWorld 1 hlen).1, rfl,
    (killEntity_erases_entity oneStoreWorld 1 hlen).2.2.2.1 0 ⟨[none, some 5]⟩ rfl⟩

theorem minElementFrom_lt (sm v i : Nat) (rest : List Nat) (h : sm < i) :
    minElementFrom sm v i rest < i + rest.length := by
  induction rest generalizing sm v i with
  | nil => simpa [minElementFrom] using h
  | cons x rest ih =>
    simp only [minElementFrom, List.length_cons]
    split_ifs
    · have := ih i x (i + 1) (by omega)
      omega
    · have := ih sm v (i + 1) (by omega)
      omega

theorem minElement_lt (l : List Nat) (h : l ≠ []) : minElement l < l.length := by
  cases l with
  | nil => exact absurd rfl h
  | cons x rest =>
    have := minElementFrom_lt 0 x 1 rest (by omega)
    simp only [minElement, List.length_cons]
    omega

/-- What is read through the erased iterator is an element the vector had. -/
theorem derefErased_mem (l : List Nat) (p : Nat) (hp : p < l.length) :
    derefErased l p ∈ l := by
  unfold derefErased
  by_cases h : p < (l.eraseIdx p).length
  · rw [List.getD_eq_getElem?_getD, List.getElem?_eq_getElem h, Option.getD_some]
    exact (List.eraseIdx_sublist l p).subset (List.getElem_mem _)
  · rw [List.getD_eq_getElem?_getD, List.getElem?_eq_none (by omega), Option.getD_none,
      List.getD_eq_getElem?_getD, List.getElem?_eq_getElem hp, Option.getD_some]
    exact List.getElem_mem _

/-- The id `createEntity` chooses is the counter or an element of the free list. -/
theorem WorldState.chosen_id_lt {α : Type} (w : WorldState α) (n : Nat)
    (hn : w._nextId < n) (hids : ∀ i ∈ w._ids, i < n) :
    (if w._ids.isEmpty then w._nextId else derefErased w._ids (minElement w._ids)) < n := by
  cases he : w._ids.isEmpty
  · simp only [Bool.false_eq_true, if_false]
    have hne : w._ids ≠ [] := by
      intro h
      rw [h] at he
      cases he
    exact hids _ (derefErased_mem _ _ (minElement_lt _ hne))
  · simp only [if_true]
    exact hn

/-- C4 fails as stated: `killEntity(SIZE_MAX)` on `oneStoreWorld` throws OutOfRange and
leaves `SIZE_MAX` on the free list; the next `createEntity` returns that id, and the
`init(SIZE_MAX)` it runs empties the store of type 0: the store is not longer than the id,
`has(id)` throws OutOfRange, and entity 1 has lost its component. -/
theorem createEntity_recycles_size_max :
    oneStoreWorld._components.find 0 = some ⟨[none, some 5]⟩ ∧
      (oneStoreWorld.killEntity (2 ^ 64 - 1)).value = .error .SparseArrayExceptionOutOfRange ∧
      (oneStoreWorld.killEntity (2 ^ 64 - 1)).state._ids = [2 ^ 64 - 1] ∧
      (oneStoreWorld.killEntity (2 ^ 64 - 1)).state.createEntity.value = .ok (2 ^ 64 - 1) ∧
      (oneStoreWorld.killEntity (2 ^ 64 - 1)).state.createEntity.state._components.find 0
        = some ⟨[]⟩ ∧
      (⟨[]⟩ : SparseArray Int).size = 0 ∧
      (⟨[]⟩ : SparseArray Int).has (2 ^ 64 - 1) = .error .SparseArrayExceptionOutOfRange ∧
      (oneStoreWorld.killEntity (2 ^ 64 - 1)).state.createEntity.state.component 0 1
        = .error .SparseArrayExceptionOutOfRange :=
  ⟨rfl, rfl, rfl, rfl, rfl, rfl, rfl, rfl⟩

/-- C4 as amended: let the counter and every id on the free list be below `max_size`, the
greatest length of a vector (at most `SIZE_MAX`).  For every registered component type
`T`, `createEntity` returns an id such that afterwards
`T`'s store is longer than the id and `has(id)` is false, whether the id was minted or
reused; every slot the store had for another id is unchanged, and no other id gains or
loses a component (slots added by the growth of the store are absent). -/
theorem createEntity_inits_stores {α : Type} (w : WorldState α) (t : TypeIndex)
    (s : SparseArray α) (ht : w._components.find t = some s)
    (max_size : Nat) (hmax : max_size ≤ 2 ^ 64 - 1)
    (hn : w.getCurrentId < max_size) (hids : ∀ i ∈ w._ids, i < max_size) :
    ∃ id s1, w.createEntity.value = .ok id ∧
      w.createEntity.state._components.find t = some s1 ∧
      id < s1.size ∧ s1.has id = .ok false ∧
      (∀ j, j ≠ id → j < s.size → s1._array[j]? = s._array[j]?) ∧
      (∀ j, j ≠ id → s1._array.getD j none = s._array.getD j none) := by
  obtain ⟨r, hr, -, -, -, hfind⟩ := WorldState.createEntity_spec w
  have hlt := WorldState.chosen_id_lt w max_size hn hids
  generalize (if w._ids.isEmpty then w._nextId
    else derefErased w._ids (minElement w._ids)) = id at hr hfind hlt
  have hi : id + 1 < 2 ^ 64 := by omega
  refine ⟨id, s.init id, ?_, ?_, ?_, SparseArray.has_init s id hi, ?_, ?_⟩
  · rw [hr]
  · rw [hr]
    show r._components.find t = _
    rw [hfind t, ht]
    rfl
  · have := SparseArray.init_length s id hi
    simp only [SparseArray.size]
    omega
  · intro j hj hlt
    rw [SparseArray.init_getElem? _ _ _ hi, if_neg hj,
      if_pos (show j < s._array.length from hlt)]
  · intro j hj
    rw [List.getD_eq_getElem?_getD, List.getD_eq_getElem?_getD,
      SparseArray.init_getElem? _ _ _ hi, if_neg hj]
    by_cases h1 : j < s._array.length
    · rw [if_pos h1]
    · rw [if_neg h1, List.getElem?_eq_none (by omega)]
      split_ifs <;> rfl

/-- Witness of amended C4: `createEntity` on `oneStoreWorld` mints id 2 and grows the
store. -/
theorem createEntity_inits_stores_witness :
    oneStoreWorld._components.find 0 = some ⟨[none, some 5]⟩ ∧
      2 ^ 60 - 1 ≤ 2 ^ 64 - 1 ∧
      oneStoreWorld.getCurrentId < 2 ^ 60 - 1 ∧ (∀ i ∈ oneStoreWorld._ids, i < 2 ^ 60 - 1) ∧
      ∃ id s1, oneStoreWorld.createEntity.value = .ok id ∧
        oneStoreWorld.createEntity.state._components.find 0 = some s1 ∧
        id < s1.size ∧ s1.has id = .ok false ∧
        (∀ j, j ≠ id → j < (⟨[none, some 5]⟩ : SparseArray Int).size →
          s1._array[j]? = (⟨[none, some 5]⟩ : SparseArray Int)._array[j]?) ∧
        (∀ j, j ≠ id →
          s1._array.getD j none = (⟨[none, some 5]⟩ : SparseArray Int)._array.getD j none) :=
  ⟨rfl, by decide, by decide, fun _ h => absurd h (List.not_mem_nil _),
    createEntity_inits_stores oneStoreWorld 0 ⟨[none, some 5]⟩ rfl (2 ^ 60 - 1) (by decide)
      (by decide) (fun _ h => absurd h (List.not_mem_nil _))⟩

/-! ## `hasComponents` (C10) -/

/-- C10: for a list of registered component types whose stores are all longer than `id`,
`hasComponents<T1..Tn>(id)` returns a value, and the value is `true` if and only if
`has(id)` is true in the store of every `Ti` (this includes the empty list, where the fold
is `true`). -/
theorem hasComponents_iff_all_has {α : Type} (w : WorldState α) (ts : List TypeIndex)
    (id : Nat)
    (hreg : ∀ t ∈ ts, ∃ s, w._components.find t = some s ∧ id < s.size) :
    ∃ b, w.hasComponents ts id = .ok b ∧
      (b = true ↔ ∀ t ∈ ts, ∃ s, w._components.find t = some s ∧ s.has id = .ok true) := by
  induction ts with
  | nil => exact ⟨true, rfl, by simp⟩
  | cons t ts ih =>
    obtain ⟨s, hs, hlt⟩ := hreg t (List.mem_cons_self t ts)
    obtain ⟨b, hb, hiff⟩ := ih (fun x hx => hreg x (List.mem_cons_of_mem t hx))
    have hhas : s.has id = .ok (s._array.getD id none).isSome := SparseArray.has_of_lt s id hlt
    cases hv : (s._array.getD id none).isSome with
    | false =>
      rw [hv] at hhas
      refine ⟨false, ?_, ?_⟩
      · simp only [WorldState.hasComponents, WorldState.getComponent_of_find w t s hs, hhas]
      · constructor
        · intro h
          cases h
        · intro h
          obtain ⟨s', hs', hhas'⟩ := h t (List.mem_cons_self t ts)
          rw [hs] at hs'
          cases hs'
          rw [hhas] at hhas'
          cases hhas'
    | true =>
      rw [hv] at hhas
      refine ⟨b, ?_, ?_⟩
      · simp only [WorldState.hasComponents, WorldState.getComponent_of_find w t s hs, hhas]
        exact hb
      · rw [hiff]
        constructor
        · intro h x hx
          rcases List.mem_cons.mp hx with rfl | hx
          · exact ⟨s, hs, hhas⟩
          · exact h x hx
        · intro h x hx
          exact h x (List.mem_cons_of_mem t hx)

/-- Witness of C10 on `twoStoreWorld`: entity 1 lacks the first component, so the
conjunction over both types is false. -/
theorem hasComponents_iff_all_has_witness :
    (∀ t ∈ [0, 1], ∃ s, twoStoreWorld._components.find t = some s ∧ 1 < s.size) ∧
      twoStoreWorld.hasComponents [0, 1] 1 = .ok false ∧
      ∃ b, twoStoreWorld.hasComponents [0, 1] 1 = .ok b ∧
        (b = true ↔
          ∀ t ∈ [0, 1], ∃ s, twoStoreWorld._components.find t = some s ∧ s.has 1 = .ok true) :=
  have hreg : ∀ t ∈ [0, 1], ∃ s, twoStoreWorld._components.find t = some s ∧ 1 < s.size := by
    intro t ht
    simp only [List.mem_cons, List.mem_singleton, List.not_mem_nil, or_false] at ht
    rcases ht with rfl | rfl
    · exact ⟨⟨[some 10, none, some 10]⟩, rfl, by decide⟩
    · exact ⟨⟨[some 10, some 10, some 10]⟩, rfl, by decide⟩
  ⟨hreg, rfl, hasComponents_iff_all_has twoStoreWorld [0, 1] 1 hreg⟩

/-! ## `Query::forEach` (C5, C6) -/

namespace Query

variable {α : Type}

theorem forEachFrom_end (sig : List TypeIndex) (dt : ℚ) (func : Callback α) (fuel idx : Nat)
    (w : WorldState α) (h : ¬ idx < w._nextId) :
    forEachFrom sig dt func fuel idx w = ⟨w, [], .done⟩ := by
  cases fuel with
  | zero => simp [forEachFrom, WorldState.getCurrentId, h]
  | succ fuel => simp [forEachFrom, WorldState.getCurrentId, h]

theorem forEachFrom_zero (sig : List TypeIndex) (dt : ℚ) (func : Callback α) (idx : Nat)
    (w : WorldState α) (h : idx < w._nextId) :
    forEachFrom sig dt func 0 idx w = ⟨w, [], .fuelOut⟩ := by
  simp [forEachFrom, WorldState.getCurrentId, h]

theorem forEachFrom_throw (sig : List TypeIndex) (dt : ℚ) (func : Callback α) (fuel idx : Nat)
    (w : WorldState α) (e : Exn) (h : idx < w._nextId) (hc : w.hasComponents sig idx = .error e) :
    forEachFrom sig dt func (fuel + 1) idx w = ⟨w, [], .raised e⟩ := by
  simp [forEachFrom, WorldState.getCurrentId, h, hc]

theorem forEachFrom_skip (sig : List TypeIndex) (dt : ℚ) (func : Callback α) (fuel idx : Nat)
    (w : WorldState α) (h : idx < w._nextId) (hc : w.hasComponents sig idx = .ok false) :
    forEachFrom sig dt func (fuel + 1) idx w = forEachFrom sig dt func fuel (idx + 1) w := by
  simp [forEachFrom, WorldState.getCurrentId, h, hc]

theorem forEachFrom_refs_throw (sig : List TypeIndex) (dt : ℚ) (func : Callback α)
    (fuel idx : Nat) (w : WorldState α) (e : Exn) (h : idx < w._nextId)
    (hc : w.hasComponents sig idx = .ok true) (hr : componentRefs w sig idx = .error e) :
    forEachFrom sig dt func (fuel + 1) idx w = ⟨w, [], .raised e⟩ := by
  simp [forEachFrom, WorldState.getCurrentId, h, hc, hr]

theorem forEachFrom_call_throw (sig : List TypeIndex) (dt : ℚ) (func : Callback α)
    (fuel idx : Nat) (w w1 : WorldState α) (refs : List α) (e : Exn) (h : idx < w._nextId)
    (hc : w.hasComponents sig idx = .ok true) (hr : componentRefs w sig idx = .ok refs)
    (hf : func w dt idx refs = ⟨w1, .error e⟩) :
    forEachFrom sig dt func (fuel + 1) idx w = ⟨w1, [idx], .raised e⟩ := by
  simp [forEachFrom, WorldState.getCurrentId, h, hc, hr, hf]

theorem forEachFrom_call (sig : List TypeIndex) (dt : ℚ) (func : Callback α)
    (fuel idx : Nat) (w w1 : WorldState α) (refs : List α) (u : Unit) (h : idx < w._nextId)
    (hc : w.hasComponents sig idx = .ok true) (hr : componentRefs w sig idx = .ok refs)
    (hf : func w dt idx refs = ⟨w1, .ok u⟩) :
    forEachFrom sig dt func (fuel + 1) idx w =
      ⟨(forEachFrom sig dt func fuel (idx + 1) w1).world,
        idx :: (forEachFrom sig dt func fuel (idx + 1) w1).visited,
        (forEachFrom sig dt func fuel (idx + 1) w1).status⟩ := by
  simp [forEachFrom, WorldState.getCurrentId, h, hc, hr, hf]

/-- When `hasComponents` holds at an id, every `get` of the argument pack succeeds. -/
theorem componentRefs_of_hasComponents (w : WorldState α) (sig : List TypeIndex) (idx : Nat)
    (h : w.hasComponents sig idx = .ok true) : ∃ refs, componentRefs w sig idx = .ok refs := by
  induction sig with
  | nil => exact ⟨[], rfl⟩
  | cons t ts ih =>
    simp only [WorldState.hasComponents] at h
    cases hg : w.getComponent t with
    | error e => simp [hg] at h
    | ok s =>
      simp only [hg] at h
      cases hh : s.has idx with
      | error e => simp [hh] at h
      | ok b =>
        cases b with
        | false => simp [hh] at h
        | true =>
          simp only [hh] at h
          obtain ⟨refs, hrefs⟩ := ih h
          unfold SparseArray.has at hh
          split_ifs at hh with hlen
          injection hh with hh
          cases hv : s._array.getD idx none with
          | none =>
            rw [hv] at hh
            cases hh
          | some v =>
            have hget : s.get idx = .ok v := by
              unfold SparseArray.get
              rw [if_neg hlen, hv]
            refine ⟨v :: refs, ?_⟩
            simp only [componentRefs, hg, hget, hrefs]

end Query

namespace Query

variable {α : Type}

/-- The scan under a callback that keeps the ceiling at `n` and the signature test at `P`:
the visited ids are an initial part of the matching ids from `idx` on, all of them when the
scan runs to its end, which it does (given `n - idx` iterations) when no call raises. -/
theorem forEachFrom_scan (sig : List TypeIndex) (dt : ℚ) (func : Callback α) (n : Nat)
    (P : Nat → Bool)
    (hpres : ∀ (w : WorldState α) i refs, w._nextId = n →
      (∀ j, j < n → w.hasComponents sig j = .ok (P j)) → i < n → P i = true →
      componentRefs w sig i = .ok refs →
      (func w dt i refs).state._nextId = n ∧
        ∀ j, j < n → (func w dt i refs).state.hasComponents sig j = .ok (P j)) :
    ∀ (fuel idx : Nat) (w : WorldState α), w._nextId = n →
      (∀ j, j < n → w.hasComponents sig j = .ok (P j)) →
      (forEachFrom sig dt func fuel idx w).visited <+: (List.range' idx (n - idx)).filter P ∧
      ((forEachFrom sig dt func fuel idx w).status = .done →
        (forEachFrom sig dt func fuel idx w).visited = (List.range' idx (n - idx)).filter P) ∧
      (n - idx ≤ fuel → (forEachFrom sig dt func fuel idx w).status ≠ .fuelOut) ∧
      (n - idx ≤ fuel →
        (∀ (w : WorldState α) i refs, w._nextId = n →
          (∀ j, j < n → w.hasComponents sig j = .ok (P j)) → i < n → P i = true →
          componentRefs w sig i = .ok refs → (func w dt i refs).value = .ok ()) →
        (forEachFrom sig dt func fuel idx w).status = .done) := by
  intro fuel
  induction fuel with
  | zero =>
    intro idx w hn hP
    by_cases hlt : idx < w._nextId
    · rw [forEachFrom_zero sig dt func idx w hlt]
      refine ⟨List.nil_prefix, ?_, ?_, ?_⟩
      · intro h; cases h
      · intro h; omega
      · intro h; omega
    · rw [forEachFrom_end sig dt func 0 idx w hlt]
      have h0 : n - idx = 0 := by omega
      rw [h0]
      refine ⟨List.nil_prefix, fun _ => rfl, ?_, fun _ _ => rfl⟩
      intro _ h
      cases h
  | succ fuel ih =>
    intro idx w hn hP
    by_cases hlt : idx < w._nextId
    · have hlt' : idx < n := hn ▸ hlt
      obtain ⟨k, hk⟩ : ∃ k, n - idx = k + 1 := ⟨n - idx - 1, by omega⟩
      have hk' : n - (idx + 1) = k := by omega
      have hrange : List.range' idx (n - idx) = idx :: List.range' (idx + 1) (n - (idx + 1)) := by
        rw [hk, hk']
        rfl
      rw [hrange]
      have hc := hP idx hlt'
      cases hPi : P idx with
      | false =>
        rw [hPi] at hc
        rw [forEachFrom_skip sig dt func fuel idx w hlt hc,
          List.filter_cons_of_neg (by simp [hPi])]
        obtain ⟨h1, h2, h3, h4⟩ := ih (idx + 1) w hn hP
        exact ⟨h1, h2, fun h => h3 (by omega), fun h hr => h4 (by omega) hr⟩
      | true =>
        rw [hPi] at hc
        obtain ⟨refs, hrefs⟩ := componentRefs_of_hasComponents w sig idx hc
        rw [List.filter_cons_of_pos hPi]
        have hp := hpres w idx refs hn hP hlt' hPi hrefs
        cases hf : func w dt idx refs with
        | mk w1 v =>
          rw [hf] at hp
          cases v with
          | error e =>
            rw [forEachFrom_call_throw sig dt func fuel idx w w1 refs e hlt hc hrefs hf]
            refine ⟨?_, ?_, ?_, ?_⟩
            · exact (List.prefix_cons_inj idx).mpr List.nil_prefix
            · intro h; cases h
            · intro _ h; cases h
            · intro _ hr
              have := hr w idx refs hn hP hlt' hPi hrefs
              rw [hf] at this
              cases this
          | ok u =>
            rw [forEachFrom_call sig dt func fuel idx w w1 refs u hlt hc hrefs hf]
            obtain ⟨h1, h2, h3, h4⟩ := ih (idx + 1) w1 hp.1 hp.2
            refine ⟨?_, ?_, ?_, ?_⟩
            · exact (List.prefix_cons_inj idx).mpr h1
            · intro h
              show idx :: _ = idx :: _
              rw [h2 h]
            · intro h
              exact h3 (by omega)
            · intro h hr
              exact h4 (by omega) hr
    · rw [forEachFrom_end sig dt func (fuel + 1) idx w hlt]
      have h0 : n - idx = 0 := by omega
      rw [h0]
      refine ⟨List.nil_prefix, fun _ => rfl, ?_, fun _ _ => rfl⟩
      intro _ h
      cases h

/-- Under the hypotheses of `forEachFrom_scan`, an exception that leaves the scan was thrown
by an invocation of the callback on a visited id. -/
theorem forEachFrom_raised (sig : List TypeIndex) (dt : ℚ) (func : Callback α) (n : Nat)
    (P : Nat → Bool)
    (hpres : ∀ (w : WorldState α) i refs, w._nextId = n →
      (∀ j, j < n → w.hasComponents sig j = .ok (P j)) → i < n → P i = true →
      componentRefs w sig i = .ok refs →
      (func w dt i refs).state._nextId = n ∧
        ∀ j, j < n → (func w dt i refs).state.hasComponents sig j = .ok (P j)) :
    ∀ (fuel idx : Nat) (w : WorldState α), w._nextId = n →
      (∀ j, j < n → w.hasComponents sig j = .ok (P j)) →
      ∀ e, (forEachFrom sig dt func fuel idx w).status = .raised e →
        ∃ (w1 : WorldState α) (i : Nat) (refs : List α),
          i ∈ (forEachFrom sig dt func fuel idx w).visited ∧
            (func w1 dt i refs).value = .error e := by
  intro fuel
  induction fuel with
  | zero =>
    intro idx w _ _ e hst
    by_cases hlt : idx < w._nextId
    · rw [forEachFrom_zero sig dt func idx w hlt] at hst
      cases hst
    · rw [forEachFrom_end sig dt func 0 idx w hlt] at hst
      cases hst
  | succ fuel ih =>
    intro idx w hn hP e hst
    by_cases hlt : idx < w._nextId
    · have hlt' : idx < n := hn ▸ hlt
      have hc := hP idx hlt'
      cases hPi : P idx with
      | false =>
        rw [hPi] at hc
        rw [forEachFrom_skip sig dt func fuel idx w hlt hc] at hst ⊢
        exact ih (idx + 1) w hn hP e hst
      | true =>
        rw [hPi] at hc
        obtain ⟨refs, hrefs⟩ := componentRefs_of_hasComponents w sig idx hc
        have hp := hpres w idx refs hn hP hlt' hPi hrefs
        cases hf : func w dt idx refs with
        | mk w1 v =>
          rw [hf] at hp
          cases v with
          | error e1 =>
            rw [forEachFrom_call_throw sig dt func fuel idx w w1 refs e1 hlt hc hrefs hf]
              at hst ⊢
            injection hst with hst
            refine ⟨w, idx, refs, List.mem_singleton_self idx, ?_⟩
            rw [hf, ← hst]
          | ok u =>
            rw [forEachFrom_call sig dt func fuel idx w w1 refs u hlt hc hrefs hf] at hst ⊢
            obtain ⟨w2, i, refs2, hi, hv⟩ := ih (idx + 1) w1 hp.1 hp.2 e hst
            exact ⟨w2, i, refs2, List.mem_cons_of_mem idx hi, hv⟩
    · rw [forEachFrom_end sig dt func (fuel + 1) idx w hlt] at hst
      cases hst

/-- Under a callback that leaves the ceiling as it is, every visited id is at least the
start of the scan and below the ceiling. -/
theorem forEachFrom_visited_lt (sig : List TypeIndex) (dt : ℚ) (func : Callback α)
    (hceil : ∀ (w : WorldState α) i refs, (func w dt i refs).state._nextId = w._nextId) :
    ∀ (fuel idx : Nat) (w : WorldState α),
      ∀ id ∈ (forEachFrom sig dt func fuel idx w).visited, idx ≤ id ∧ id < w._nextId := by
  intro fuel
  induction fuel with
  | zero =>
    intro idx w id hid
    by_cases hlt : idx < w._nextId
    · rw [forEachFrom_zero sig dt func idx w hlt] at hid
      cases hid
    · rw [forEachFrom_end sig dt func 0 idx w hlt] at hid
      cases hid
  | succ fuel ih =>
    intro idx w id hid
    by_cases hlt : idx < w._nextId
    · cases hc : w.hasComponents sig idx with
      | error e =>
        rw [forEachFrom_throw sig dt func fuel idx w e hlt hc] at hid
        cases hid
      | ok b =>
        cases b with
        | false =>
          rw [forEachFrom_skip sig dt func fuel idx w hlt hc] at hid
          have := ih (idx + 1) w id hid
          omega
        | true =>
          cases hr : componentRefs w sig idx with
          | error e =>
            rw [forEachFrom_refs_throw sig dt func fuel idx w e hlt hc hr] at hid
            cases hid
          | ok refs =>
            have hce := hceil w idx refs
            cases hf : func w dt idx refs with
            | mk w1 v =>
              rw [hf] at hce
              cases v with
              | error e =>
                rw [forEachFrom_call_throw sig dt func fuel idx w w1 refs e hlt hc hr hf] at hid
                simp only [List.mem_singleton] at hid
                omega
              | ok u =>
                rw [forEachFrom_call sig dt func fuel idx w w1 refs u hlt hc hr hf] at hid
                rcases List.mem_cons.mp hid with h | h
                · omega
                · have := ih (idx + 1) w1 id h
                  simp only at hce
                  omega
    · rw [forEachFrom_end sig dt func (fuel + 1) idx w hlt] at hid
      cases hid

end Query

namespace Query

variable {α : Type}

/-- More fuel does not change a scan that did not run out of fuel. -/
theorem forEachFrom_more_fuel (sig : List TypeIndex) (dt : ℚ) (func : Callback α) (k : Nat) :
    ∀ (fuel idx : Nat) (w : WorldState α),
      (forEachFrom sig dt func fuel idx w).status ≠ .fuelOut →
      forEachFrom sig dt func (fuel + k) idx w = forEachFrom sig dt func fuel idx w := by
  intro fuel
  induction fuel with
  | zero =>
    intro idx w hst
    by_cases hlt : idx < w._nextId
    · rw [forEachFrom_zero sig dt func idx w hlt] at hst
      exact absurd rfl hst
    · rw [forEachFrom_end sig dt func (0 + k) idx w hlt, forEachFrom_end sig dt func 0 idx w hlt]
  | succ fuel ih =>
    intro idx w hst
    have hk : fuel + 1 + k = (fuel + k) + 1 := by omega
    rw [hk]
    by_cases hlt : idx < w._nextId
    · cases hc : w.hasComponents sig idx with
      | error e =>
        rw [forEachFrom_throw sig dt func _ idx w e hlt hc,
          forEachFrom_throw sig dt func _ idx w e hlt hc]
      | ok b =>
        cases b with
        | false =>
          rw [forEachFrom_skip sig dt func fuel idx w hlt hc] at hst
          rw [forEachFrom_skip sig dt func _ idx w hlt hc,
            forEachFrom_skip sig dt func _ idx w hlt hc]
          exact ih (idx + 1) w hst
        | true =>
          cases hr : componentRefs w sig idx with
          | error e =>
            rw [forEachFrom_refs_throw sig dt func _ idx w e hlt hc hr,
              forEachFrom_refs_throw sig dt func _ idx w e hlt hc hr]
          | ok refs =>
            cases hf : func w dt idx refs with
            | mk w1 v =>
              cases v with
              | error e =>
                rw [forEachFrom_call_throw sig dt func _ idx w w1 refs e hlt hc hr hf,
                  forEachFrom_call_throw sig dt func _ idx w w1 refs e hlt hc hr hf]
              | ok u =>
                rw [forEachFrom_call sig dt func fuel idx w w1 refs u hlt hc hr hf] at hst
                rw [forEachFrom_call sig dt func _ idx w w1 refs u hlt hc hr hf,
                  forEachFrom_call sig dt func _ idx w w1 refs u hlt hc hr hf]
                rw [ih (idx + 1) w1 hst]
    · rw [forEachFrom_end sig dt func _ idx w hlt, forEachFrom_end sig dt func _ idx w hlt]

end Query

/-- The world a scan leaves is the world left by invoking the callback on the visited ids,
in the order of the log. -/
theorem Query.forEachFrom_world {α : Type} (sig : List TypeIndex) (dt : ℚ)
    (func : Callback α) :
    ∀ (fuel idx : Nat) (w : WorldState α),
      (Query.forEachFrom sig dt func fuel idx w).world =
        Query.replay sig dt func (Query.forEachFrom sig dt func fuel idx w).visited w := by
  intro fuel
  induction fuel with
  | zero =>
    intro idx w
    by_cases hlt : idx < w._nextId
    · rw [Query.forEachFrom_zero sig dt func idx w hlt]
      rfl
    · rw [Query.forEachFrom_end sig dt func 0 idx w hlt]
      rfl
  | succ fuel ih =>
    intro idx w
    by_cases hlt : idx < w._nextId
    · cases hc : w.hasComponents sig idx with
      | error e =>
        rw [Query.forEachFrom_throw sig dt func _ idx w e hlt hc]
        rfl
      | ok b =>
        cases b with
        | false =>
          rw [Query.forEachFrom_skip sig dt func fuel idx w hlt hc]
          exact ih (idx + 1) w
        | true =>
          cases hr : Query.componentRefs w sig idx with
          | error e =>
            rw [Query.forEachFrom_refs_throw sig dt func _ idx w e hlt hc hr]
            rfl
          | ok refs =>
            cases hf : func w dt idx refs with
            | mk w1 v =>
              cases v with
              | error e =>
                rw [Query.forEachFrom_call_throw sig dt func _ idx w w1 refs e hlt hc hr hf]
                simp only [Query.replay, hr, hf]
              | ok u =>
                rw [Query.forEachFrom_call sig dt func fuel idx w w1 refs u hlt hc hr hf]
                simp only [Query.replay, hr, hf]
                exact ih (idx + 1) w1
    · rw [Query.forEachFrom_end sig dt func _ idx w hlt]
      rfl

theorem GenericSystem.update_eq {α : Type} (g : GenericSystem α) (fuel : Nat)
    (w : WorldState α) :
    g.update fuel w =
      ((Query.forEachFrom g.Components g._clock.getElapsedTime g._updateFunc fuel 0 w).world,
        (Query.forEachFrom g.Components g._clock.getElapsedTime g._updateFunc fuel 0 w).status) :=
  rfl

/-- More fuel does not change an update of a `GenericSystem` that did not run out of fuel. -/
theorem GenericSystem.update_more_fuel {α : Type} (g : GenericSystem α) (fuel k : Nat)
    (w : WorldState α) (h : (g.update fuel w).2 ≠ .fuelOut) :
    g.update (fuel + k) w = g.update fuel w := by
  rw [GenericSystem.update_eq] at h
  rw [GenericSystem.update_eq, GenericSystem.update_eq,
    Query.forEachFrom_more_fuel g.Components g._clock.getElapsedTime g._updateFunc k fuel 0 w h]

/-! ## Writing through component references -/

namespace WorldState

variable {α : Type}

/-- When `hasComponents` holds at an id, every type of the signature is registered and its
store holds a value at the id. -/
theorem present_of_hasComponents (w : WorldState α) (sig : List TypeIndex) (idx : Nat)
    (h : w.hasComponents sig idx = .ok true) :
    ∀ t ∈ sig, ∃ s, w._components.find t = some s ∧ idx < s._array.length ∧
      (s._array.getD idx none).isSome = true := by
  induction sig with
  | nil =>
    intro t ht
    cases ht
  | cons x xs ih =>
    simp only [hasComponents] at h
    cases hf : w._components.find x with
    | none =>
      rw [getComponent_of_find_none w x hf] at h
      cases h
    | some s =>
      rw [getComponent_of_find w x s hf] at h
      simp only at h
      by_cases hlen : idx < s._array.length
      · rw [SparseArray.has_of_lt s idx hlen] at h
        cases hv : (s._array.getD idx none).isSome with
        | false =>
          rw [hv] at h
          cases h
        | true =>
          rw [hv] at h
          intro t ht
          rcases List.mem_cons.mp ht with rfl | ht
          · exact ⟨s, hf, hlen, hv⟩
          · exact ih h t ht
      · rw [SparseArray.has_of_ge s idx (not_lt.mp hlen)] at h
        cases h

/-- Assigning to a slot that holds a value changes the outcome of no `hasComponents`. -/
theorem hasComponents_assign (w : WorldState α) (t : TypeIndex) (i : Nat) (v : α)
    (hpres : ∀ s, w._components.find t = some s → i < s._array.length →
      (s._array.getD i none).isSome = true) (sig : List TypeIndex) (j : Nat) :
    (w.assign t i v).hasComponents sig j = w.hasComponents sig j := by
  induction sig with
  | nil => rfl
  | cons x xs ih =>
    simp only [hasComponents]
    rw [ih]
    by_cases hx : x = t
    · subst hx
      cases hf : w._components.find x with
      | none =>
        have hf' : (w.assign x i v)._components.find x = none := by
          show (w._components.modify x _).find x = none
          rw [FlatMap.find_modify, if_pos rfl, hf]
          rfl
        rw [getComponent_of_find_none w x hf, getComponent_of_find_none _ x hf']
      | some s =>
        have hf' : (w.assign x i v)._components.find x = some ⟨s._array.set i (some v)⟩ := by
          show (w._components.modify x _).find x = _
          rw [FlatMap.find_modify, if_pos rfl, hf]
          rfl
        rw [getComponent_of_find w x s hf, getComponent_of_find _ x _ hf']
        have hhas : (⟨s._array.set i (some v)⟩ : SparseArray α).has j = s.has j := by
          by_cases hlen : j < s._array.length
          · rw [SparseArray.has_of_lt s j hlen,
              SparseArray.has_of_lt _ j (by simpa using hlen)]
            by_cases hji : j = i
            · subst hji
              rw [hpres s hf hlen]
              simp [List.getD_eq_getElem?_getD, hlen]
            · simp [List.getD_eq_getElem?_getD, List.getElem?_set, Ne.symm hji]
          · rw [SparseArray.has_of_ge s j (not_lt.mp hlen),
              SparseArray.has_of_ge _ j (by simpa using not_lt.mp hlen)]
        simp only [hhas]
    · have hf' : (w.assign t i v)._components.find x = w._components.find x := by
        show (w._components.modify t _).find x = _
        rw [FlatMap.find_modify, if_neg hx]
      have hg : (w.assign t i v).getComponent x = w.getComponent x := by
        unfold getComponent
        rw [hf']
      rw [hg]

theorem find_assign_of_ne (w : WorldState α) (t x : TypeIndex) (i : Nat) (v : α)
    (hx : x ≠ t) : (w.assign t i v)._components.find x = w._components.find x := by
  show (w._components.modify t _).find x = _
  rw [FlatMap.find_modify, if_neg hx]

end WorldState

/-- The update function of the scenario keeps the ceiling and the outcome of
`hasComponents<A, B>` at every id, whenever it is invoked on an id that has both. -/
theorem decrementBoth_preserves (w : WorldState Int) (dt : ℚ) (i : Nat) (refs : List Int)
    (hc : w.hasComponents [0, 1] i = .ok true) :
    (decrementBoth 0 1 w dt i refs).value = .ok () ∧
      (decrementBoth 0 1 w dt i refs).state.getCurrentId = w.getCurrentId ∧
      ∀ j, (decrementBoth 0 1 w dt i refs).state.hasComponents [0, 1] j =
        w.hasComponents [0, 1] j := by
  have hpresent := WorldState.present_of_hasComponents w [0, 1] i hc
  obtain ⟨s0, hs0, hl0, hv0⟩ := hpresent 0 (by simp)
  obtain ⟨s1, hs1, hl1, hv1⟩ := hpresent 1 (by simp)
  unfold decrementBoth
  split
  · rename_i hp cap
    refine ⟨rfl, rfl, ?_⟩
    intro j
    show ((w.assign 0 i (intWrap (hp - 1))).assign 1 i (intWrap (cap - 2))).hasComponents
      [0, 1] j = _
    rw [WorldState.hasComponents_assign _ 1 i _ ?_ [0, 1] j,
      WorldState.hasComponents_assign w 0 i _ ?_ [0, 1] j]
    · intro s hs _
      rw [hs0] at hs
      cases hs
      exact hv0
    · intro s hs _
      rw [WorldState.find_assign_of_ne w 0 1 i _ (by decide), hs1] at hs
      cases hs
      exact hv1
  · exact ⟨rfl, rfl, fun _ => rfl⟩

/-- C5 fails as stated: on `twoStoreWorld` the signature test is defined at the ids 0, 1
and 2 and holds at 0 and 2; the callback `readUnregistered` creates and kills no entity and
adds and removes no component (it leaves the world as it is), but its invocation on id 0
throws, the exception leaves the scan, and the callback is never invoked on id 2. -/
theorem forEach_stops_when_callback_throws :
    twoStoreWorld.getCurrentId = 3 ∧
      twoStoreWorld.hasComponents [0, 1] 0 = .ok true ∧
      twoStoreWorld.hasComponents [0, 1] 1 = .ok false ∧
      twoStoreWorld.hasComponents [0, 1] 2 = .ok true ∧
      (∀ (w : WorldState Int) dt i refs, (readUnregistered w dt i refs).state = w) ∧
      (Query.forEach [0, 1] 3 twoStoreWorld 0 readUnregistered).visited = [0] ∧
      (Query.forEach [0, 1] 3 twoStoreWorld 0 readUnregistered).status =
        .raised .WorldExceptionComponentNotRegistered ∧
      2 ∉ (Query.forEach [0, 1] 3 twoStoreWorld 0 readUnregistered).visited := by
  refine ⟨rfl, rfl, rfl, rfl, ?_, rfl, rfl, ?_⟩
  · intro w dt i refs
    unfold readUnregistered
    cases w.getComponent 9 <;> rfl
  · have hv : (Query.forEach [0, 1] 3 twoStoreWorld 0 readUnregistered).visited = [0] := rfl
    rw [hv]
    decide

/-- C5 as amended: let `hasComponents<Components...>(i)` be defined for every `i` below the
ceiling, and let the callback, whenever it is invoked as the scan invokes it, leave the
ceiling and the outcome of `hasComponents<Components...>` at every id as they are (it
creates and kills no entity, adds and removes no component).  Then, with fuel for `ceiling`
iterations, the scan does not run out of fuel, the visited ids are strictly ascending, and
each of them is below the ceiling and satisfies `hasComponents`; the world the scan leaves
is the one left by invoking the callback on the visited ids in that order; a scan that runs
to its end has visited every id below the ceiling that satisfies `hasComponents`, exactly
once; the scan runs to its end when no invocation raises; and an exception that leaves the
scan was thrown by an invocation of the callback on a visited id. -/
theorem forEach_visits_exactly_matching {α : Type} (w : WorldState α) (sig : List TypeIndex)
    (dt : ℚ) (func : Callback α) (fuel : Nat)
    (hdef : ∀ i, i < w.getCurrentId → ∃ b, w.hasComponents sig i = .ok b)
    (hpres : ∀ (w1 : WorldState α) i refs, w1.hasComponents sig i = .ok true →
      Query.componentRefs w1 sig i = .ok refs →
      (func w1 dt i refs).state.getCurrentId = w1.getCurrentId ∧
        ∀ j, (func w1 dt i refs).state.hasComponents sig j = w1.hasComponents sig j)
    (hfuel : w.getCurrentId ≤ fuel) :
    (Query.forEach sig fuel w dt func).status ≠ .fuelOut ∧
      (Query.forEach sig fuel w dt func).visited.Pairwise (fun a b => a < b) ∧
      (∀ id ∈ (Query.forEach sig fuel w dt func).visited,
        id < w.getCurrentId ∧ w.hasComponents sig id = .ok true) ∧
      (Query.forEach sig fuel w dt func).world =
        Query.replay sig dt func (Query.forEach sig fuel w dt func).visited w ∧
      ((Query.forEach sig fuel w dt func).status = .done →
        ∀ id, id < w.getCurrentId → w.hasComponents sig id = .ok true →
          (Query.forEach sig fuel w dt func).visited.count id = 1) ∧
      ((∀ (w1 : WorldState α) i refs, w1.hasComponents sig i = .ok true →
          Query.componentRefs w1 sig i = .ok refs → (func w1 dt i refs).value = .ok ()) →
        (Query.forEach sig fuel w dt func).status = .done) ∧
      (∀ e, (Query.forEach sig fuel w dt func).status = .raised e →
        ∃ (w1 : WorldState α) (i : Nat) (refs : List α),
          i ∈ (Query.forEach sig fuel w dt func).visited ∧
            (func w1 dt i refs).value = .error e) := by
  let P : Nat → Bool := fun j =>
    match w.hasComponents sig j with
    | .ok true => true
    | _ => false
  have hP : ∀ j, j < w._nextId → w.hasComponents sig j = .ok (P j) := by
    intro j hj
    obtain ⟨b, hb⟩ := hdef j hj
    simp only [P, hb]
    cases b <;> rfl
  have hPtrue : ∀ j, j < w._nextId → (P j = true ↔ w.hasComponents sig j = .ok true) := by
    intro j hj
    rw [hP j hj]
    constructor
    · intro h; rw [h]
    · intro h; injection h
  have hpresP : ∀ (w1 : WorldState α) i refs, w1._nextId = w._nextId →
      (∀ j, j < w._nextId → w1.hasComponents sig j = .ok (P j)) → i < w._nextId →
      P i = true → Query.componentRefs w1 sig i = .ok refs →
      (func w1 dt i refs).state._nextId = w._nextId ∧
        ∀ j, j < w._nextId → (func w1 dt i refs).state.hasComponents sig j = .ok (P j) := by
    intro w1 i refs hn hP1 hi hPi hrefs
    have hc : w1.hasComponents sig i = .ok true := by rw [hP1 i hi, hPi]
    obtain ⟨h1, h2⟩ := hpres w1 i refs hc hrefs
    refine ⟨h1.trans hn, ?_⟩
    intro j hj
    rw [h2 j, hP1 j hj]
  have hscan := Query.forEachFrom_scan sig dt func w._nextId P hpresP fuel 0 w rfl hP
  have hraised := Query.forEachFrom_raised sig dt func w._nextId P hpresP fuel 0 w rfl hP
  obtain ⟨hpre, hall, hnf, hd⟩ := hscan
  have hsorted : ((List.range' 0 (w._nextId - 0)).filter P).Pairwise (fun a b => a < b) :=
    (List.pairwise_lt_range' 0 (w._nextId - 0)).sublist (List.filter_sublist _)
  have hmem : ∀ id, id ∈ (List.range' 0 (w._nextId - 0)).filter P ↔
      id < w._nextId ∧ w.hasComponents sig id = .ok true := by
    intro id
    rw [List.mem_filter, List.mem_range'_1]
    constructor
    · rintro ⟨⟨-, h1⟩, h2⟩
      have h1' : id < w._nextId := by omega
      exact ⟨h1', (hPtrue id h1').mp h2⟩
    · rintro ⟨h1, h2⟩
      exact ⟨⟨Nat.zero_le _, by omega⟩, (hPtrue id h1).mpr h2⟩
  refine ⟨hnf (by simpa using hfuel), hsorted.sublist hpre.sublist, ?_,
    Query.forEachFrom_world sig dt func fuel 0 w, ?_, ?_, hraised⟩
  · intro id hid
    exact (hmem id).mp (hpre.subset hid)
  · intro hdone id hid hc
    have heq : (Query.forEach sig fuel w dt func).visited =
        (List.range' 0 (w._nextId - 0)).filter P := hall hdone
    rw [heq]
    exact List.count_eq_one_of_mem (hsorted.imp (fun h => ne_of_lt h)) ((hmem id).mpr ⟨hid, hc⟩)
  · intro hret
    exact hd (by simpa using hfuel)
      (by
        intro w1 i refs _ hP1 hi hPi hrefs
        have hc : w1.hasComponents sig i = .ok true := by rw [hP1 i hi, hPi]
        exact hret w1 i refs hc hrefs)

/-- Witness of amended C5: the update function of the scenario, over the signature (0, 1)
on `twoStoreWorld`, is invoked on entities 0 and 2, once each, and not on entity 1, and the
world the scan leaves is the one in which those two entities were decremented. -/
theorem forEach_visits_exactly_matching_witness :
    (∀ i, i < twoStoreWorld.getCurrentId → ∃ b, twoStoreWorld.hasComponents [0, 1] i = .ok b) ∧
      (Query.forEach [0, 1] 3 twoStoreWorld 0 (decrementBoth 0 1)).visited = [0, 2] ∧
      (Query.forEach [0, 1] 3 twoStoreWorld 0 (decrementBoth 0 1)).status = .done ∧
      (Query.forEach [0, 1] 3 twoStoreWorld 0 (decrementBoth 0 1)).visited.count 2 = 1 ∧
      (Query.forEach [0, 1] 3 twoStoreWorld 0 (decrementBoth 0 1)).world =
        Query.replay [0, 1] 0 (decrementBoth 0 1) [0, 2] twoStoreWorld ∧
      (Query.replay [0, 1] 0 (decrementBoth 0 1) [0, 2] twoStoreWorld)._components.entries =
        [(0, ⟨[some 9, none, some 9]⟩), (1, ⟨[some 8, some 10, some 8]⟩)] :=
  have hdef : ∀ i, i < twoStoreWorld.getCurrentId →
      ∃ b, twoStoreWorld.hasComponents [0, 1] i = .ok b := by
    intro i hi
    have hi3 : i < 3 := hi
    interval_cases i
    · exact ⟨true, rfl⟩
    · exact ⟨false, rfl⟩
    · exact ⟨true, rfl⟩
  have hmain := forEach_visits_exactly_matching twoStoreWorld [0, 1] 0 (decrementBoth 0 1) 3 hdef
    (fun w1 i refs hc _ => (decrementBoth_preserves w1 0 i refs hc).2) (Nat.le_refl 3)
  have hret : ∀ (w1 : WorldState Int) i refs, w1.hasComponents [0, 1] i = .ok true →
      Query.componentRefs w1 [0, 1] i = .ok refs →
      (decrementBoth 0 1 w1 0 i refs).value = .ok () :=
    fun w1 i refs hc _ => (decrementBoth_preserves w1 0 i refs hc).1
  have hdone := hmain.2.2.2.2.2.1 hret
  ⟨hdef, rfl, hdone, hmain.2.2.2.2.1 hdone 2 (by decide) rfl, hmain.2.2.2.1, by decide⟩

/-- C6 fails as stated: on `spawnWorld` the ceiling is 1 when the scan starts, the callback
`spawnOnce` calls `createEntity` while id 0 is visited, and the scan then invokes the
callback on id 1, which is not below the ceiling the scan started with. -/
theorem forEach_visits_id_minted_during_scan :
    spawnWorld.getCurrentId = 1 ∧
      (Query.forEach [0] 3 spawnWorld 0 spawnOnce).visited = [0, 1] ∧
      (Query.forEach [0] 3 spawnWorld 0 spawnOnce).status = .done ∧
      ¬ ∀ id ∈ (Query.forEach [0] 3 spawnWorld 0 spawnOnce).visited,
          id < spawnWorld.getCurrentId := by
  have hv : (Query.forEach [0] 3 spawnWorld 0 spawnOnce).visited = [0, 1] := rfl
  refine ⟨rfl, hv, rfl, ?_⟩
  intro h
  have h1 := h 1 (by rw [hv]; simp)
  exact absurd h1 (by decide)

/-- C6 as amended: when the callback leaves the ceiling as it is (it mints no id), the scan
never invokes it on an id at or above the ceiling the scan started with, whatever else the
callback does and whether or not the scan runs to its end. -/
theorem forEach_visits_below_ceiling {α : Type} (w : WorldState α) (sig : List TypeIndex)
    (dt : ℚ) (func : Callback α) (fuel : Nat)
    (hceil : ∀ (w1 : WorldState α) i refs,
      (func w1 dt i refs).state.getCurrentId = w1.getCurrentId) :
    ∀ id ∈ (Query.forEach sig fuel w dt func).visited, id < w.getCurrentId := by
  intro id hid
  exact (Query.forEachFrom_visited_lt sig dt func hceil fuel 0 w id hid).2

/-- Witness of amended C6: the callback `overwrite` never moves the ceiling. -/
theorem forEach_visits_below_ceiling_witness :
    (∀ (w1 : WorldState Int) i refs,
        (overwrite w1 0 i refs).state.getCurrentId = w1.getCurrentId) ∧
      (Query.forEach [0] 3 spawnWorld 0 overwrite).visited = [0] ∧
      ∀ id ∈ (Query.forEach [0] 3 spawnWorld 0 overwrite).visited,
        id < spawnWorld.getCurrentId :=
  have hceil : ∀ (w1 : WorldState Int) i refs,
      (overwrite w1 0 i refs).state.getCurrentId = w1.getCurrentId := by
    intro w1 i refs
    unfold overwrite WorldState.addComponentToEntity
    cases w1.getComponent 0 with
    | error e => rfl
    | ok s =>
      simp only []
      cases s.set i 7 with
      | error e => rfl
      | ok s1 =>
        simp only []
        cases s1.get i <;> rfl
  ⟨hceil, rfl, forEach_visits_below_ceiling spawnWorld [0] 0 overwrite 3 hceil⟩

/-! ## Systems (C7 to C9) -/

theorem scenario_value (h : Int) : (scenario h).value = .ok h := rfl

theorem scenario_state (h : Int) : (scenario h).state.toWorldState = scenarioState h := rfl

theorem scenario_systems (h : Int) :
    (scenario h).state._systems.entries =
      [createSystem [0, 1] "MySystem".toList (decrementBoth 0 1) 0] := rfl

theorem scenario_run (h : Int) (fuel : Nat) :
    (scenario h).state.runSystems fuel =
      match World.runSystemsFrom fuel
        [createSystem [0, 1] "MySystem".toList (decrementBoth 0 1) 0] (scenarioState h) with
      | (s, invoked, status) => ⟨{ (scenario h).state with toWorldState := s }, invoked, status⟩ := by
  unfold World.runSystems
  rw [scenario_systems, scenario_state]

theorem intWrap_of_range (x : Int) (h1 : -2 ^ 31 ≤ x) (h2 : x < 2 ^ 31) : intWrap x = x := by
  unfold intWrap
  omega

/-- The value of `intWrap` depends on its argument modulo `2^32` only. -/
theorem intWrap_intWrap_sub (x y : Int) : intWrap (intWrap x - y) = intWrap (x - y) := by
  unfold intWrap
  omega

theorem scenario_run3 (h : Int) :
    World.runSystemsFrom 3
        [createSystem [0, 1] "MySystem".toList (decrementBoth 0 1) 0] (scenarioState h) =
      (⟨⟨[(0, ⟨[some (intWrap (h - 1)), none, some (intWrap (h - 1))]⟩),
          (1, ⟨[some (intWrap (h - 2)), some h, some (intWrap (h - 2))]⟩)], by simp⟩, [], 3⟩,
        ["MySystem".toList], .done) := rfl

theorem scenario_more_fuel (h : Int) (k : Nat) :
    World.runSystemsFrom (3 + k)
        [createSystem [0, 1] "MySystem".toList (decrementBoth 0 1) 0] (scenarioState h) =
      World.runSystemsFrom 3
        [createSystem [0, 1] "MySystem".toList (decrementBoth 0 1) 0] (scenarioState h) := by
  have hst : ((GenericSystem.mk [0, 1] (decrementBoth 0 1) (Clock.new 0)).update 3
      (scenarioState h)).2 ≠ .fuelOut := by
    have hd : ((GenericSystem.mk [0, 1] (decrementBoth 0 1) (Clock.new 0)).update 3
        (scenarioState h)).2 = .done := rfl
    rw [hd]
    intro hc
    cases hc
  have hup := GenericSystem.update_more_fuel
    (GenericSystem.mk [0, 1] (decrementBoth 0 1) (Clock.new 0)) 3 k (scenarioState h) hst
  simp only [World.runSystemsFrom, createSystem, GenericSystem.toSystem, hup]

/-- What one `runSystems` leaves in the scenario, for every value `h` and with fuel for the
three ids: the fields of entities 0 and 2 hold the results of the two `int` subtractions. -/
theorem scenario_components (h : Int) (fuel : Nat) (hfuel : 3 ≤ fuel) :
    ((scenario h).state.runSystems fuel).status = .done ∧
      ((scenario h).state.runSystems fuel).invoked = ["MySystem".toList] ∧
      ((scenario h).state.runSystems fuel).world.component 0 0 = .ok (intWrap (h - 1)) ∧
      ((scenario h).state.runSystems fuel).world.component 1 0 = .ok (intWrap (h - 2)) ∧
      ((scenario h).state.runSystems fuel).world.component 0 2 = .ok (intWrap (h - 1)) ∧
      ((scenario h).state.runSystems fuel).world.component 1 2 = .ok (intWrap (h - 2)) ∧
      ((scenario h).state.runSystems fuel).world.component 1 1 = .ok h ∧
      ((scenario h).state.runSystems fuel).world.hasComponents [0] 1 = .ok false := by
  obtain ⟨k, rfl⟩ : ∃ k, fuel = 3 + k := ⟨fuel - 3, by omega⟩
  rw [scenario_run, scenario_more_fuel, scenario_run3]
  exact ⟨rfl, rfl, rfl, rfl, rfl, rfl, rfl, rfl⟩

/-- C7 fails as stated: with the initial value `h = INT_MIN` the set up succeeds and one
`runSystems` runs to its end, but `hp--` and `maxHp -= 2` overflow the `int` fields:
entities 0 and 2 hold `hp = 2147483647` and `cap = 2147483646`, not `h - 1` and `h - 2`. -/
theorem runSystems_scenario_overflows_at_int_min :
    (scenario (-2147483648)).value = .ok (-2147483648) ∧
      ((scenario (-2147483648)).state.runSystems 3).status = .done ∧
      ((scenario (-2147483648)).state.runSystems 3).world.component 0 0 = .ok 2147483647 ∧
      ((scenario (-2147483648)).state.runSystems 3).world.component 1 0 = .ok 2147483646 ∧
      ((scenario (-2147483648)).state.runSystems 3).world.component 0 2 = .ok 2147483647 ∧
      ((scenario (-2147483648)).state.runSystems 3).world.component 1 2 = .ok 2147483646 ∧
      (2147483647 : Int) ≠ -2147483648 - 1 ∧ (2147483646 : Int) ≠ -2147483648 - 2 := by
  have h := scenario_components (-2147483648) 3 (Nat.le_refl 3)
  have h1 : intWrap (-2147483648 - 1) = 2147483647 := by decide
  have h2 : intWrap (-2147483648 - 2) = 2147483646 := by decide
  rw [h1, h2] at h
  exact ⟨rfl, h.1, h.2.2.1, h.2.2.2.1, h.2.2.2.2.1, h.2.2.2.2.2.1, by decide, by decide⟩

/-- C7 as amended: in the scenario, for every initial value `h` of type `int` for which
`h - 2` is an `int` as well (and with fuel for the three ids), the set up raises no
exception and one `runSystems` runs to its end; afterwards entities 0 and 2 hold
`hp = h - 1` and `cap = h - 2`, entity 1 still holds `cap = h` and has no `A`. -/
theorem runSystems_scenario (h : Int) (fuel : Nat) (hfuel : 3 ≤ fuel)
    (hlo : -2 ^ 31 + 2 ≤ h) (hhi : h < 2 ^ 31) :
    (scenario h).value = .ok h ∧
      ((scenario h).state.runSystems fuel).status = .done ∧
      ((scenario h).state.runSystems fuel).invoked = ["MySystem".toList] ∧
      ((scenario h).state.runSystems fuel).world.component 0 0 = .ok (h - 1) ∧
      ((scenario h).state.runSystems fuel).world.component 1 0 = .ok (h - 2) ∧
      ((scenario h).state.runSystems fuel).world.component 0 2 = .ok (h - 1) ∧
      ((scenario h).state.runSystems fuel).world.component 1 2 = .ok (h - 2) ∧
      ((scenario h).state.runSystems fuel).world.component 1 1 = .ok h ∧
      ((scenario h).state.runSystems fuel).world.hasComponents [0] 1 = .ok false := by
  have hc := scenario_components h fuel hfuel
  rw [intWrap_of_range (h - 1) (by omega) (by omega),
    intWrap_of_range (h - 2) (by omega) (by omega)] at hc
  exact ⟨rfl, hc⟩

/-- Witness of amended C7 with `h = 10`, the value of the test. -/
theorem runSystems_scenario_witness :
    (3 ≤ 3) ∧ (-2 ^ 31 + 2 ≤ (10 : Int)) ∧ ((10 : Int) < 2 ^ 31) ∧
      ((scenario 10).state.runSystems 3).world.component 0 0 = .ok 9 ∧
      ((scenario 10).state.runSystems 3).world.component 1 2 = .ok 8 ∧
      ((scenario 10).state.runSystems 3).world.component 1 1 = .ok 10 :=
  ⟨Nat.le_refl 3, by decide, by decide,
    (runSystems_scenario 10 3 (Nat.le_refl 3) (by decide) (by decide)).2.2.2.1,
    (runSystems_scenario 10 3 (Nat.le_refl 3) (by decide) (by decide)).2.2.2.2.2.2.1,
    (runSystems_scenario 10 3 (Nat.le_refl 3) (by decide) (by decide)).2.2.2.2.2.2.2.1⟩

namespace FlatMap

variable {κ β : Type} [LinearOrder κ]

theorem keys_insertRaw_perm (k : κ) (v : β) (l : List (κ × β))
    (hk : k ∉ l.map Prod.fst) : ((insertRaw k v l).map Prod.fst).Perm (k :: l.map Prod.fst) := by
  induction l with
  | nil => exact List.Perm.refl _
  | cons e r ih =>
    simp only [List.map_cons, List.mem_cons, not_or] at hk
    simp only [insertRaw]
    by_cases h1 : k < e.1
    · rw [if_pos h1]
      exact List.Perm.refl _
    · rw [if_neg h1, if_neg hk.1]
      simp only [List.map_cons]
      exact ((ih hk.2).cons e.1).trans (List.Perm.swap k e.1 _)

theorem length_eraseRaw (k : κ) (l : List (κ × β))
    (hl : (l.map Prod.fst).Pairwise (fun a b => a < b)) (hk : k ∈ l.map Prod.fst) :
    (eraseRaw k l).length + 1 = l.length := by
  induction l with
  | nil => simp at hk
  | cons e r ih =>
    simp only [List.map_cons, List.pairwise_cons] at hl
    simp only [eraseRaw] at ih ⊢
    by_cases h1 : e.1 = k
    · rw [List.filter_cons_of_neg (by simp [h1])]
      have hall : ∀ x ∈ r, decide (x.1 ≠ k) = true := by
        intro x hx
        have := hl.1 x.1 (List.mem_map_of_mem Prod.fst hx)
        rw [h1] at this
        simpa using ne_of_gt this
      rw [List.filter_eq_self.mpr hall]
      rfl
    · rw [List.filter_cons_of_pos (by simp [h1])]
      simp only [List.map_cons, List.mem_cons] at hk
      rcases hk with hk | hk
      · exact absurd hk.symm h1
      · simp only [List.length_cons]
        rw [ih hl.2 hk]

theorem eraseRaw_of_not_mem (k : κ) (l : List (κ × β)) (hk : k ∉ l.map Prod.fst) :
    eraseRaw k l = l := by
  unfold eraseRaw
  refine List.filter_eq_self.mpr ?_
  intro x hx
  have hne : x.1 ≠ k := fun h => hk (h ▸ List.mem_map_of_mem Prod.fst hx)
  simpa using hne

theorem not_mem_keys_erase (m : FlatMap κ β) (k : κ) : k ∉ (m.erase k).keys := by
  intro h
  obtain ⟨v, hv⟩ := (mem_keys_iff _ _).mp h
  rw [find_erase, if_pos rfl] at hv
  cases hv

end FlatMap

namespace World

variable {α : Type}

theorem runSystemsFrom_cons_done (fuel : Nat) (e : Name × System α)
    (rest : List (Name × System α)) (s s1 : WorldState α)
    (h : e.2.update fuel s = (s1, .done)) :
    runSystemsFrom fuel (e :: rest) s =
      ((runSystemsFrom fuel rest s1).1, e.1 :: (runSystemsFrom fuel rest s1).2.1,
        (runSystemsFrom fuel rest s1).2.2) := by
  simp only [runSystemsFrom, h]

theorem runSystemsFrom_cons_stop (fuel : Nat) (e : Name × System α)
    (rest : List (Name × System α)) (s s1 : WorldState α) (st : Status)
    (h : e.2.update fuel s = (s1, st)) (hst : st ≠ .done) :
    runSystemsFrom fuel (e :: rest) s = (s1, [e.1], st) := by
  cases st with
  | done => exact absurd rfl hst
  | raised x => simp only [runSystemsFrom, h]
  | fuelOut => simp only [runSystemsFrom, h]

/-- The updates invoked by the loop are those of an initial part of the entries, in order;
all of them when the loop runs to its end, which it does when every update does. -/
theorem runSystemsFrom_invoked (fuel : Nat) :
    ∀ (l : List (Name × System α)) (s : WorldState α),
      (runSystemsFrom fuel l s).2.1 <+: l.map Prod.fst ∧
      ((runSystemsFrom fuel l s).2.2 = .done →
        (runSystemsFrom fuel l s).2.1 = l.map Prod.fst) ∧
      ((∀ e ∈ l, ∀ s1, (e.2.update fuel s1).2 = .done) →
        (runSystemsFrom fuel l s).2.2 = .done) := by
  intro l
  induction l with
  | nil =>
    intro s
    exact ⟨List.nil_prefix, fun _ => rfl, fun _ => rfl⟩
  | cons e rest ih =>
    intro s
    cases hu : e.2.update fuel s with
    | mk s1 st =>
      by_cases hst : st = .done
      · subst hst
        rw [runSystemsFrom_cons_done fuel e rest s s1 hu]
        obtain ⟨h1, h2, h3⟩ := ih s1
        refine ⟨(List.prefix_cons_inj e.1).mpr h1, ?_, ?_⟩
        · intro h
          show e.1 :: _ = e.1 :: _
          rw [h2 h]
        · intro h
          exact h3 (fun x hx => h x (List.mem_cons_of_mem e hx))
      · rw [runSystemsFrom_cons_stop fuel e rest s s1 st hu hst]
        refine ⟨(List.prefix_cons_inj e.1).mpr List.nil_prefix, ?_, ?_⟩
        · intro h
          exact absurd h hst
        · intro h
          have := h e (List.mem_cons_self e rest) s
          rw [hu] at this
          exact absurd this hst

/-- When every update in the list runs to its end and lowers the tracked value by one, the
loop runs to its end and lowers it by the number of entries. -/
theorem runSystemsFrom_lowers (fuel : Nat) (hp : WorldState α → Int → Prop) :
    ∀ (l : List (Name × System α)) (s : WorldState α) (v : Int),
      (∀ e ∈ l, ∀ s1 v1, hp s1 v1 →
        (e.2.update fuel s1).2 = .done ∧ hp (e.2.update fuel s1).1 (v1 - 1)) →
      hp s v →
      (runSystemsFrom fuel l s).2.2 = .done ∧ hp (runSystemsFrom fuel l s).1 (v - l.length) := by
  intro l
  induction l with
  | nil =>
    intro s v _ hs
    refine ⟨rfl, ?_⟩
    simpa [runSystemsFrom] using hs
  | cons e rest ih =>
    intro s v hl hs
    obtain ⟨hd, hv⟩ := hl e (List.mem_cons_self e rest) s v hs
    cases hu : e.2.update fuel s with
    | mk s1 st =>
      rw [hu] at hd hv
      simp only at hd hv
      subst hd
      rw [runSystemsFrom_cons_done fuel e rest s s1 hu]
      obtain ⟨h1, h2⟩ := ih s1 (v - 1) (fun x hx => hl x (List.mem_cons_of_mem e hx)) hv
      refine ⟨h1, ?_⟩
      have hcast : v - ((e :: rest).length : Int) = v - 1 - (rest.length : Int) := by
        simp only [List.length_cons, Nat.cast_add, Nat.cast_one]
        ring
      rw [hcast]
      exact h2

theorem runSystems_eq (w : World α) (fuel : Nat) :
    w.runSystems fuel =
      ⟨{ w with toWorldState := (runSystemsFrom fuel w._systems.entries w.toWorldState).1 },
        (runSystemsFrom fuel w._systems.entries w.toWorldState).2.1,
        (runSystemsFrom fuel w._systems.entries w.toWorldState).2.2⟩ := rfl

/-- The updates the loop has invoked are those of the first entries of the list, as many as
the log is long, and the world the loop leaves is the one left by these updates, made in
list order. -/
theorem runSystemsFrom_world (fuel : Nat) :
    ∀ (l : List (Name × System α)) (s : WorldState α),
      (runSystemsFrom fuel l s).2.1 =
        (l.take (runSystemsFrom fuel l s).2.1.length).map Prod.fst ∧
      (runSystemsFrom fuel l s).1 =
        applyUpdates fuel (l.take (runSystemsFrom fuel l s).2.1.length) s := by
  intro l
  induction l with
  | nil =>
    intro s
    exact ⟨rfl, rfl⟩
  | cons e rest ih =>
    intro s
    cases hu : e.2.update fuel s with
    | mk s1 st =>
      by_cases hst : st = .done
      · subst hst
        rw [runSystemsFrom_cons_done fuel e rest s s1 hu]
        obtain ⟨h1, h2⟩ := ih s1
        refine ⟨?_, ?_⟩
        · show e.1 :: (runSystemsFrom fuel rest s1).2.1 = _
          rw [List.length_cons, List.take_succ_cons, List.map_cons]
          exact congrArg (List.cons e.1) h1
        · show (runSystemsFrom fuel rest s1).1 = _
          rw [List.length_cons, List.take_succ_cons]
          simp only [applyUpdates, hu]
          exact h2
      · rw [runSystemsFrom_cons_stop fuel e rest s s1 st hu hst]
        refine ⟨rfl, ?_⟩
        simp only [List.length_singleton, List.take_succ_cons, List.take_zero, applyUpdates, hu]

/-- A loop that does not run to its end stopped at an update that did not: the updates
before it ran to their end, its own outcome is the outcome of the loop, and the entries
after it were not reached. -/
theorem runSystemsFrom_stopped (fuel : Nat) :
    ∀ (l : List (Name × System α)) (s : WorldState α),
      (runSystemsFrom fuel l s).2.2 ≠ .done →
      ∃ pre e post, l = pre ++ e :: post ∧
        (runSystemsFrom fuel l s).2.1 = pre.map Prod.fst ++ [e.1] ∧
        (e.2.update fuel (applyUpdates fuel pre s)).2 = (runSystemsFrom fuel l s).2.2 := by
  intro l
  induction l with
  | nil =>
    intro s h
    exact absurd rfl h
  | cons e rest ih =>
    intro s h
    cases hu : e.2.update fuel s with
    | mk s1 st =>
      by_cases hst : st = .done
      · subst hst
        rw [runSystemsFrom_cons_done fuel e rest s s1 hu] at h ⊢
        obtain ⟨pre, e1, post, hl, hinv, hlast⟩ := ih s1 h
        refine ⟨e :: pre, e1, post, ?_, ?_, ?_⟩
        · rw [hl]
          rfl
        · show e.1 :: (runSystemsFrom fuel rest s1).2.1 = _
          rw [hinv]
          rfl
        · show (e1.2.update fuel (applyUpdates fuel (e :: pre) s)).2 = _
          simp only [applyUpdates, hu]
          exact hlast
      · rw [runSystemsFrom_cons_stop fuel e rest s s1 st hu hst]
        refine ⟨[], e, rest, rfl, rfl, ?_⟩
        show (e.2.update fuel s).2 = st
        rw [hu]

theorem removeSystem_systems (w : World α) (name : Name) :
    (w.removeSystem name).state._systems.keys = (w._systems.erase name).keys ∧
      (w.removeSystem name).state.toWorldState = w.toWorldState ∧
      ((w.removeSystem name).value = .ok () →
        (w.removeSystem name).state._systems = w._systems.erase name ∧ name ∈ w._systems.keys) := by
  unfold removeSystem
  cases hf : w._systems.find name with
  | none =>
    refine ⟨?_, rfl, ?_⟩
    · show w._systems.entries.map Prod.fst =
        (FlatMap.eraseRaw name w._systems.entries).map Prod.fst
      rw [FlatMap.eraseRaw_of_not_mem]
      intro hmem
      obtain ⟨v, hv⟩ := (FlatMap.mem_keys_iff w._systems name).mp hmem
      rw [hf] at hv
      cases hv
    · intro h
      cases h
  | some v =>
    exact ⟨rfl, rfl, fun _ => ⟨rfl, (FlatMap.mem_keys_iff _ _).mpr ⟨v, hf⟩⟩⟩

end World

/-- C8 fails as stated: in `throwingSystemsWorld` the systems "A" and "B" are registered;
the update of "A" throws, the exception leaves `runSystems`, and `update` is not invoked on
"B": `hp` is still 10. -/
theorem runSystems_stops_when_update_throws :
    (throwingSystemsWorld 10)._systems.keys = ["A".toList, "B".toList] ∧
      (throwingSystemsWorld 10).toWorldState = hpState 10 ∧
      ((throwingSystemsWorld 10).runSystems 1).invoked = ["A".toList] ∧
      ((throwingSystemsWorld 10).runSystems 1).status =
        .raised .WorldExceptionComponentNotRegistered ∧
      ((throwingSystemsWorld 10).runSystems 1).world.toWorldState = hpState 10 ∧
      "B".toList ∉ ((throwingSystemsWorld 10).runSystems 1).invoked := by
  have hv : ((throwingSystemsWorld 10).runSystems 1).invoked = ["A".toList] := rfl
  refine ⟨rfl, rfl, hv, rfl, rfl, ?_⟩
  rw [hv]
  decide

/-- C8 as amended: one `runSystems` invokes `update` on an initial part of the registered
systems in map order and on no system twice (`invoked` has no duplicates), and the world it
leaves is the one left by the updates of these systems, made in that order; a call that
runs to its end (as it does when every update does) has invoked exactly the registered
systems, each once; a call that does not run to its end stopped at an update that did not,
whose outcome is the outcome of the call, and the systems after it are not updated; a
system removed by `removeSystem` is not invoked.  So when each
of the `k` registered systems runs to its end and lowers a tracked value `hp` by one,
`runSystems` lowers it by `k`, and after a successful `removeSystem` by `k - 1`. -/
theorem runSystems_updates_each_registered_once {α : Type} (w : World α) (fuel : Nat) :
    (w.runSystems fuel).invoked <+: w._systems.keys ∧
      (w.runSystems fuel).invoked.Nodup ∧
      (w.runSystems fuel).invoked =
        (w._systems.entries.take (w.runSystems fuel).invoked.length).map Prod.fst ∧
      (w.runSystems fuel).world.toWorldState =
        World.applyUpdates fuel (w._systems.entries.take (w.runSystems fuel).invoked.length)
          w.toWorldState ∧
      ((w.runSystems fuel).status = .done →
        (w.runSystems fuel).invoked = w._systems.keys ∧
          ∀ name, name ∈ (w.runSystems fuel).invoked ↔ ∃ sys, w._systems.find name = some sys) ∧
      ((∀ e ∈ w._systems.entries, ∀ s, (e.2.update fuel s).2 = .done) →
        (w.runSystems fuel).status = .done) ∧
      ((w.runSystems fuel).status ≠ .done →
        ∃ pre e post, w._systems.entries = pre ++ e :: post ∧
          (w.runSystems fuel).invoked = pre.map Prod.fst ++ [e.1] ∧
          (e.2.update fuel (World.applyUpdates fuel pre w.toWorldState)).2 =
            (w.runSystems fuel).status) ∧
      (∀ name, name ∉ ((w.removeSystem name).state.runSystems fuel).invoked) ∧
      (∀ hp : WorldState α → Int → Prop,
        (∀ e ∈ w._systems.entries, ∀ s v, hp s v →
          (e.2.update fuel s).2 = .done ∧ hp (e.2.update fuel s).1 (v - 1)) →
        ∀ v, hp w.toWorldState v →
          ((w.runSystems fuel).status = .done ∧
            hp (w.runSystems fuel).world.toWorldState (v - (w._systems.entries.length : Int))) ∧
          ∀ name, (w.removeSystem name).value = .ok () →
            ((w.removeSystem name).state.runSystems fuel).status = .done ∧
            hp ((w.removeSystem name).state.runSystems fuel).world.toWorldState
              (v - ((w._systems.entries.length : Int) - 1))) := by
  have hinv := World.runSystemsFrom_invoked fuel w._systems.entries w.toWorldState
  have hworld := World.runSystemsFrom_world fuel w._systems.entries w.toWorldState
  have hnd : (w.runSystems fuel).invoked.Nodup := hinv.1.sublist.nodup w._systems.keys_nodup
  refine ⟨hinv.1, hnd, hworld.1, hworld.2, ?_, hinv.2.2,
    World.runSystemsFrom_stopped fuel w._systems.entries w.toWorldState, ?_, ?_⟩
  · intro hdone
    have heq : (w.runSystems fuel).invoked = w._systems.keys := hinv.2.1 hdone
    refine ⟨heq, ?_⟩
    intro name
    rw [heq]
    exact FlatMap.mem_keys_iff w._systems name
  · intro name hmem
    have hpre := (World.runSystemsFrom_invoked fuel (w.removeSystem name).state._systems.entries
      (w.removeSystem name).state.toWorldState).1
    have hk : name ∈ (w.removeSystem name).state._systems.keys := hpre.subset hmem
    rw [(World.removeSystem_systems w name).1] at hk
    exact FlatMap.not_mem_keys_erase _ _ hk
  · intro hp hsys v hv
    refine ⟨World.runSystemsFrom_lowers fuel hp w._systems.entries w.toWorldState v hsys hv, ?_⟩
    intro name hok
    obtain ⟨-, hstate, hrem⟩ := World.removeSystem_systems w name
    obtain ⟨hsys', hmem⟩ := hrem hok
    have hlen : (w.removeSystem name).state._systems.entries.length + 1 =
        w._systems.entries.length := by
      rw [hsys']
      exact FlatMap.length_eraseRaw name w._systems.entries w._systems.ordered hmem
    have hsub : ∀ e ∈ (w.removeSystem name).state._systems.entries, e ∈ w._systems.entries := by
      intro e he
      rw [hsys'] at he
      exact (List.mem_filter.mp he).1
    have hlow := World.runSystemsFrom_lowers fuel hp (w.removeSystem name).state._systems.entries
      (w.removeSystem name).state.toWorldState v (fun e he => hsys e (hsub e he))
      (by rw [hstate]; exact hv)
    have hcast : v - ((w._systems.entries.length : Int) - 1) =
        v - ((w.removeSystem name).state._systems.entries.length : Int) := by
      rw [← hlen]
      push_cast
      ring
    rw [hcast]
    exact hlow

/-- Witness of amended C8: with the two decrementing systems of `twoSystemsWorld`, one
`runSystems` lowers `hp` from 10 to 8, and after `removeSystem("MySystem")` a `runSystems`
lowers it by one. -/
theorem runSystems_updates_each_registered_once_witness :
    ((twoSystemsWorld 10).runSystems 1).invoked = ["MySystem".toList, "MySystemClass".toList] ∧
      ((twoSystemsWorld 10).runSystems 1).world.toWorldState =
        World.applyUpdates 1 ((twoSystemsWorld 10)._systems.entries.take 2) (hpState 10) ∧
      (((twoSystemsWorld 10).runSystems 1).status = .done ∧
        ((twoSystemsWorld 10).runSystems 1).world.toWorldState = hpState 8) ∧
      ((((twoSystemsWorld 10).removeSystem "MySystem".toList).state.runSystems 1).status = .done ∧
        (((twoSystemsWorld 10).removeSystem "MySystem".toList).state.runSystems 1).world.toWorldState
          = hpState 9) :=
  have hsys : ∀ e ∈ (twoSystemsWorld 10)._systems.entries, ∀ s v, s = hpState (intWrap v) →
      (e.2.update 1 s).2 = .done ∧ (e.2.update 1 s).1 = hpState (intWrap (v - 1)) := by
    intro e he s v hs
    subst hs
    have hent : (twoSystemsWorld 10)._systems.entries =
        [createSystem [0] "MySystem".toList decrementHp 0,
          createSystem [0] "MySystemClass".toList decrementHp 0] := rfl
    rw [hent] at he
    simp only [List.mem_cons, List.mem_singleton, List.not_mem_nil, or_false] at he
    have hstep : ∀ (name : Name) (x : Int),
        ((createSystem [0] name decrementHp 0).2.update 1 (hpState x)) =
          (hpState (intWrap (x - 1)), .done) := fun _ _ => rfl
    rcases he with rfl | rfl
    · rw [hstep, intWrap_intWrap_sub]
      exact ⟨rfl, rfl⟩
    · rw [hstep, intWrap_intWrap_sub]
      exact ⟨rfl, rfl⟩
  have hmain := (runSystems_updates_each_registered_once (twoSystemsWorld 10) 1).2.2.2.2.2.2.2.2
    (fun s v => s = hpState (intWrap v)) hsys 10 rfl
  ⟨rfl, (runSystems_updates_each_registered_once (twoSystemsWorld 10) 1).2.2.2.1,
    hmain.1, hmain.2 "MySystem".toList rfl⟩

namespace World

variable {α : Type}

end World

namespace SparseArray

variable {α : Type}

theorem get_of_lt (s : SparseArray α) (i : Nat) (h : i < s._array.length) :
    s.get i =
      match s._array.getD i none with
      | none => .error .SparseArrayExceptionEmpty
      | some v => .ok v := by
  unfold get
  rw [if_neg (by omega)]

theorem get_of_ge (s : SparseArray α) (i : Nat) (h : s._array.length ≤ i) :
    s.get i = .error .SparseArrayExceptionOutOfRange := by
  unfold get
  rw [if_pos h]

theorem set_of_lt (s : SparseArray α) (i : Nat) (v : α) (h : i < s._array.length) :
    s.set i v = .ok ⟨s._array.set i (some v)⟩ := by
  unfold set
  rw [if_neg (by omega)]

theorem set_of_ge (s : SparseArray α) (i : Nat) (v : α) (h : s._array.length ≤ i) :
    s.set i v = .error .SparseArrayExceptionOutOfRange := by
  unfold set
  rw [if_pos h]

theorem erase_of_ge (s : SparseArray α) (i : Nat) (h : s._array.length ≤ i) :
    s.erase i = .error .SparseArrayExceptionOutOfRange := by
  unfold erase
  rw [if_pos h]

theorem getD_of_getElem? (s : SparseArray α) (i : Nat) (o : Option α)
    (h : s._array[i]? = some o) : s._array.getD i none = o := by
  rw [List.getD_eq_getElem?_getD, h]
  rfl

theorem lt_of_getElem? (s : SparseArray α) (i : Nat) (o : Option α)
    (h : s._array[i]? = some o) : i < s._array.length := by
  by_contra hc
  rw [List.getElem?_eq_none (by omega)] at h
  cases h

/-- Below `SIZE_MAX` the sum `aIndex + 1` of `emplace` does not wrap. -/
theorem emplace_of_lt (s : SparseArray α) (i : Nat) (v : α) (hi : i + 1 < 2 ^ 64) :
    s.emplace i v =
      (⟨(if i ≥ s._array.length then vectorResize s._array (i + 1) none
        else s._array).set i (some v)⟩, v) := by
  unfold emplace
  rw [Nat.mod_eq_of_lt hi]

/-- At `SIZE_MAX` the sum `aIndex + 1` of `emplace` is 0: the store is emptied. -/
theorem emplace_sizeMax (s : SparseArray α) (v : α) (hs : s._array.length ≤ 2 ^ 64 - 1) :
    s.emplace (2 ^ 64 - 1) v = (⟨[]⟩, v) := by
  unfold emplace
  rw [if_pos hs]
  have h0 : (2 ^ 64 - 1 + 1) % 2 ^ 64 = 0 := by norm_num
  rw [h0]
  simp [vectorResize]

theorem emplace_length (s : SparseArray α) (i : Nat) (v : α) (hi : i + 1 < 2 ^ 64) :
    (s.emplace i v).1._array.length = max s._array.length (i + 1) := by
  rw [emplace_of_lt s i v hi]
  by_cases h : i ≥ s._array.length
  · simp only [h, if_true, List.length_set, vectorResize_length]
    omega
  · simp only [h, if_false, List.length_set]
    omega

theorem emplace_getElem? (s : SparseArray α) (i j : Nat) (v : α) (hi : i + 1 < 2 ^ 64) :
    (s.emplace i v).1._array[j]? =
      if j = i then some (some v)
      else if j < s._array.length then s._array[j]?
      else if j < i + 1 then some none else none := by
  rw [emplace_of_lt s i v hi]
  by_cases h : i ≥ s._array.length
  · simp only [h, if_true, List.getElem?_set, vectorResize_length]
    rw [vectorResize_getElem? _ _ _ _ (by omega)]
    by_cases hj : j = i
    · subst hj
      simp
    · simp [hj, Ne.symm hj]
  · simp only [h, if_false, List.getElem?_set]
    by_cases hj : j = i
    · subst hj
      simp at h
      simp [h]
    · simp only [hj, Ne.symm hj, if_false]
      by_cases h3 : j < s._array.length
      · simp [h3]
      · simp only [h3, if_false]
        rw [List.getElem?_eq_none (by omega)]
        simp at h
        rw [if_neg (by omega)]

end SparseArray

/-- C17: `has(i)`, `get(i)`, `set(i, v)` and `erase(i)` each fail with OutOfRange if and
only if `i` is at or beyond the length of the store, and the store is then as it was (`has`
and `get` do not write; for `set` and `erase` see `after`).  For `i` below the length all
four return except `get` on an absent slot: `has(i)` is true iff a value is present at `i`,
`get(i)` returns the value when one is present and fails with Empty when the slot is
absent. -/
theorem SparseArray.access_out_of_range_iff {α : Type} (s : SparseArray α) (i : Nat) (v : α) :
    (s.has i = .error .SparseArrayExceptionOutOfRange ↔ s.size ≤ i) ∧
      (s.get i = .error .SparseArrayExceptionOutOfRange ↔ s.size ≤ i) ∧
      (s.set i v = .error .SparseArrayExceptionOutOfRange ↔ s.size ≤ i) ∧
      (s.erase i = .error .SparseArrayExceptionOutOfRange ↔ s.size ≤ i) ∧
      (s.size ≤ i → s.after (s.set i v) = s ∧ s.after (s.erase i) = s) ∧
      (i < s.size →
        (∃ b, s.has i = .ok b ∧ (b = true ↔ ∃ x, s._array[i]? = some (some x))) ∧
        (∃ s1, s.set i v = .ok s1) ∧ (∃ s1, s.erase i = .ok s1)) ∧
      (∀ x, s._array[i]? = some (some x) → s.get i = .ok x) ∧
      (s._array[i]? = some none → s.get i = .error .SparseArrayExceptionEmpty) := by
  have hsize : s.size = s._array.length := rfl
  refine ⟨?_, ?_, ?_, ?_, ?_, ?_, ?_, ?_⟩
  · constructor
    · intro h
      by_contra hc
      rw [SparseArray.has_of_lt s i (by omega)] at h
      cases h
    · intro h
      exact SparseArray.has_of_ge s i h
  · constructor
    · intro h
      by_contra hc
      rw [SparseArray.get_of_lt s i (by omega)] at h
      cases hv : s._array.getD i none with
      | none =>
        rw [hv] at h
        cases h
      | some x =>
        rw [hv] at h
        cases h
    · intro h
      exact SparseArray.get_of_ge s i h
  · constructor
    · intro h
      by_contra hc
      rw [SparseArray.set_of_lt s i v (by omega)] at h
      cases h
    · intro h
      exact SparseArray.set_of_ge s i v h
  · constructor
    · intro h
      by_contra hc
      rw [SparseArray.erase_of_lt s i (by omega)] at h
      cases h
    · intro h
      exact SparseArray.erase_of_ge s i h
  · intro h
    rw [SparseArray.set_of_ge s i v h, SparseArray.erase_of_ge s i h]
    exact ⟨rfl, rfl⟩
  · intro h
    refine ⟨⟨_, SparseArray.has_of_lt s i h, ?_⟩, ⟨_, SparseArray.set_of_lt s i v h⟩,
      ⟨_, SparseArray.erase_of_lt s i h⟩⟩
    have hget : s._array[i]? = some (s._array.getD i none) := by
      rw [List.getD_eq_getElem?_getD, List.getElem?_eq_getElem h]
      rfl
    rw [hget]
    cases s._array.getD i none with
    | none => simp
    | some x => simp
  · intro x hx
    rw [SparseArray.get_of_lt s i (SparseArray.lt_of_getElem? s i _ hx),
      SparseArray.getD_of_getElem? s i _ hx]
  · intro hx
    rw [SparseArray.get_of_lt s i (SparseArray.lt_of_getElem? s i _ hx),
      SparseArray.getD_of_getElem? s i _ hx]

/-- Witness of C17 on `sampleStore`: index 3 is out of range, index 1 is absent, index 2
holds 6. -/
theorem SparseArray.access_out_of_range_iff_witness :
    sampleStore.size ≤ 3 ∧ sampleStore.has 3 = .error .SparseArrayExceptionOutOfRange ∧
      sampleStore.after (sampleStore.set 3 9) = sampleStore ∧
      sampleStore.get 2 = .ok 6 ∧
      sampleStore.get 1 = .error .SparseArrayExceptionEmpty :=
  ⟨by decide, (SparseArray.access_out_of_range_iff sampleStore 3 9).1.mpr (by decide),
    ((SparseArray.access_out_of_range_iff sampleStore 3 9).2.2.2.2.1 (by decide)).1,
    (SparseArray.access_out_of_range_iff sampleStore 2 9).2.2.2.2.2.2.1 6 rfl,
    (SparseArray.access_out_of_range_iff sampleStore 1 9).2.2.2.2.2.2.2 rfl⟩

/-- C18: for `i` below the length, `set(i, v)` returns normally; afterwards `get(i)` returns
`v`, the length is as before and every slot other than `i` is as before.  `set` never grows
the store: whenever it returns, at any index, the length is as before. -/
theorem SparseArray.set_then_get {α : Type} (s : SparseArray α) (i : Nat) (v : α)
    (h : i < s.size) :
    (∃ s1, s.set i v = .ok s1 ∧ s1.get i = .ok v ∧ s1.size = s.size ∧
        ∀ j, j ≠ i → s1._array[j]? = s._array[j]?) ∧
      (∀ k x s2, s.set k x = .ok s2 → s2.size = s.size) := by
  have hlen : i < s._array.length := h
  refine ⟨⟨⟨s._array.set i (some v)⟩, SparseArray.set_of_lt s i v hlen, ?_, ?_, ?_⟩, ?_⟩
  · rw [SparseArray.get_of_lt _ i (by simpa using hlen)]
    simp [List.getD_eq_getElem?_getD, hlen]
  · simp [SparseArray.size]
  · intro j hj
    simp [List.getElem?_set, Ne.symm hj]
  · intro k x s2 hk
    by_cases hkl : k < s._array.length
    · rw [SparseArray.set_of_lt s k x hkl] at hk
      cases hk
      simp [SparseArray.size]
    · rw [SparseArray.set_of_ge s k x (not_lt.mp hkl)] at hk
      cases hk

/-- Witness of C18: `set(1, 9)` on `sampleStore`. -/
theorem SparseArray.set_then_get_witness :
    1 < sampleStore.size ∧ sampleStore.set 1 9 = .ok ⟨[some 4, some 9, some 6]⟩ ∧
      ∃ s1, sampleStore.set 1 9 = .ok s1 ∧ s1.get 1 = .ok 9 ∧ s1.size = sampleStore.size ∧
        ∀ j, j ≠ 1 → s1._array[j]? = sampleStore._array[j]? :=
  ⟨by decide, rfl, (SparseArray.set_then_get sampleStore 1 9 (by decide)).1⟩

/-- C19 fails as stated: at `i = SIZE_MAX` the sum `i + 1` is 0 in `std::size_t`, and
`init(i)` on `sampleStore` empties the store: the length is 0, not `max(3, i + 1)`, slot
`i` is not a slot of the store, and the slots 0 and 2, below the old length, have lost
their values. -/
theorem SparseArray.init_at_size_max_empties_store :
    sampleStore.size = 3 ∧
      sampleStore.init (2 ^ 64 - 1) = ⟨[]⟩ ∧
      (sampleStore.init (2 ^ 64 - 1)).size = 0 ∧
      (sampleStore.init (2 ^ 64 - 1)).size ≠ max sampleStore.size (2 ^ 64 - 1 + 1) ∧
      (sampleStore.init (2 ^ 64 - 1))._array[2 ^ 64 - 1]? = none ∧
      sampleStore._array[0]? = some (some 4) ∧
      (sampleStore.init (2 ^ 64 - 1))._array[0]? = none := by
  have h : sampleStore.init (2 ^ 64 - 1) = ⟨[]⟩ := SparseArray.init_sizeMax sampleStore (by decide)
  rw [h]
  exact ⟨rfl, rfl, rfl, by decide, rfl, rfl, rfl⟩

/-- C19 as amended: for an index `i` below `max_size`, the greatest length of a vector (at
most `SIZE_MAX`), after `init(i)` the length is
`max(old length, i + 1)`, slot `i` is absent, every slot at or above the old length is
absent, and every slot below the old length other than `i` is as before; a second `init(i)`
changes nothing. -/
theorem SparseArray.init_grows_and_resets {α : Type} (s : SparseArray α) (i : Nat)
    (max_size : Nat) (hmax : max_size ≤ 2 ^ 64 - 1) (hi : i < max_size) :
    (s.init i).size = max s.size (i + 1) ∧
      (s.init i)._array[i]? = some none ∧
      (∀ j, s.size ≤ j → j < (s.init i).size → (s.init i)._array[j]? = some none) ∧
      (∀ j, j < s.size → j ≠ i → (s.init i)._array[j]? = s._array[j]?) ∧
      (s.init i).init i = s.init i := by
  have hi1 : i + 1 < 2 ^ 64 := by omega
  have hlen := SparseArray.init_length s i hi1
  refine ⟨hlen, ?_, ?_, ?_, ?_⟩
  · rw [SparseArray.init_getElem? _ _ _ hi1, if_pos rfl]
  · intro j h1 h2
    have h1' : s._array.length ≤ j := h1
    have h2' : j < max s._array.length (i + 1) := hlen ▸ h2
    rw [SparseArray.init_getElem? _ _ _ hi1]
    by_cases hj : j = i
    · rw [if_pos hj]
    · rw [if_neg hj, if_neg (by omega), if_pos (by omega)]
  · intro j h1 h2
    rw [SparseArray.init_getElem? _ _ _ hi1, if_neg h2,
      if_pos (show j < s._array.length from h1)]
  · have hext : ((s.init i).init i)._array = (s.init i)._array := by
      apply List.ext_getElem?
      intro j
      rw [SparseArray.init_getElem? (s.init i) i j hi1]
      by_cases hj : j = i
      · rw [if_pos hj, SparseArray.init_getElem? _ _ _ hi1, if_pos hj]
      · rw [if_neg hj]
        by_cases h3 : j < (s.init i)._array.length
        · rw [if_pos h3]
        · rw [if_neg h3, if_neg (by rw [hlen] at h3; omega),
            List.getElem?_eq_none (by omega)]
    cases hs : (s.init i).init i with
    | mk a =>
      cases hs2 : s.init i with
      | mk b =>
        rw [hs, hs2] at hext
        simp only at hext
        rw [hext]

/-- Witness of amended C19: `init(4)` on `sampleStore` grows the store to length 5. -/
theorem SparseArray.init_grows_and_resets_witness :
    2 ^ 60 - 1 ≤ 2 ^ 64 - 1 ∧ 4 < 2 ^ 60 - 1 ∧
      sampleStore.init 4 = ⟨[some 4, none, some 6, none, none]⟩ ∧
      sampleStore.init 0 = ⟨[none, none, some 6]⟩ ∧
      (sampleStore.init 4).size = max sampleStore.size (4 + 1) ∧
      (sampleStore.init 4).init 4 = sampleStore.init 4 :=
  ⟨by decide, by decide, rfl, rfl,
    (SparseArray.init_grows_and_resets sampleStore 4 (2 ^ 60 - 1) (by decide) (by decide)).1,
    (SparseArray.init_grows_and_resets sampleStore 4 (2 ^ 60 - 1) (by decide)
      (by decide)).2.2.2.2⟩

/-- C20 fails as stated: at `i = SIZE_MAX` the sum `i + 1` is 0 in `std::size_t`, and
`emplace(i, 9)` on `sampleStore` empties the store: the length is 0, `get(i)` throws
OutOfRange, and the slots that existed have lost their values.  Through
`World::emplaceComponentToEntity` the call throws OutOfRange and leaves the store of the
type empty. -/
theorem SparseArray.emplace_at_size_max_empties_store :
    sampleStore.emplace (2 ^ 64 - 1) 9 = (⟨[]⟩, 9) ∧
      (sampleStore.emplace (2 ^ 64 - 1) 9).1.size = 0 ∧
      (sampleStore.emplace (2 ^ 64 - 1) 9).1.size ≠ max sampleStore.size (2 ^ 64 - 1 + 1) ∧
      (sampleStore.emplace (2 ^ 64 - 1) 9).1.get (2 ^ 64 - 1) =
        .error .SparseArrayExceptionOutOfRange ∧
      sampleStore._array[0]? = some (some 4) ∧
      (sampleStore.emplace (2 ^ 64 - 1) 9).1._array[0]? = none ∧
      (oneStoreWorld.emplaceComponentToEntity 0 (2 ^ 64 - 1) 9).value =
        .error .SparseArrayExceptionOutOfRange ∧
      (oneStoreWorld.emplaceComponentToEntity 0 (2 ^ 64 - 1) 9).state._components.find 0 =
        some ⟨[]⟩ := by
  have h : sampleStore.emplace (2 ^ 64 - 1) 9 = (⟨[]⟩, 9) :=
    SparseArray.emplace_sizeMax sampleStore 9 (by decide)
  rw [h]
  exact ⟨rfl, rfl, by decide, rfl, rfl, rfl, rfl, rfl⟩

/-- C20 as amended: for an index `i` below `max_size`, the greatest length of a vector (at
most `SIZE_MAX`), in range of the store or not,
`emplace(i, v)` returns `v`; afterwards the length is `max(old length, i + 1)`, `get(i)`
returns `v`, the slots added by the growth other than `i` are absent and every slot that
existed, other than `i`, is as before.  Through `World::emplaceComponentToEntity` on a
registered type the call returns `v` as well. -/
theorem SparseArray.emplace_grows_and_stores {α : Type} (s : SparseArray α) (i : Nat) (v : α)
    (max_size : Nat) (hmax : max_size ≤ 2 ^ 64 - 1) (hi : i < max_size) :
    (s.emplace i v).2 = v ∧
      (s.emplace i v).1.size = max s.size (i + 1) ∧
      (s.emplace i v).1.get i = .ok v ∧
      (∀ j, s.size ≤ j → j < (s.emplace i v).1.size → j ≠ i →
        (s.emplace i v).1._array[j]? = some none) ∧
      (∀ j, j < s.size → j ≠ i → (s.emplace i v).1._array[j]? = s._array[j]?) ∧
      (∀ (w : WorldState α) t, w._components.find t = some s →
        (w.emplaceComponentToEntity t i v).value = .ok v ∧
        (w.emplaceComponentToEntity t i v).state._components.find t =
          some (s.emplace i v).1) := by
  have hi1 : i + 1 < 2 ^ 64 := by omega
  have hlen := SparseArray.emplace_length s i v hi1
  have hget : (s.emplace i v).1.get i = .ok v := by
    rw [SparseArray.get_of_lt _ i (by omega),
      SparseArray.getD_of_getElem? _ i (some v)
        (by rw [SparseArray.emplace_getElem? _ _ _ _ hi1, if_pos rfl])]
  refine ⟨rfl, hlen, hget, ?_, ?_, ?_⟩
  · intro j h1 h2 h3
    have h1' : s._array.length ≤ j := h1
    have h2' : j < max s._array.length (i + 1) := hlen ▸ h2
    rw [SparseArray.emplace_getElem? _ _ _ _ hi1, if_neg h3, if_neg (by omega),
      if_pos (by omega)]
  · intro j h1 h2
    rw [SparseArray.emplace_getElem? _ _ _ _ hi1, if_neg h2,
      if_pos (show j < s._array.length from h1)]
  · intro w t ht
    unfold WorldState.emplaceComponentToEntity
    rw [WorldState.getComponent_of_find w t s ht]
    refine ⟨hget, ?_⟩
    show (w._components.modify t _).find t = _
    rw [FlatMap.find_modify, if_pos rfl, ht]
    rfl

/-- Witness of amended C20: `emplace(4, 9)` on `sampleStore` grows the store, `emplace(1, 9)`
fills the absent slot. -/
theorem SparseArray.emplace_grows_and_stores_witness :
    2 ^ 60 - 1 ≤ 2 ^ 64 - 1 ∧ 4 < 2 ^ 60 - 1 ∧
      sampleStore.emplace 4 9 = (⟨[some 4, none, some 6, none, some 9]⟩, 9) ∧
      sampleStore.emplace 1 9 = (⟨[some 4, some 9, some 6]⟩, 9) ∧
      (sampleStore.emplace 4 9).1.get 4 = .ok 9 :=
  ⟨by decide, by decide, rfl, rfl,
    (SparseArray.emplace_grows_and_stores sampleStore 4 9 (2 ^ 60 - 1) (by decide)
      (by decide)).2.2.1⟩

/-! ## Registry errors (C11 to C16) -/

theorem WorldState.registerComponent_of_find_none {α : Type} (w : WorldState α)
    (t : TypeIndex) (h : w._components.find t = none) :
    w.registerComponent t =
      ⟨{ w with _components := w._components.insert t ⟨[]⟩ }, .ok ⟨[]⟩⟩ := by
  unfold WorldState.registerComponent
  rw [h]

theorem WorldState.removeComponent_of_find {α : Type} (w : WorldState α) (t : TypeIndex)
    (s : SparseArray α) (h : w._components.find t = some s) :
    w.removeComponent t = ⟨{ w with _components := w._components.erase t }, .ok ()⟩ := by
  unfold WorldState.removeComponent
  rw [h]

/-- C11 fails as stated: in `oneStoreWorld` type 0 is registered and type 1 is not; entity 0
has no component of type 0, so `hasComponents<0, 1>(0)` stops at the first test and returns
false without raising, and at id 5, out of range of the store of type 0, it raises
OutOfRange. -/
theorem hasComponents_false_before_unregistered :
    oneStoreWorld._components.find 1 = none ∧
      oneStoreWorld.hasComponents [0, 1] 0 = .ok false ∧
      oneStoreWorld.hasComponents [0, 1] 5 = .error .SparseArrayExceptionOutOfRange ∧
      oneStoreWorld.hasComponents [0, 1] 0 ≠ .error .WorldExceptionComponentNotRegistered := by
  refine ⟨rfl, rfl, rfl, ?_⟩
  intro h
  have h0 : oneStoreWorld.hasComponents [0, 1] 0 = .ok false := rfl
  rw [h0] at h
  cases h

/-- C11 as amended: `hasComponents<T1, T2>(id)` raises ComponentNotRegistered when `T1` is
not registered, and when `T1` is registered, holds a value at `id`, and `T2` is not
registered.  When `T1` is registered and `T2` is not, it returns false if the store of `T1`
has no value at `id` (`T2` is then not looked up), and it passes on the exception of
`has(id)` if `id` is out of range of the store of `T1`. -/
theorem hasComponents_pair_unregistered {α : Type} (w : WorldState α) (id : Nat)
    (t1 t2 : TypeIndex) :
    (w._components.find t1 = none →
        w.hasComponents [t1, t2] id = .error .WorldExceptionComponentNotRegistered) ∧
      (∀ s, w._components.find t1 = some s → w._components.find t2 = none →
        (s.has id = .ok true →
          w.hasComponents [t1, t2] id = .error .WorldExceptionComponentNotRegistered) ∧
        (s.has id = .ok false → w.hasComponents [t1, t2] id = .ok false) ∧
        (∀ e, s.has id = .error e → w.hasComponents [t1, t2] id = .error e)) := by
  refine ⟨?_, ?_⟩
  · intro h
    simp only [WorldState.hasComponents, WorldState.getComponent_of_find_none w t1 h]
  · intro s h1 h2
    refine ⟨?_, ?_, ?_⟩
    · intro hh
      simp only [WorldState.hasComponents, WorldState.getComponent_of_find w t1 s h1, hh,
        WorldState.getComponent_of_find_none w t2 h2]
    · intro hh
      simp only [WorldState.hasComponents, WorldState.getComponent_of_find w t1 s h1, hh]
    · intro e hh
      simp only [WorldState.hasComponents, WorldState.getComponent_of_find w t1 s h1, hh]

/-- Witness of amended C11 on `oneStoreWorld`: entity 1 holds a component of type 0, and
type 1 is not registered. -/
theorem hasComponents_pair_unregistered_witness :
    oneStoreWorld._components.find 0 = some ⟨[none, some 5]⟩ ∧
      oneStoreWorld._components.find 1 = none ∧
      oneStoreWorld.hasComponents [0, 1] 1 = .error .WorldExceptionComponentNotRegistered ∧
      oneStoreWorld.hasComponents [1, 0] 1 = .error .WorldExceptionComponentNotRegistered :=
  ⟨rfl, rfl,
    ((hasComponents_pair_unregistered oneStoreWorld 1 0 1).2 ⟨[none, some 5]⟩ rfl rfl).1 rfl,
    (hasComponents_pair_unregistered oneStoreWorld 1 1 0).1 rfl⟩

/-- C12: `registerComponent<T>` fails with ComponentAlreadyRegistered and leaves the world
as it was when `T` is registered; otherwise it returns an empty store, after which `T` has
a store of length 0 and every other type has the store it had (free list and counter are
untouched).  `getComponent<T>` fails with ComponentNotRegistered if and only if `T` is not
registered, and returns the store of `T` otherwise. -/
theorem registerComponent_and_getComponent {α : Type} (w : WorldState α) (t : TypeIndex) :
    (∀ s, w._components.find t = some s →
        w.registerComponent t = ⟨w, .error .WorldExceptionComponentAlreadyRegistered⟩) ∧
      (w._components.find t = none →
        (w.registerComponent t).value = .ok ⟨[]⟩ ∧
        (w.registerComponent t).state._components.find t = some ⟨[]⟩ ∧
        (∀ t1, t1 ≠ t →
          (w.registerComponent t).state._components.find t1 = w._components.find t1) ∧
        (w.registerComponent t).state._ids = w._ids ∧
        (w.registerComponent t).state._nextId = w._nextId) ∧
      (w.getComponent t = .error .WorldExceptionComponentNotRegistered ↔
        w._components.find t = none) ∧
      (∀ s, w._components.find t = some s → w.getComponent t = .ok s) := by
  refine ⟨?_, ?_, ?_, ?_⟩
  · intro s h
    unfold WorldState.registerComponent
    rw [h]
  · intro h
    rw [WorldState.registerComponent_of_find_none w t h]
    refine ⟨rfl, ?_, ?_, rfl, rfl⟩
    · show (w._components.insert t ⟨[]⟩).find t = _
      rw [FlatMap.find_insert, if_pos rfl]
    · intro t1 ht1
      show (w._components.insert t ⟨[]⟩).find t1 = _
      rw [FlatMap.find_insert, if_neg ht1]
  · constructor
    · intro h
      cases hf : w._components.find t with
      | none => rfl
      | some s =>
        rw [WorldState.getComponent_of_find w t s hf] at h
        cases h
    · intro h
      exact WorldState.getComponent_of_find_none w t h
  · intro s h
    exact WorldState.getComponent_of_find w t s h

/-- Witness of C12 on `oneStoreWorld`: type 0 is registered, type 1 is not. -/
theorem registerComponent_and_getComponent_witness :
    oneStoreWorld._components.find 0 = some ⟨[none, some 5]⟩ ∧
      oneStoreWorld._components.find 1 = none ∧
      oneStoreWorld.registerComponent 0 =
        ⟨oneStoreWorld, .error .WorldExceptionComponentAlreadyRegistered⟩ ∧
      (oneStoreWorld.registerComponent 1).state._components.find 1 = some ⟨[]⟩ ∧
      oneStoreWorld.getComponent 1 = .error .WorldExceptionComponentNotRegistered :=
  ⟨rfl, rfl, (registerComponent_and_getComponent oneStoreWorld 0).1 ⟨[none, some 5]⟩ rfl,
    ((registerComponent_and_getComponent oneStoreWorld 1).2.1 rfl).2.1,
    (registerComponent_and_getComponent oneStoreWorld 1).2.2.1.mpr rfl⟩

/-- C13: `removeComponent<T>` fails with ComponentNotRegistered, leaving the world as it
was, when `T` is not registered.  Otherwise it returns normally and drops the store of `T`:
a following `getComponent<T>` fails with ComponentNotRegistered, a following
`registerComponent<T>` succeeds and gives `T` an empty store, and every other type has the
store it had. -/
theorem removeComponent_drops_store {α : Type} (w : WorldState α) (t : TypeIndex) :
    (w._components.find t = none →
        w.removeComponent t = ⟨w, .error .WorldExceptionComponentNotRegistered⟩) ∧
      (∀ s, w._components.find t = some s →
        (w.removeComponent t).value = .ok () ∧
        (w.removeComponent t).state.getComponent t =
          .error .WorldExceptionComponentNotRegistered ∧
        ((w.removeComponent t).state.registerComponent t).value = .ok ⟨[]⟩ ∧
        ((w.removeComponent t).state.registerComponent t).state.getComponent t = .ok ⟨[]⟩ ∧
        (∀ t1, t1 ≠ t →
          (w.removeComponent t).state._components.find t1 = w._components.find t1) ∧
        (w.removeComponent t).state._ids = w._ids ∧
        (w.removeComponent t).state._nextId = w._nextId) := by
  refine ⟨?_, ?_⟩
  · intro h
    unfold WorldState.removeComponent
    rw [h]
  · intro s h
    rw [WorldState.removeComponent_of_find w t s h]
    have hnone : ({ w with _components := w._components.erase t } :
        WorldState α)._components.find t = none := by
      show (w._components.erase t).find t = none
      rw [FlatMap.find_erase, if_pos rfl]
    refine ⟨rfl, WorldState.getComponent_of_find_none _ t hnone, ?_, ?_, ?_, rfl, rfl⟩
    · show (WorldState.registerComponent _ t).value = _
      rw [WorldState.registerComponent_of_find_none _ t hnone]
    · show (WorldState.registerComponent _ t).state.getComponent t = _
      rw [WorldState.registerComponent_of_find_none _ t hnone]
      apply WorldState.getComponent_of_find
      show ((w._components.erase t).insert t ⟨[]⟩).find t = _
      rw [FlatMap.find_insert, if_pos rfl]
    · intro t1 ht1
      show (w._components.erase t).find t1 = _
      rw [FlatMap.find_erase, if_neg ht1]

/-- Witness of C13 on `twoStoreWorld`: removing type 0 keeps the store of type 1; type 7 is
not registered. -/
theorem removeComponent_drops_store_witness :
    twoStoreWorld._components.find 0 = some ⟨[some 10, none, some 10]⟩ ∧
      twoStoreWorld._components.find 7 = none ∧
      (twoStoreWorld.removeComponent 0).state.getComponent 0 =
        .error .WorldExceptionComponentNotRegistered ∧
      (twoStoreWorld.removeComponent 0).state._components.find 1 =
        some ⟨[some 10, some 10, some 10]⟩ ∧
      twoStoreWorld.removeComponent 7 =
        ⟨twoStoreWorld, .error .WorldExceptionComponentNotRegistered⟩ :=
  ⟨rfl, rfl,
    ((removeComponent_drops_store twoStoreWorld 0).2 ⟨[some 10, none, some 10]⟩ rfl).2.1,
    (((removeComponent_drops_store twoStoreWorld 0).2 ⟨[some 10, none, some 10]⟩
      rfl).2.2.2.2.1 1 (by decide)).trans rfl,
    (removeComponent_drops_store twoStoreWorld 7).1 rfl⟩

/-- C14: for a registered type `T` and an id below the length of its store,
`addComponentToEntity<T>(id, v)` returns `v`; afterwards `has(id)` is true and `get(id)` is
`v` in the store of `T`, whose length and other slots are as before, and every other store,
the free list and the counter are as before.  When `T` is not registered the call fails
with ComponentNotRegistered and the world is as it was. -/
theorem addComponentToEntity_sets_slot {α : Type} (w : WorldState α) (t : TypeIndex)
    (id : Nat) (v : α) :
    (∀ s, w._components.find t = some s → id < s.size →
        (w.addComponentToEntity t id v).value = .ok v ∧
        (∃ s1, (w.addComponentToEntity t id v).state._components.find t = some s1 ∧
          s1.has id = .ok true ∧ s1.get id = .ok v ∧ s1.size = s.size ∧
          ∀ j, j ≠ id → s1._array[j]? = s._array[j]?) ∧
        (∀ t1, t1 ≠ t →
          (w.addComponentToEntity t id v).state._components.find t1 =
            w._components.find t1) ∧
        (w.addComponentToEntity t id v).state._ids = w._ids ∧
        (w.addComponentToEntity t id v).state._nextId = w._nextId) ∧
      (w._components.find t = none →
        w.addComponentToEntity t id v =
          ⟨w, .error .WorldExceptionComponentNotRegistered⟩) := by
  refine ⟨?_, ?_⟩
  · intro s hs hlt
    have hlen : id < s._array.length := hlt
    have hget : (⟨s._array.set id (some v)⟩ : SparseArray α).get id = .ok v := by
      rw [SparseArray.get_of_lt _ id (by simpa using hlen)]
      simp [List.getD_eq_getElem?_getD, hlen]
    have hr : w.addComponentToEntity t id v =
        ⟨{ w with _components :=
            w._components.modify t (fun _ => ⟨s._array.set id (some v)⟩) }, .ok v⟩ := by
      unfold WorldState.addComponentToEntity
      rw [WorldState.getComponent_of_find w t s hs]
      simp only [SparseArray.set_of_lt s id v hlen, hget]
    rw [hr]
    refine ⟨rfl, ⟨⟨s._array.set id (some v)⟩, ?_, ?_, hget, ?_, ?_⟩, ?_, rfl, rfl⟩
    · show (w._components.modify t _).find t = _
      rw [FlatMap.find_modify, if_pos rfl, hs]
      rfl
    · rw [SparseArray.has_of_lt _ id (by simpa using hlen)]
      simp [List.getD_eq_getElem?_getD, hlen]
    · simp [SparseArray.size]
    · intro j hj
      simp [List.getElem?_set, Ne.symm hj]
    · intro t1 ht1
      show (w._components.modify t _).find t1 = _
      rw [FlatMap.find_modify, if_neg ht1]
  · intro h
    unfold WorldState.addComponentToEntity
    rw [WorldState.getComponent_of_find_none w t h]

/-- Witness of C14 on `oneStoreWorld`: attaching 8 to entity 0; type 1 is not registered. -/
theorem addComponentToEntity_sets_slot_witness :
    oneStoreWorld._components.find 0 = some ⟨[none, some 5]⟩ ∧
      (0 < (⟨[none, some 5]⟩ : SparseArray Int).size) ∧
      (oneStoreWorld.addComponentToEntity 0 0 8).value = .ok 8 ∧
      (oneStoreWorld.addComponentToEntity 0 0 8).state._components.find 0 =
        some ⟨[some 8, some 5]⟩ ∧
      oneStoreWorld.addComponentToEntity 1 0 8 =
        ⟨oneStoreWorld, .error .WorldExceptionComponentNotRegistered⟩ :=
  ⟨rfl, by decide,
    ((addComponentToEntity_sets_slot oneStoreWorld 0 0 8).1 ⟨[none, some 5]⟩ rfl
      (by decide)).1,
    rfl, (addComponentToEntity_sets_slot oneStoreWorld 1 0 8).2 rfl⟩

/-- C15: `addSystem` fails with SystemAlreadyRegistered and leaves the world, and with it
the registered systems, as it was when the name is taken; otherwise it returns normally and
the system is registered under the name, beside the systems registered before (entities
and components are untouched). -/
theorem addSystem_registers_or_rejects {α : Type} (w : World α) (aSystem : Name × System α) :
    (∀ sys, w._systems.find aSystem.1 = some sys →
        w.addSystem aSystem = ⟨w, .error .WorldExceptionSystemAlreadyRegistered⟩) ∧
      (w._systems.find aSystem.1 = none →
        (w.addSystem aSystem).value = .ok () ∧
        (w.addSystem aSystem).state._systems.find aSystem.1 = some aSystem.2 ∧
        (∀ n, n ≠ aSystem.1 →
          (w.addSystem aSystem).state._systems.find n = w._systems.find n) ∧
        ((w.addSystem aSystem).state._systems.keys).Perm (aSystem.1 :: w._systems.keys) ∧
        (w.addSystem aSystem).state.toWorldState = w.toWorldState) := by
  refine ⟨?_, ?_⟩
  · intro sys h
    unfold World.addSystem
    rw [h]
  · intro h
    have hr : w.addSystem aSystem =
        ⟨{ w with _systems := w._systems.insert aSystem.1 aSystem.2 }, .ok ()⟩ := by
      unfold World.addSystem
      rw [h]
    have hfresh : aSystem.1 ∉ w._systems.keys := by
      intro hmem
      obtain ⟨v, hv⟩ := (FlatMap.mem_keys_iff w._systems aSystem.1).mp hmem
      rw [h] at hv
      cases hv
    rw [hr]
    refine ⟨rfl, ?_, ?_, ?_, rfl⟩
    · show (w._systems.insert aSystem.1 aSystem.2).find aSystem.1 = _
      rw [FlatMap.find_insert, if_pos rfl]
    · intro n hn
      show (w._systems.insert aSystem.1 aSystem.2).find n = _
      rw [FlatMap.find_insert, if_neg hn]
    · exact FlatMap.keys_insertRaw_perm aSystem.1 aSystem.2 w._systems.entries hfresh

/-- Witness of C15 on `twoSystemsWorld`: the name `MySystem` is taken, the name `Other` is
free. -/
theorem addSystem_registers_or_rejects_witness :
    (twoSystemsWorld 10)._systems.find "Other".toList = none ∧
      ((twoSystemsWorld 10).addSystem
        (createSystem [0] "MySystem".toList decrementHp 0)).value =
        .error .WorldExceptionSystemAlreadyRegistered ∧
      ((twoSystemsWorld 10).addSystem
        (createSystem [0] "MySystem".toList decrementHp 0)).state._systems.keys =
        (twoSystemsWorld 10)._systems.keys ∧
      ((twoSystemsWorld 10).addSystem
        (createSystem [0] "Other".toList decrementHp 0)).value = .ok () ∧
      ((twoSystemsWorld 10).addSystem
        (createSystem [0] "Other".toList decrementHp 0)).state._systems.keys =
        ["MySystem".toList, "MySystemClass".toList, "Other".toList] :=
  have hrej := (addSystem_registers_or_rejects (twoSystemsWorld 10)
    (createSystem [0] "MySystem".toList decrementHp 0)).1
    (createSystem [0] "MySystem".toList decrementHp 0).2 rfl
  ⟨rfl, congrArg Res.value hrej, congrArg (fun r => r.state._systems.keys) hrej,
    ((addSystem_registers_or_rejects (twoSystemsWorld 10)
      (createSystem [0] "Other".toList decrementHp 0)).2 rfl).1, rfl⟩

/-- C16: `removeSystem` fails with SystemNotRegistered if and only if no system is
registered under the name, and the world is then as it was; so it fails on a world to which
no system was ever added.  When a system is registered under the name, `removeSystem`
returns normally, the name is no longer registered while every other name is as before, and
a second `removeSystem` of the name fails with SystemNotRegistered. -/
theorem removeSystem_fails_iff_absent {α : Type} (w : World α) (name : Name) :
    ((w.removeSystem name).value = .error .WorldExceptionSystemNotRegistered ↔
        w._systems.find name = none) ∧
      (w._systems.find name = none →
        w.removeSystem name = ⟨w, .error .WorldExceptionSystemNotRegistered⟩) ∧
      ((World.new : World α).removeSystem name).value =
        .error .WorldExceptionSystemNotRegistered ∧
      (∀ sys, w._systems.find name = some sys →
        (w.removeSystem name).value = .ok () ∧
        (w.removeSystem name).state._systems.find name = none ∧
        (∀ n, n ≠ name → (w.removeSystem name).state._systems.find n = w._systems.find n) ∧
        ((w.removeSystem name).state.removeSystem name).value =
          .error .WorldExceptionSystemNotRegistered) := by
  have hnone : ∀ (w1 : World α), w1._systems.find name = none →
      w1.removeSystem name = ⟨w1, .error .WorldExceptionSystemNotRegistered⟩ := by
    intro w1 h
    unfold World.removeSystem
    rw [h]
  have hsome : ∀ sys, w._systems.find name = some sys →
      w.removeSystem name = ⟨{ w with _systems := w._systems.erase name }, .ok ()⟩ := by
    intro sys h
    unfold World.removeSystem
    rw [h]
  refine ⟨?_, hnone w, ?_, ?_⟩
  · constructor
    · intro h
      cases hf : w._systems.find name with
      | none => rfl
      | some sys =>
        rw [hsome sys hf] at h
        cases h
    · intro h
      rw [hnone w h]
  · rw [hnone World.new rfl]
  · intro sys h
    rw [hsome sys h]
    have hgone : (w._systems.erase name).find name = none := by
      rw [FlatMap.find_erase, if_pos rfl]
    refine ⟨rfl, hgone, ?_, ?_⟩
    · intro n hn
      show (w._systems.erase name).find n = _
      rw [FlatMap.find_erase, if_neg hn]
    · show (World.removeSystem _ name).value = _
      rw [hnone _ hgone]

/-- Witness of C16 on `twoSystemsWorld`: `MySystem` can be removed once, `Other` never. -/
theorem removeSystem_fails_iff_absent_witness :
    (twoSystemsWorld 10)._systems.find "Other".toList = none ∧
      ((twoSystemsWorld 10).removeSystem "Other".toList).value =
        .error .WorldExceptionSystemNotRegistered ∧
      ((twoSystemsWorld 10).removeSystem "MySystem".toList).value = .ok () ∧
      (((twoSystemsWorld 10).removeSystem "MySystem".toList).state.removeSystem
        "MySystem".toList).value = .error .WorldExceptionSystemNotRegistered :=
  ⟨rfl, (removeSystem_fails_iff_absent (twoSystemsWorld 10) "Other".toList).1.mpr rfl,
    ((removeSystem_fails_iff_absent (twoSystemsWorld 10) "MySystem".toList).2.2.2
      (createSystem [0] "MySystem".toList decrementHp 0).2 rfl).1,
    ((removeSystem_fails_iff_absent (twoSystemsWorld 10) "MySystem".toList).2.2.2
      (createSystem [0] "MySystem".toList decrementHp 0).2 rfl).2.2.2⟩

/-! ## `SparseArray::erase` (C21) -/

/-- C21: for `i` below the length, `erase(i)` returns normally; afterwards `has(i)` is
false, the length is as before and every slot other than `i` is as before, and when slot
`i` was absent already the store is as before.  Through
`World::removeComponentFromEntity` on a registered type the same store results. -/
theorem SparseArray.erase_resets_slot {α : Type} (s : SparseArray α) (i : Nat)
    (h : i < s.size) :
    ∃ s1, s.erase i = .ok s1 ∧ s1.has i = .ok false ∧ s1.size = s.size ∧
      (∀ j, j ≠ i → s1._array[j]? = s._array[j]?) ∧
      (s._array[i]? = some none → s1 = s) ∧
      (∀ (w : WorldState α) t, w._components.find t = some s →
        (w.removeComponentFromEntity t i).value = .ok () ∧
        (w.removeComponentFromEntity t i).state._components.find t = some s1) := by
  have hlen : i < s._array.length := h
  refine ⟨⟨s._array.set i none⟩, SparseArray.erase_of_lt s i hlen, ?_, ?_, ?_, ?_, ?_⟩
  · rw [SparseArray.has_of_lt _ i (by simpa using hlen)]
    simp [List.getD_eq_getElem?_getD, hlen]
  · simp [SparseArray.size]
  · intro j hj
    simp [List.getElem?_set, Ne.symm hj]
  · intro habs
    have hext : s._array.set i none = s._array := by
      apply List.ext_getElem?
      intro j
      rw [List.getElem?_set]
      by_cases hj : i = j
      · subst hj
        rw [if_pos rfl, if_pos hlen, habs]
      · rw [if_neg hj]
    cases s with
    | mk a =>
      simp only at hext
      rw [hext]
  · intro w t ht
    have hr : w.removeComponentFromEntity t i =
        ⟨{ w with _components := w._components.modify t (fun _ => ⟨s._array.set i none⟩) },
          .ok ()⟩ := by
      unfold WorldState.removeComponentFromEntity
      rw [WorldState.getComponent_of_find w t s ht]
      simp only [SparseArray.erase_of_lt s i hlen]
    rw [hr]
    refine ⟨rfl, ?_⟩
    show (w._components.modify t _).find t = _
    rw [FlatMap.find_modify, if_pos rfl, ht]
    rfl

/-- Witness of C21 on `sampleStore`: erasing the value at index 2, and the absent slot at
index 1. -/
theorem SparseArray.erase_resets_slot_witness :
    2 < sampleStore.size ∧ sampleStore.erase 2 = .ok ⟨[some 4, none, none]⟩ ∧
      sampleStore.erase 1 = .ok sampleStore ∧
      ∃ s1, sampleStore.erase 2 = .ok s1 ∧ s1.has 2 = .ok false ∧
        s1.size = sampleStore.size :=
  ⟨by decide, rfl, rfl,
    (SparseArray.erase_resets_slot sampleStore 2 (by decide)).imp
      (fun _ hs => ⟨hs.1, hs.2.1, hs.2.2.1⟩)⟩

end Engine.Core

/-! ## Event queues (C22 to C24) -/

namespace Engine.Event

open Engine.Core

theorem stdFind_of_not_mem {τ : Type} [DecidableEq τ] (v : τ) (l : List τ) (h : v ∉ l) :
    stdFind v l = l.length := by
  induction l with
  | nil => rfl
  | cons x rest ih =>
    simp only [List.mem_cons, not_or] at h
    simp only [stdFind, if_neg (Ne.symm h.1), ih h.2, List.length_cons]

theorem stdFind_of_mem {τ : Type} [DecidableEq τ] (v : τ) (l : List τ) (h : v ∈ l) :
    ∃ pre post, l = pre ++ v :: post ∧ v ∉ pre ∧ stdFind v l = pre.length := by
  induction l with
  | nil => cases h
  | cons x rest ih =>
    by_cases hx : x = v
    · subst hx
      exact ⟨[], rest, rfl, List.not_mem_nil x, by simp [stdFind]⟩
    · rcases List.mem_cons.mp h with h1 | h1
      · exact absurd h1.symm hx
      · obtain ⟨pre, post, h2, h3, h4⟩ := ih h1
        refine ⟨x :: pre, post, by rw [h2]; rfl, ?_, ?_⟩
        · simp only [List.mem_cons, not_or]
          exact ⟨Ne.symm hx, h3⟩
        · simp only [stdFind, if_neg hx, h4, List.length_cons]

theorem pushEvent_foldl {ε : Type} (h : EventHandler ε) (es : List ε) :
    (es.foldl EventHandler.pushEvent h)._events = h._events ++ es := by
  induction es generalizing h with
  | nil => simp
  | cons e rest ih =>
    rw [List.foldl_cons, ih]
    simp [EventHandler.pushEvent]

/-- C23: when `k` is below the length of the queue, `removeEvent(k)` removes the element at
position `k` and nothing else: the length goes down by one, the elements before `k` stay
where they are and every later element moves down by one position.  When `k` is at or
beyond the length the queue is as before; the function has no throwing path. -/
theorem EventHandler.removeEvent_at_index {ε : Type} (q : EventHandler ε) (k : Nat) :
    (k < q._events.length →
        (q.removeEvent k)._events = q._events.take k ++ q._events.drop (k + 1) ∧
        (q.removeEvent k)._events.length + 1 = q._events.length ∧
        (∀ j, j < k → (q.removeEvent k)._events[j]? = q._events[j]?) ∧
        (∀ j, k ≤ j → (q.removeEvent k)._events[j]? = q._events[j + 1]?)) ∧
      (q._events.length ≤ k → q.removeEvent k = q) := by
  refine ⟨?_, ?_⟩
  · intro hk
    have hr : q.removeEvent k = ⟨q._events.eraseIdx k⟩ := by
      unfold EventHandler.removeEvent
      rw [if_neg (by omega)]
    rw [hr]
    refine ⟨List.eraseIdx_eq_take_drop_succ _ _, ?_, ?_, ?_⟩
    · show (q._events.eraseIdx k).length + 1 = _
      rw [List.length_eraseIdx, if_pos hk]
      omega
    · intro j hj
      show (q._events.eraseIdx k)[j]? = _
      rw [List.getElem?_eraseIdx, if_pos hj]
    · intro j hj
      show (q._events.eraseIdx k)[j]? = _
      rw [List.getElem?_eraseIdx, if_neg (by omega)]
  · intro hk
    unfold EventHandler.removeEvent
    rw [if_pos hk]

/-- C24: `removeEvent(v)` removes the first element equal to `v` and nothing else: the
queue is `pre ++ v :: post` with no `v` in `pre` and becomes `pre ++ post`, so later
elements equal to `v` and the order of all other elements are kept; when no element equals
`v` the queue is as before. -/
theorem EventHandler.removeEventByValue_first {ε : Type} [DecidableEq ε]
    (q : EventHandler ε) (v : ε) :
    (v ∉ q._events → q.removeEventByValue v = q) ∧
      (v ∈ q._events → ∃ pre post, q._events = pre ++ v :: post ∧ v ∉ pre ∧
        (q.removeEventByValue v)._events = pre ++ post) := by
  refine ⟨?_, ?_⟩
  · intro h
    unfold EventHandler.removeEventByValue
    simp only [stdFind_of_not_mem v q._events h, ne_eq, not_true_eq_false, if_false]
  · intro h
    obtain ⟨pre, post, h1, h2, h3⟩ := stdFind_of_mem v q._events h
    refine ⟨pre, post, h1, h2, ?_⟩
    unfold EventHandler.removeEventByValue
    simp only [h3]
    rw [if_pos (by rw [h1]; simp)]
    show q._events.eraseIdx pre.length = _
    rw [h1, List.eraseIdx_append_of_length_le (Nat.le_refl _), Nat.sub_self]
    rfl

/-- Witness of C23 on `sampleQueue`: index 1 is in range, index 9 is not. -/
theorem EventHandler.removeEvent_at_index_witness :
    1 < sampleQueue._events.length ∧ sampleQueue._events.length ≤ 9 ∧
      sampleQueue.removeEvent 1 = ⟨[5, 6, 7, 8]⟩ ∧
      (sampleQueue.removeEvent 1)._events.length + 1 = sampleQueue._events.length ∧
      sampleQueue.removeEvent 9 = sampleQueue :=
  ⟨by decide, by decide, rfl,
    ((EventHandler.removeEvent_at_index sampleQueue 1).1 (by decide)).2.1,
    (EventHandler.removeEvent_at_index sampleQueue 9).2 (by decide)⟩

/-- Witness of C24 on `sampleQueue`: of the two elements equal to 7 the first is removed;
no element equals 9. -/
theorem EventHandler.removeEventByValue_first_witness :
    7 ∈ sampleQueue._events ∧ 9 ∉ sampleQueue._events ∧
      sampleQueue.removeEventByValue 7 = ⟨[5, 6, 7, 8]⟩ ∧
      sampleQueue.removeEventByValue 9 = sampleQueue ∧
      ∃ pre post, sampleQueue._events = pre ++ 7 :: post ∧ 7 ∉ pre ∧
        (sampleQueue.removeEventByValue 7)._events = pre ++ post :=
  ⟨by decide, by decide, rfl,
    (EventHandler.removeEventByValue_first sampleQueue 9).1 (by decide),
    (EventHandler.removeEventByValue_first sampleQueue 7).2 (by decide)⟩

/-! ## The event bus (C22, C25 to C29) -/

namespace EventManager

variable {ε : Type}

/-- `getHandler<Event>` never yields a handler: for an absent key it throws NoHandler, and
for a present key the cast of the map entry cannot succeed. -/
theorem getHandler_fails (m : EventManager ε) (Event : TypeIndex) :
    m.getHandler Event = .error .EventManagerExceptionNoHandler := by
  unfold getHandler
  cases m._eventsHandler.find Event <;> rfl

theorem pushEvent_fails (m : EventManager ε) (Event : TypeIndex) (aEvent : ε) :
    m.pushEvent Event aEvent = ⟨m, .error .EventManagerExceptionNoHandler⟩ := by
  unfold pushEvent
  rw [getHandler_fails]

theorem getEventsByType_fails (m : EventManager ε) (Event : TypeIndex) :
    m.getEventsByType Event = .error .EventManagerExceptionNoHandler := by
  unfold getEventsByType
  rw [getHandler_fails]

theorem clearFunc_fails (Event : TypeIndex) (m : EventManager ε) :
    clearFunc Event m = ⟨m, .error .EventManagerExceptionNoHandler⟩ := by
  unfold clearFunc
  rw [getHandler_fails]

theorem keepEventsAndClearFrom_all_kept (kept : List TypeIndex) (keys : List TypeIndex)
    (m : EventManager ε) (h : ∀ k ∈ keys, k ∈ kept) :
    keepEventsAndClearFrom kept keys m = ⟨m, .ok ()⟩ := by
  induction keys with
  | nil => rfl
  | cons k rest ih =>
    simp only [keepEventsAndClearFrom, if_pos (h k (List.mem_cons_self k rest))]
    exact ih (fun x hx => h x (List.mem_cons_of_mem k hx))

theorem keepEventsAndClearFrom_some_unkept (kept : List TypeIndex) (keys : List TypeIndex)
    (m : EventManager ε) (h : ∃ k ∈ keys, k ∉ kept) :
    keepEventsAndClearFrom kept keys m = ⟨m, .error .EventManagerExceptionNoHandler⟩ := by
  induction keys with
  | nil =>
    obtain ⟨k, hk, _⟩ := h
    cases hk
  | cons k rest ih =>
    by_cases hk : k ∈ kept
    · simp only [keepEventsAndClearFrom, if_pos hk]
      apply ih
      obtain ⟨x, hx, hxk⟩ := h
      rcases List.mem_cons.mp hx with rfl | hx
      · exact absurd hk hxk
      · exact ⟨x, hx, hxk⟩
    · simp only [keepEventsAndClearFrom, if_neg hk, clearFunc_fails]

theorem removeEvent_of_find_none (m : EventManager ε) (Event : TypeIndex) (aIndex : Nat)
    (h : m._eventsHandler.find Event = none) : m.removeEvent Event aIndex = ⟨m, .ok ()⟩ := by
  unfold removeEvent
  rw [h]

theorem removeEvents_of_find (m : EventManager ε) (Event : TypeIndex) (aIndexes : List Nat)
    (x : eventHandler ε) (h : m._eventsHandler.find Event = some x) :
    m.removeEvents Event aIndexes = ⟨m, .error .EventManagerExceptionNoHandler⟩ := by
  unfold removeEvents
  rw [h]
  simp only [getHandler_fails]

end EventManager

/-! ## The loop of the batch `removeEvent` -/

theorem sizeSub_of_le (a b : Nat) (h : b ≤ a) (ha : a < 2 ^ 64) : sizeSub a b = a - b := by
  unfold sizeSub
  omega

theorem keepOutside_congr {τ : Type} (ps qs : List Nat) (l : List τ) (n : Nat)
    (h : ∀ m, n ≤ m → (m ∈ ps ↔ m ∈ qs)) : keepOutside ps n l = keepOutside qs n l := by
  induction l generalizing n with
  | nil => rfl
  | cons x xs ih =>
    have h1 := ih (n + 1) (fun m hm => h m (by omega))
    by_cases hn : n ∈ ps
    · simp only [keepOutside, if_pos hn, if_pos ((h n (Nat.le_refl n)).mp hn), h1]
    · simp only [keepOutside, if_neg hn, if_neg (fun hq => hn ((h n (Nat.le_refl n)).mpr hq)), h1]

theorem keepOutside_shift {τ : Type} (ps : List Nat) (l : List τ) (n : Nat)
    (h : ∀ b ∈ ps, 0 < b) :
    keepOutside (ps.map (· - 1)) n l = keepOutside ps (n + 1) l := by
  induction l generalizing n with
  | nil => rfl
  | cons x xs ih =>
    have hiff : n ∈ ps.map (· - 1) ↔ n + 1 ∈ ps := by
      simp only [List.mem_map]
      constructor
      · rintro ⟨b, hb, hbn⟩
        have := h b hb
        have hb1 : b = n + 1 := by omega
        rw [← hb1]
        exact hb
      · intro hn
        exact ⟨n + 1, hn, by omega⟩
    by_cases hn : n + 1 ∈ ps
    · simp only [keepOutside, if_pos hn, if_pos (hiff.mpr hn), ih]
    · simp only [keepOutside, if_neg hn, if_neg (fun hq => hn (hiff.mp hq)), ih]

theorem keepOutside_eraseIdx {τ : Type} (ps : List Nat) (l : List τ) (n p : Nat)
    (hnp : n ≤ p) (hp : p - n < l.length) (h : ∀ b ∈ ps, p < b) :
    keepOutside (ps.map (· - 1)) n (l.eraseIdx (p - n)) = keepOutside (p :: ps) n l := by
  induction l generalizing n with
  | nil => simp at hp
  | cons x xs ih =>
    by_cases hpn : p = n
    · subst hpn
      rw [Nat.sub_self, List.eraseIdx_cons_zero]
      simp only [keepOutside, List.mem_cons, true_or, if_true]
      rw [keepOutside_shift ps xs p (fun b hb => by have := h b hb; omega)]
      apply keepOutside_congr
      intro m hm
      simp only [List.mem_cons]
      constructor
      · intro hx
        exact Or.inr hx
      · rintro (hx | hx)
        · omega
        · exact hx
    · have hlt : n < p := by omega
      have he : p - n = (p - (n + 1)) + 1 := by omega
      rw [he, List.eraseIdx_cons_succ]
      have h1 : n ∉ ps.map (· - 1) := by
        simp only [List.mem_map, not_exists, not_and]
        intro b hb
        have := h b hb
        omega
      have h2 : n ∉ p :: ps := by
        simp only [List.mem_cons, not_or]
        refine ⟨by omega, fun hb => ?_⟩
        have := h n hb
        omega
      simp only [keepOutside, if_neg h1, if_neg h2]
      rw [ih (n + 1) (by omega) (by simp only [List.length_cons] at hp; omega)]

theorem removeEventsLoop_from {ε : Type} (idxs : List Nat) (i : Nat) (l : List ε)
    (hs : idxs.Pairwise (· < ·))
    (h : ∀ a ∈ idxs, i ≤ a ∧ a - i < l.length ∧ a < 2 ^ 64) :
    EventManager.removeEventsLoop i idxs ⟨l⟩ = ⟨keepOutside (idxs.map (· - i)) 0 l⟩ := by
  induction idxs generalizing i l with
  | nil =>
    simp only [EventManager.removeEventsLoop, List.map_nil]
    congr 1
    clear h
    generalize 0 = n
    induction l generalizing n with
    | nil => rfl
    | cons x xs ih => simp only [keepOutside, List.not_mem_nil, if_false, ← ih]
  | cons a rest ih =>
    obtain ⟨ha1, ha2, ha3⟩ := h a (List.mem_cons_self a rest)
    have hs1 := List.pairwise_cons.mp hs
    have hrem : (⟨l⟩ : EventHandler ε).removeEvent (sizeSub a i) = ⟨l.eraseIdx (a - i)⟩ := by
      rw [sizeSub_of_le a i ha1 ha3]
      unfold EventHandler.removeEvent
      rw [if_neg (by show ¬ (a - i ≥ l.length); omega)]
    have hlen : (l.eraseIdx (a - i)).length = l.length - 1 := by
      rw [List.length_eraseIdx, if_pos ha2]
    simp only [EventManager.removeEventsLoop, hrem]
    rw [ih (i + 1) (l.eraseIdx (a - i)) hs1.2 (fun b hb => by
      have hb1 := hs1.1 b hb
      obtain ⟨hb2, hb3, hb4⟩ := h b (List.mem_cons_of_mem a hb)
      rw [hlen]
      exact ⟨by omega, by omega, hb4⟩)]
    congr 1
    have hmap : rest.map (· - (i + 1)) = (rest.map (· - i)).map (· - 1) := by
      rw [List.map_map]
      apply List.map_congr_left
      intro b _
      show b - (i + 1) = b - i - 1
      omega
    rw [hmap]
    have := keepOutside_eraseIdx (rest.map (· - i)) l 0 (a - i) (Nat.zero_le _)
      (by simpa using ha2) (fun b hb => by
        obtain ⟨c, hc, hcb⟩ := List.mem_map.mp hb
        have hc1 := hs1.1 c hc
        have hc2 := (h c (List.mem_cons_of_mem a hc)).1
        have hcb1 : c - i = b := hcb
        omega)
    rw [Nat.sub_zero] at this
    rw [this]
    rfl

theorem removeEventsLoop_ascending {ε : Type} (idxs : List Nat) (q : EventHandler ε)
    (hs : idxs.Pairwise (· < ·)) (h : ∀ a ∈ idxs, a < q._events.length)
    (hq : q._events.length < 2 ^ 64) :
    EventManager.removeEventsLoop 0 idxs q = ⟨keepOutside idxs 0 q._events⟩ := by
  have := removeEventsLoop_from idxs 0 q._events hs (fun a ha => by
    have := h a ha
    exact ⟨Nat.zero_le _, by omega, by omega⟩)
  simpa using this

theorem keepOutside_eq_filter {τ : Type} (ps : List Nat) (l : List τ) (n : Nat) :
    keepOutside ps n l =
      ((l.enumFrom n).filter (fun x => decide (x.1 ∉ ps))).map Prod.snd := by
  induction l generalizing n with
  | nil => rfl
  | cons x xs ih =>
    by_cases hn : n ∈ ps
    · simp [keepOutside, List.enumFrom_cons, hn, ih]
    · simp [keepOutside, List.enumFrom_cons, hn, ih]

/-- C22, evaluated where the code departs from it.  On `ensuredBus` the type 0 has a handler
with an empty queue; `pushEvent<E>(5)` throws NoHandler and the queue stays empty, and
`getEventsByType<E>()` throws NoHandler instead of returning the pushed values.  The
handler itself does what the claim says: pushing `e1..eN` on an empty `EventHandler` gives
the queue `[e1, .., eN]`, and `clearEvents` empties it. -/
theorem pushEvent_round_trip_fails :
    Core.ensuredBus.queue 0 = some [] ∧
      (Core.ensuredBus.pushEvent 0 5).value = .error .EventManagerExceptionNoHandler ∧
      (Core.ensuredBus.pushEvent 0 5).state.queue 0 = some [] ∧
      Core.ensuredBus.getEventsByType 0 = .error .EventManagerExceptionNoHandler ∧
      (∀ es : List Int,
        (es.foldl EventHandler.pushEvent (⟨[]⟩ : EventHandler Int)).getEvents = es ∧
        ((es.foldl EventHandler.pushEvent (⟨[]⟩ : EventHandler Int)).clearEvents).getEvents
          = []) := by
  refine ⟨rfl, rfl, rfl, rfl, ?_⟩
  intro es
  refine ⟨?_, rfl⟩
  show (es.foldl EventHandler.pushEvent ⟨[]⟩)._events = es
  rw [pushEvent_foldl]
  rfl

/-- C25, evaluated where the code departs from it.  On `loadedBus` the queue of type 0 has
seven elements; the batch `removeEvent<E>({2, 4, 6})` throws NoHandler and removes nothing,
as it does on `ensuredBus` with the empty list of indexes.  The loop over the indexes
itself, run on the handler, removes the elements that stood at positions 2, 4 and 6. -/
theorem removeEvents_fails_on_ensured_type :
    Core.loadedBus.queue 0 = some [10, 11, 12, 13, 14, 15, 16] ∧
      (Core.loadedBus.removeEvents 0 [2, 4, 6]).value =
        .error .EventManagerExceptionNoHandler ∧
      (Core.loadedBus.removeEvents 0 [2, 4, 6]).state.queue 0 =
        some [10, 11, 12, 13, 14, 15, 16] ∧
      (Core.ensuredBus.removeEvents 0 []).value = .error .EventManagerExceptionNoHandler ∧
      EventManager.removeEventsLoop 0 [2, 4, 6]
          (⟨[10, 11, 12, 13, 14, 15, 16]⟩ : EventHandler Int) = ⟨[10, 11, 13, 15]⟩ :=
  ⟨rfl, rfl, rfl, rfl, by decide⟩

/-- C26, evaluated where the code departs from it.  On `twoTypesBus` and on `loadedBus`
both types 0 and 1 are ensured; `keepEventsAndClear<E1>()` reaches the entry of type 1,
whose clear closure throws NoHandler: the call does not return normally and the queue of
type 1 is not emptied.  Only when every ensured type is in the kept list does the call
return, and it then changes nothing. -/
theorem keepEventsAndClear_fails_on_unkept_type :
    (Core.twoTypesBus.keepEventsAndClear [0]).value =
        .error .EventManagerExceptionNoHandler ∧
      Core.loadedBus.queue 1 = some [20, 21] ∧
      (Core.loadedBus.keepEventsAndClear [0]).value =
        .error .EventManagerExceptionNoHandler ∧
      (Core.loadedBus.keepEventsAndClear [0]).state.queue 1 = some [20, 21] ∧
      (Core.loadedBus.keepEventsAndClear [0]).state.queue 0 =
        some [10, 11, 12, 13, 14, 15, 16] ∧
      Core.loadedBus.keepEventsAndClear [0, 1] = ⟨Core.loadedBus, .ok ()⟩ :=
  ⟨rfl, rfl, rfl, rfl, rfl, rfl⟩

/-- C28, evaluated where the code departs from it.  On `ensuredBus` the type 0 was ensured
by `initEventHandler<E>()`, yet `pushEvent<E>` and `getEventsByType<E>` both throw
NoHandler; they do so on every bus state for every type, ensured or not, and the throwing
`pushEvent<E>` leaves the bus as it was. -/
theorem pushEvent_fails_on_ensured_type :
    Core.ensuredBus._eventsHandler.find 0 = some ⟨.handler 0 ⟨[]⟩⟩ ∧
      Core.ensuredBus.pushEvent 0 5 =
        ⟨Core.ensuredBus, .error .EventManagerExceptionNoHandler⟩ ∧
      Core.ensuredBus.getEventsByType 0 = .error .EventManagerExceptionNoHandler ∧
      (∀ (m : EventManager Int) E e,
        m.pushEvent E e = ⟨m, .error .EventManagerExceptionNoHandler⟩ ∧
        m.getEventsByType E = .error .EventManagerExceptionNoHandler) :=
  ⟨rfl, rfl, rfl,
    fun m E e => ⟨EventManager.pushEvent_fails m E e, EventManager.getEventsByType_fails m E⟩⟩

end Engine.Event

/-! ## `App` (C30) -/

namespace Engine

open Engine.Core

end Engine

namespace Engine.Core

/-! ## The clock of a `GenericSystem` (C31) -/

theorem Clock.getElapsedTime_new (now : ℚ) : (Clock.new now).getElapsedTime = 0 := by
  simp [Clock.new, Clock.getElapsedTime]

theorem createSystem_update {α : Type} (sig : List TypeIndex) (name : Name) (f : Callback α)
    (now : ℚ) (fuel : Nat) (w : WorldState α) :
    (createSystem sig name f now).2.update fuel w =
      ((Query.forEach sig fuel w 0 f).world, (Query.forEach sig fuel w 0 f).status) := by
  show GenericSystem.update _ fuel w = _
  rw [GenericSystem.update_eq]
  show ((Query.forEachFrom sig (Clock.new now).getElapsedTime f fuel 0 w).world,
    (Query.forEachFrom sig (Clock.new now).getElapsedTime f fuel 0 w).status) = _
  rw [Clock.getElapsedTime_new]
  rfl

/-- C31, evaluated where the code departs from it.  `GenericSystem::update` reads
`_clock.getElapsedTime()` and never calls `_clock.restart()`, so `_delta` keeps the value 0
it was constructed with: the update of every system built by `createSystem` is the scan
with `deltaTime = 0`, whenever the system was built and whenever it is updated.  On
`recordingWorld`, whose system stores the `deltaTime` it receives in the component, the
first and the second `runSystems` both store 0.  The clock itself measures: `restart` at
time 12 on a clock constructed at time 10 returns 2000. -/
theorem update_deltaTime_is_zero :
    (∀ (sig : List TypeIndex) (name : Name) (f : Callback ℚ) (now : ℚ) (fuel : Nat)
        (w : WorldState ℚ),
        (createSystem sig name f now).2.update fuel w =
          ((Query.forEach sig fuel w 0 f).world, (Query.forEach sig fuel w 0 f).status)) ∧
      (∀ now : ℚ, ((recordingWorld 5 now).runSystems 1).world.toWorldState = deltaState 0 ∧
        ((recordingWorld 5 now).runSystems 1).invoked = ["Rec".toList] ∧
        ((recordingWorld 5 now).runSystems 1).status = .done ∧
        ((((recordingWorld 5 now).runSystems 1).world.runSystems 1).world.toWorldState
          = deltaState 0)) ∧
      (Clock.new 10).getElapsedTime = 0 ∧
      ((Clock.new 10).restart 12).2 = 2000 := by
  refine ⟨fun sig name f now fuel w => createSystem_update sig name f now fuel w, ?_,
    Clock.getElapsedTime_new 10, ?_⟩
  · intro now
    have h1 : ∀ v : ℚ, (createSystem [0] "Rec".toList recordDelta now).2.update 1 (deltaState v)
        = (deltaState 0, .done) := by
      intro v
      rw [createSystem_update]
      rfl
    have hrun : ∀ v : ℚ, World.runSystemsFrom 1
        [("Rec".toList, (createSystem [0] "Rec".toList recordDelta now).2)] (deltaState v)
        = (deltaState 0, ["Rec".toList], .done) := by
      intro v
      simp only [World.runSystemsFrom, h1]
    have hw : ∀ v : ℚ, ((⟨deltaState v,
        ⟨[("Rec".toList, (createSystem [0] "Rec".toList recordDelta now).2)], by simp⟩⟩ :
          World ℚ).runSystems 1) =
        ⟨⟨deltaState 0,
          ⟨[("Rec".toList, (createSystem [0] "Rec".toList recordDelta now).2)], by simp⟩⟩,
          ["Rec".toList], .done⟩ := by
      intro v
      rw [World.runSystems_eq]
      simp only [hrun]
    have hrec : ∀ v : ℚ, recordingWorld v now = ⟨deltaState v,
        ⟨[("Rec".toList, (createSystem [0] "Rec".toList recordDelta now).2)], by simp⟩⟩ := by
      intro v
      rfl
    rw [hrec, hw 5]
    exact ⟨rfl, rfl, rfl, by rw [hw 0]⟩
  · norm_num [Clock.new, Clock.restart, Clock.getElapsedTime, Clock.time]

/-! ## Killing an id twice (C32) -/

theorem WorldState.createEntity_of_no_components {α : Type} (w : WorldState α)
    (hc : w._components.keys = []) :
    w.createEntity =
      ⟨(if w._ids.isEmpty then { w with _nextId := w._nextId + 1 }
        else { w with _ids := w._ids.eraseIdx (minElement w._ids) }),
        .ok (if w._ids.isEmpty then w._nextId else derefErased w._ids (minElement w._ids))⟩ := by
  unfold WorldState.createEntity
  cases h : w._ids.isEmpty <;> simp [hc, WorldState.forComponents]

theorem WorldState.killEntity_of_no_components {α : Type} (w : WorldState α) (id : Nat)
    (hc : w._components.keys = []) :
    w.killEntity id = ⟨{ w with _ids := w._ids ++ [id] }, .ok ()⟩ := by
  unfold WorldState.killEntity
  simp only [hc, WorldState.forComponents]

/-- C32: in a world with no registered component and an empty free list, let `e` be the id
`createEntity` returns.  `killEntity(e)` twice returns normally both times and leaves the
free list `[e, e]`; the next two `createEntity` calls both return `e`, the second while the
holder of the first is live, and the free list is then empty. -/
theorem killEntity_twice_hands_out_id_twice {α : Type} (w : WorldState α)
    (hids : w._ids = []) (hc : w._components.keys = []) :
    ∃ w1 w2 w3 w4 w5 : WorldState α,
      w.createEntity = ⟨w1, .ok w._nextId⟩ ∧
      w1.killEntity w._nextId = ⟨w2, .ok ()⟩ ∧
      w2.killEntity w._nextId = ⟨w3, .ok ()⟩ ∧
      w3._ids = [w._nextId, w._nextId] ∧
      w3.createEntity = ⟨w4, .ok w._nextId⟩ ∧
      w4._ids = [w._nextId] ∧
      w4.createEntity = ⟨w5, .ok w._nextId⟩ ∧
      w5._ids = [] ∧ w5._nextId = w._nextId + 1 := by
  have hmin : minElement [w._nextId, w._nextId] = 0 := by
    simp [minElement, minElementFrom]
  refine ⟨{ w with _nextId := w._nextId + 1 },
    { w with _nextId := w._nextId + 1, _ids := [w._nextId] },
    { w with _nextId := w._nextId + 1, _ids := [w._nextId, w._nextId] },
    { w with _nextId := w._nextId + 1, _ids := [w._nextId] },
    { w with _nextId := w._nextId + 1, _ids := [] }, ?_, ?_, ?_, rfl, ?_, rfl, ?_, rfl, rfl⟩
  · rw [WorldState.createEntity_of_no_components w hc]
    simp [hids]
  · rw [WorldState.killEntity_of_no_components { w with _nextId := w._nextId + 1 } w._nextId hc]
    simp [hids]
  · rw [WorldState.killEntity_of_no_components
      { w with _nextId := w._nextId + 1, _ids := [w._nextId] } w._nextId hc]
    simp
  · rw [WorldState.createEntity_of_no_components
      { w with _nextId := w._nextId + 1, _ids := [w._nextId, w._nextId] } hc]
    simp [hmin, derefErased]
  · rw [WorldState.createEntity_of_no_components
      { w with _nextId := w._nextId + 1, _ids := [w._nextId] } hc]
    simp [minElement, minElementFrom, derefErased]

/-- Witness of C32 on a default-constructed world: the id is 0. -/
theorem killEntity_twice_hands_out_id_twice_witness :
    (WorldState.new : WorldState Unit)._ids = [] ∧
      (WorldState.new : WorldState Unit)._components.keys = [] ∧
      ∃ w1 w2 w3 w4 w5 : WorldState Unit,
        WorldState.new.createEntity = ⟨w1, .ok 0⟩ ∧
        w1.killEntity 0 = ⟨w2, .ok ()⟩ ∧
        w2.killEntity 0 = ⟨w3, .ok ()⟩ ∧
        w3._ids = [0, 0] ∧
        w3.createEntity = ⟨w4, .ok 0⟩ ∧
        w4._ids = [0] ∧
        w4.createEntity = ⟨w5, .ok 0⟩ ∧
        w5._ids = [] ∧ w5._nextId = 0 + 1 :=
  ⟨rfl, rfl, killEntity_twice_hands_out_id_twice (WorldState.new : WorldState Unit) rfl rfl⟩

/-! ## The free list under disciplined use (C33) -/

/-- C33, evaluated where the code departs from it.  From a default-constructed world the
calls `createEntity(); createEntity(); killEntity(0); killEntity(1); createEntity()` kill
only live ids.  The free list is `[0, 1]` before the last call, which erases the 0 and
returns 1: afterwards the counter is 2, the free list is `[1]` and the live ids are `[1]`,
so id 1 is both live and free and id 0 is neither.  A further `createEntity` returns 1,
which is live; a further `killEntity(1)`, on the live id 1, leaves the free list
`[1, 1]`. -/
theorem disciplined_calls_break_entity_invariant :
    ∃ s : Tracked Unit,
      Tracked.calls (⟨WorldState.new, []⟩ : Tracked Unit)
        [.createEntity, .createEntity, .killEntity 0, .killEntity 1] =
          some ⟨⟨FlatMap.empty, [0, 1], 2⟩, []⟩ ∧
      Tracked.calls (⟨WorldState.new, []⟩ : Tracked Unit)
        [.createEntity, .createEntity, .killEntity 0, .killEntity 1, .createEntity] = some s ∧
      s.world._nextId = 2 ∧ s.world._ids = [1] ∧ s.live = [1] ∧
      s.world.createEntity.value = .ok 1 ∧
      (s.call .createEntity).map (fun s1 => s1.live) = some [1, 1] ∧
      (s.call (.killEntity 1)).map (fun s1 => s1.world._ids) = some [1, 1] ∧
      (s.call (.killEntity 1)).map (fun s1 => s1.live) = some [] :=
  ⟨⟨⟨FlatMap.empty, [1], 2⟩, [1]⟩, rfl, rfl, rfl, rfl, rfl, rfl, rfl, rfl, rfl⟩

/-! ## Stores cover the ceiling (C34) -/

namespace WorldState

variable {α : Type}

theorem coversCeiling_modify (w : WorldState α) (K : List TypeIndex) (t : TypeIndex)
    (s1 : SparseArray α) (h : w.CoversCeiling K)
    (hs : ∀ s, w._components.find t = some s → s.size ≤ s1.size) :
    ({ w with _components := w._components.modify t (fun _ => s1) } :
      WorldState α).CoversCeiling K := by
  refine ⟨?_, ?_⟩
  · show (w._components.modify t _).keys = K
    rw [FlatMap.keys_modify]
    exact h.1
  · intro x s hx
    have hx1 : (w._components.modify t (fun _ => s1)).find x = some s := hx
    show w._nextId ≤ s.size
    rw [FlatMap.find_modify] at hx1
    by_cases hxt : x = t
    · rw [if_pos hxt] at hx1
      cases hf : w._components.find t with
      | none => rw [hf] at hx1; cases hx1
      | some s0 =>
        rw [hf] at hx1
        injection hx1 with hx1
        rw [← hx1]
        exact le_trans (h.2 t s0 hf) (hs s0 hf)
    · rw [if_neg hxt] at hx1
      exact h.2 x s hx1

theorem coversCeiling_createEntity (w : WorldState α) (K : List TypeIndex)
    (h : w.CoversCeiling K)
    (hid : (if w._ids.isEmpty then w._nextId
      else derefErased w._ids (minElement w._ids)) + 1 < 2 ^ 64) :
    w.createEntity.state.CoversCeiling K := by
  obtain ⟨r, hr, -, hnext, hkeys, hfind⟩ := createEntity_spec w
  rw [hr]
  refine ⟨hkeys.trans h.1, ?_⟩
  intro t s hs
  show r._nextId ≤ s.size
  rw [hfind t] at hs
  cases hf : w._components.find t with
  | none => rw [hf] at hs; cases hs
  | some s0 =>
    rw [hf] at hs
    injection hs with hs
    have hlen := SparseArray.init_length s0
      (if w._ids.isEmpty then w._nextId else derefErased w._ids (minElement w._ids)) hid
    have h0 : w._nextId ≤ s0._array.length := h.2 t s0 hf
    rw [← hs, hnext]
    show _ ≤ (s0.init _)._array.length
    rw [hlen]
    cases he : w._ids.isEmpty
    · simp only [Bool.false_eq_true, if_false]
      omega
    · simp only [if_true]
      omega

theorem forComponents_preserves (P : WorldState α → Prop)
    (f : TypeIndex → WorldState α → Nat → Res (WorldState α) Unit) (i : Nat)
    (hf : ∀ t w, P w → P (f t w i).state) (ts : List TypeIndex) (w : WorldState α)
    (h : P w) : P (forComponents f i ts w).state := by
  induction ts generalizing w with
  | nil => exact h
  | cons t ts ih =>
    have h1 := hf t w h
    cases hstep : f t w i with
    | mk w1 v =>
      rw [hstep] at h1
      cases v with
      | error e =>
        simp only [forComponents, hstep]
        exact h1
      | ok u =>
        simp only [forComponents, hstep]
        exact ih w1 h1

theorem coversCeiling_eraseFunc (K : List TypeIndex) (id : Nat) (t : TypeIndex)
    (w : WorldState α) (h : w.CoversCeiling K) : (eraseFunc t w id).state.CoversCeiling K := by
  unfold eraseFunc getComponent
  cases hf : w._components.find t with
  | none => exact h
  | some s =>
    simp only []
    by_cases hlt : id < s._array.length
    · rw [SparseArray.erase_of_lt s id hlt]
      refine coversCeiling_modify w K t _ h ?_
      intro s0 hs0
      rw [hf] at hs0
      injection hs0 with hs0
      rw [← hs0]
      simp [SparseArray.size]
    · rw [SparseArray.erase_of_ge s id (by omega)]
      exact h

theorem coversCeiling_killEntity (w : WorldState α) (K : List TypeIndex) (id : Nat)
    (h : w.CoversCeiling K) : (w.killEntity id).state.CoversCeiling K := by
  unfold killEntity
  exact forComponents_preserves (fun x => x.CoversCeiling K) eraseFunc id
    (fun t x hx => coversCeiling_eraseFunc K id t x hx) _ _ h

theorem coversCeiling_addComponentToEntity (w : WorldState α) (K : List TypeIndex)
    (t : TypeIndex) (id : Nat) (v : α) (h : w.CoversCeiling K) :
    (w.addComponentToEntity t id v).state.CoversCeiling K := by
  unfold addComponentToEntity getComponent
  cases hf : w._components.find t with
  | none => exact h
  | some s =>
    simp only []
    by_cases hlt : id < s._array.length
    · rw [SparseArray.set_of_lt s id v hlt]
      refine coversCeiling_modify w K t _ h ?_
      intro s0 hs0
      rw [hf] at hs0
      injection hs0 with hs0
      rw [← hs0]
      simp [SparseArray.size]
    · rw [SparseArray.set_of_ge s id v (by omega)]
      exact h

theorem coversCeiling_emplaceComponentToEntity (w : WorldState α) (K : List TypeIndex)
    (t : TypeIndex) (id : Nat) (v : α) (h : w.CoversCeiling K) (hid : id + 1 < 2 ^ 64) :
    (w.emplaceComponentToEntity t id v).state.CoversCeiling K := by
  unfold emplaceComponentToEntity getComponent
  cases hf : w._components.find t with
  | none => exact h
  | some s =>
    refine coversCeiling_modify w K t _ h ?_
    intro s0 hs0
    rw [hf] at hs0
    injection hs0 with hs0
    rw [← hs0]
    show s._array.length ≤ (s.emplace id v).1._array.length
    rw [SparseArray.emplace_length s id v hid]
    omega

theorem coversCeiling_removeComponentFromEntity (w : WorldState α) (K : List TypeIndex)
    (t : TypeIndex) (id : Nat) (h : w.CoversCeiling K) :
    (w.removeComponentFromEntity t id).state.CoversCeiling K := by
  unfold removeComponentFromEntity getComponent
  cases hf : w._components.find t with
  | none => exact h
  | some s =>
    simp only []
    by_cases hlt : id < s._array.length
    · rw [SparseArray.erase_of_lt s id hlt]
      refine coversCeiling_modify w K t _ h ?_
      intro s0 hs0
      rw [hf] at hs0
      injection hs0 with hs0
      rw [← hs0]
      simp [SparseArray.size]
    · rw [SparseArray.erase_of_ge s id (by omega)]
      exact h

theorem eraseFunc_ids_nextId (t : TypeIndex) (w : WorldState α) (id : Nat) :
    (eraseFunc t w id).state._ids = w._ids ∧ (eraseFunc t w id).state._nextId = w._nextId := by
  unfold eraseFunc
  split
  · exact ⟨rfl, rfl⟩
  · split <;> exact ⟨rfl, rfl⟩

theorem killEntity_ids_nextId (w : WorldState α) (id : Nat) :
    (w.killEntity id).state._ids = w._ids ++ [id] ∧
      (w.killEntity id).state._nextId = w._nextId := by
  unfold killEntity
  exact forComponents_preserves
    (fun x => x._ids = w._ids ++ [id] ∧ x._nextId = w._nextId) eraseFunc id
    (fun t x hx => by
      have h1 := eraseFunc_ids_nextId t x id
      exact ⟨h1.1.trans hx.1, h1.2.trans hx.2⟩) _ _ ⟨rfl, rfl⟩

theorem addComponentToEntity_ids_nextId (w : WorldState α) (t : TypeIndex) (id : Nat)
    (v : α) :
    (w.addComponentToEntity t id v).state._ids = w._ids ∧
      (w.addComponentToEntity t id v).state._nextId = w._nextId := by
  unfold addComponentToEntity
  split
  · exact ⟨rfl, rfl⟩
  · split <;> exact ⟨rfl, rfl⟩

theorem emplaceComponentToEntity_ids_nextId (w : WorldState α) (t : TypeIndex) (id : Nat)
    (v : α) :
    (w.emplaceComponentToEntity t id v).state._ids = w._ids ∧
      (w.emplaceComponentToEntity t id v).state._nextId = w._nextId := by
  unfold emplaceComponentToEntity
  split <;> exact ⟨rfl, rfl⟩

theorem removeComponentFromEntity_ids_nextId (w : WorldState α) (t : TypeIndex) (id : Nat) :
    (w.removeComponentFromEntity t id).state._ids = w._ids ∧
      (w.removeComponentFromEntity t id).state._nextId = w._nextId := by
  unfold removeComponentFromEntity
  split
  · exact ⟨rfl, rfl⟩
  · split <;> exact ⟨rfl, rfl⟩

/-- No call lowers the counter. -/
theorem nextId_le_after (c : WorldCall α) (w : WorldState α) :
    w._nextId ≤ (c.after w)._nextId := by
  cases c with
  | createEntity =>
    obtain ⟨r, hr, -, hnext, -, -⟩ := createEntity_spec w
    show w._nextId ≤ w.createEntity.state._nextId
    rw [hr]
    show w._nextId ≤ r._nextId
    rw [hnext]
    split <;> omega
  | killEntity id => exact le_of_eq (killEntity_ids_nextId w id).2.symm
  | addComponentToEntity t id v => exact le_of_eq (addComponentToEntity_ids_nextId w t id v).2.symm
  | emplaceComponentToEntity t id v =>
    exact le_of_eq (emplaceComponentToEntity_ids_nextId w t id v).2.symm
  | removeComponentFromEntity t id =>
    exact le_of_eq (removeComponentFromEntity_ids_nextId w t id).2.symm

theorem nextId_le_afterCalls (calls : List (WorldCall α)) (w : WorldState α) :
    w._nextId ≤ (w.afterCalls calls)._nextId := by
  induction calls generalizing w with
  | nil => exact le_refl _
  | cons c rest ih => exact le_trans (nextId_le_after c w) (ih (c.after w))

/-- Below the ceiling of a world whose stores cover the ceiling, `hasComponents` can only
throw for a type that is not registered. -/
theorem hasComponents_error_of_coversCeiling (w : WorldState α) (K : List TypeIndex)
    (h : w.CoversCeiling K) (sig : List TypeIndex) (idx : Nat) (hidx : idx < w._nextId)
    (e : Exn) (he : w.hasComponents sig idx = .error e) :
    e = .WorldExceptionComponentNotRegistered ∧ ∃ t ∈ sig, t ∉ K := by
  induction sig with
  | nil => simp [hasComponents] at he
  | cons t ts ih =>
    simp only [hasComponents, getComponent] at he
    cases hf : w._components.find t with
    | none =>
      rw [hf] at he
      simp only [Except.error.injEq] at he
      refine ⟨he.symm, t, List.mem_cons_self t ts, ?_⟩
      intro hmem
      rw [← h.1] at hmem
      obtain ⟨s, hs⟩ := (FlatMap.mem_keys_iff _ _).mp hmem
      rw [hf] at hs
      cases hs
    | some s =>
      rw [hf] at he
      simp only [] at he
      have hlen : idx < s._array.length := lt_of_lt_of_le hidx (h.2 t s hf)
      rw [SparseArray.has_of_lt s idx hlen] at he
      cases hb : (s._array.getD idx none).isSome with
      | false =>
        rw [hb] at he
        cases he
      | true =>
        rw [hb] at he
        obtain ⟨h1, t1, ht1, ht2⟩ := ih he
        exact ⟨h1, t1, List.mem_cons_of_mem t ht1, ht2⟩

end WorldState

/-- A call made under the discipline leaves the world `WorldCall.after` gives. -/
theorem Tracked.call_world {α : Type} (s s1 : Tracked α) (c : WorldCall α)
    (hc : s.call c = some s1) : s1.world = c.after s.world := by
  cases c with
  | createEntity =>
    obtain ⟨r, hr, -⟩ := WorldState.createEntity_spec s.world
    simp only [Tracked.call, hr, Option.some.injEq] at hc
    rw [← hc]
    show r = s.world.createEntity.state
    rw [hr]
  | killEntity id =>
    simp only [Tracked.call] at hc
    split at hc
    · injection hc with hc
      rw [← hc]
      rfl
    · cases hc
  | addComponentToEntity t id v =>
    simp only [Tracked.call, Option.some.injEq] at hc
    rw [← hc]
  | emplaceComponentToEntity t id v =>
    simp only [Tracked.call, Option.some.injEq] at hc
    rw [← hc]
  | removeComponentFromEntity t id =>
    simp only [Tracked.call, Option.some.injEq] at hc
    rw [← hc]

theorem Tracked.calls_world {α : Type} (calls : List (WorldCall α)) :
    ∀ (s s1 : Tracked α), s.calls calls = some s1 → s1.world = s.world.afterCalls calls := by
  induction calls with
  | nil =>
    intro s s1 h
    simp only [Tracked.calls, Option.some.injEq] at h
    rw [← h]
    rfl
  | cons c rest ih =>
    intro s s1 h
    cases hc : s.call c with
    | none =>
      simp only [Tracked.calls, hc] at h
      cases h
    | some s2 =>
      simp only [Tracked.calls, hc] at h
      rw [ih s2 s1 h, Tracked.call_world s s2 c hc]
      rfl

/-- One call under the discipline, with an emplace index below `SIZE_MAX` and a counter that
has not wrapped, keeps the stores covering the ceiling and the free and live ids below
`SIZE_MAX`. -/
theorem Tracked.call_coversCeiling {α : Type} (K : List TypeIndex) (s s1 : Tracked α)
    (c : WorldCall α) (hc : s.call c = some s1)
    (hemp : ∀ t id v, c = .emplaceComponentToEntity t id v → id < 2 ^ 64 - 1)
    (hctr : s1.world._nextId < 2 ^ 64)
    (h : s.world.CoversCeiling K) (hids : ∀ i ∈ s.world._ids, i < 2 ^ 64 - 1)
    (hlive : ∀ i ∈ s.live, i < 2 ^ 64 - 1) :
    s1.world.CoversCeiling K ∧ (∀ i ∈ s1.world._ids, i < 2 ^ 64 - 1) ∧
      ∀ i ∈ s1.live, i < 2 ^ 64 - 1 := by
  cases c with
  | createEntity =>
    obtain ⟨r, hr, hrids, hnext, -, -⟩ := WorldState.createEntity_spec s.world
    have hcov := WorldState.coversCeiling_createEntity s.world K h
    simp only [Tracked.call, hr, Option.some.injEq] at hc
    rw [← hc] at hctr ⊢
    have hctr1 : r._nextId < 2 ^ 64 := hctr
    rw [hnext] at hctr1
    have hid : (if s.world._ids.isEmpty then s.world._nextId
        else derefErased s.world._ids (minElement s.world._ids)) < 2 ^ 64 - 1 := by
      cases he : s.world._ids.isEmpty
      · simp only [Bool.false_eq_true, if_false]
        have hne : s.world._ids ≠ [] := by
          intro h1
          rw [h1] at he
          cases he
        exact hids _ (derefErased_mem _ _ (minElement_lt _ hne))
      · rw [he] at hctr1
        simp only [if_true] at hctr1 ⊢
        omega
    refine ⟨?_, ?_, ?_⟩
    · have := hcov (by omega)
      rw [hr] at this
      exact this
    · intro i hi
      have hi1 : i ∈ r._ids := hi
      rw [hrids] at hi1
      split at hi1
      · exact hids i hi1
      · exact hids i ((List.eraseIdx_sublist _ _).subset hi1)
    · intro i hi
      have hi1 : i ∈ (if s.world._ids.isEmpty then s.world._nextId
          else derefErased s.world._ids (minElement s.world._ids)) :: s.live := hi
      rcases List.mem_cons.mp hi1 with h1 | h1
      · rw [h1]
        exact hid
      · exact hlive i h1
  | killEntity id =>
    simp only [Tracked.call] at hc
    split at hc
    · rename_i hmem
      injection hc with hc
      rw [← hc]
      refine ⟨WorldState.coversCeiling_killEntity s.world K id h, ?_, ?_⟩
      · intro i hi
        have hi1 : i ∈ (s.world.killEntity id).state._ids := hi
        rw [(WorldState.killEntity_ids_nextId s.world id).1] at hi1
        rcases List.mem_append.mp hi1 with h1 | h1
        · exact hids i h1
        · rw [List.mem_singleton.mp h1]
          exact hlive id hmem
      · intro i hi
        exact hlive i (List.mem_of_mem_filter hi)
    · cases hc
  | addComponentToEntity t id v =>
    simp only [Tracked.call, Option.some.injEq] at hc
    rw [← hc]
    refine ⟨WorldState.coversCeiling_addComponentToEntity s.world K t id v h, ?_, hlive⟩
    intro i hi
    have hi1 : i ∈ (s.world.addComponentToEntity t id v).state._ids := hi
    rw [(WorldState.addComponentToEntity_ids_nextId s.world t id v).1] at hi1
    exact hids i hi1
  | emplaceComponentToEntity t id v =>
    have hid := hemp t id v rfl
    simp only [Tracked.call, Option.some.injEq] at hc
    rw [← hc]
    refine ⟨WorldState.coversCeiling_emplaceComponentToEntity s.world K t id v h (by omega),
      ?_, hlive⟩
    intro i hi
    have hi1 : i ∈ (s.world.emplaceComponentToEntity t id v).state._ids := hi
    rw [(WorldState.emplaceComponentToEntity_ids_nextId s.world t id v).1] at hi1
    exact hids i hi1
  | removeComponentFromEntity t id =>
    simp only [Tracked.call, Option.some.injEq] at hc
    rw [← hc]
    refine ⟨WorldState.coversCeiling_removeComponentFromEntity s.world K t id h, ?_, hlive⟩
    intro i hi
    have hi1 : i ∈ (s.world.removeComponentFromEntity t id).state._ids := hi
    rw [(WorldState.removeComponentFromEntity_ids_nextId s.world t id).1] at hi1
    exact hids i hi1

theorem Tracked.calls_coversCeiling {α : Type} (K : List TypeIndex)
    (calls : List (WorldCall α)) :
    ∀ (s s1 : Tracked α), s.calls calls = some s1 →
      (∀ t id v, WorldCall.emplaceComponentToEntity t id v ∈ calls → id < 2 ^ 64 - 1) →
      s1.world._nextId < 2 ^ 64 →
      s.world.CoversCeiling K → (∀ i ∈ s.world._ids, i < 2 ^ 64 - 1) →
      (∀ i ∈ s.live, i < 2 ^ 64 - 1) →
      s1.world.CoversCeiling K := by
  induction calls with
  | nil =>
    intro s s1 h _ _ hcov _ _
    simp only [Tracked.calls, Option.some.injEq] at h
    rw [← h]
    exact hcov
  | cons c rest ih =>
    intro s s1 h hemp hctr hcov hids hlive
    cases hc : s.call c with
    | none =>
      simp only [Tracked.calls, hc] at h
      cases h
    | some s2 =>
      simp only [Tracked.calls, hc] at h
      have hmono : s2.world._nextId ≤ s1.world._nextId := by
        rw [Tracked.calls_world rest s2 s1 h]
        exact WorldState.nextId_le_afterCalls rest s2.world
      obtain ⟨h1, h2, h3⟩ := Tracked.call_coversCeiling K s s2 c hc
        (fun t id v hcv => hemp t id v (by rw [hcv]; exact List.mem_cons_self _ _))
        (by omega) hcov hids hlive
      exact ih s2 s1 h (fun t id v hm => hemp t id v (List.mem_cons_of_mem _ hm)) hctr h1 h2 h3

/-- Under a callback that keeps the stores covering the ceiling, an exception that leaves
the scan is either the NotRegistered of a type of the signature that is not registered, or
was thrown by the callback. -/
theorem Query.forEachFrom_raised_of_coversCeiling {α : Type} (K : List TypeIndex)
    (sig : List TypeIndex) (dt : ℚ) (func : Callback α)
    (hf : ∀ (w1 : WorldState α) i refs, w1.CoversCeiling K →
      (func w1 dt i refs).state.CoversCeiling K) :
    ∀ (fuel idx : Nat) (w : WorldState α), w.CoversCeiling K → ∀ e,
      (Query.forEachFrom sig dt func fuel idx w).status = .raised e →
      (e = .WorldExceptionComponentNotRegistered ∧ ∃ t ∈ sig, t ∉ K) ∨
        ∃ (w1 : WorldState α) (i : Nat) (refs : List α), (func w1 dt i refs).value = .error e := by
  intro fuel
  induction fuel with
  | zero =>
    intro idx w _ e hst
    by_cases hlt : idx < w._nextId
    · rw [Query.forEachFrom_zero sig dt func idx w hlt] at hst
      cases hst
    · rw [Query.forEachFrom_end sig dt func 0 idx w hlt] at hst
      cases hst
  | succ fuel ih =>
    intro idx w hw e hst
    by_cases hlt : idx < w._nextId
    · cases hc : w.hasComponents sig idx with
      | error e1 =>
        rw [Query.forEachFrom_throw sig dt func _ idx w e1 hlt hc] at hst
        injection hst with hst
        rw [← hst]
        exact Or.inl (WorldState.hasComponents_error_of_coversCeiling w K hw sig idx hlt e1 hc)
      | ok b =>
        cases b with
        | false =>
          rw [Query.forEachFrom_skip sig dt func fuel idx w hlt hc] at hst
          exact ih (idx + 1) w hw e hst
        | true =>
          obtain ⟨refs, hr⟩ := Query.componentRefs_of_hasComponents w sig idx hc
          cases hcall : func w dt idx refs with
          | mk w1 v =>
            have hw1 : w1.CoversCeiling K := by
              have := hf w idx refs hw
              rw [hcall] at this
              exact this
            cases v with
            | error e1 =>
              rw [Query.forEachFrom_call_throw sig dt func _ idx w w1 refs e1 hlt hc hr hcall]
                at hst
              injection hst with hst
              refine Or.inr ⟨w, idx, refs, ?_⟩
              rw [hcall, ← hst]
            | ok u =>
              rw [Query.forEachFrom_call sig dt func fuel idx w w1 refs u hlt hc hr hcall] at hst
              exact ih (idx + 1) w1 hw1 e hst
    · rw [Query.forEachFrom_end sig dt func _ idx w hlt] at hst
      cases hst

/-- C34 fails as stated: `emplaceComponentToEntity` takes any index.  Type 0 is registered
in a default-constructed world, one entity is created, and a component is emplaced at
index `SIZE_MAX`: `aIndex + 1` is 0 in `std::size_t`, the `resize(0)` empties the store,
and the store of the registered type is shorter than the ceiling 1.  No `killEntity` was
called, and `hasComponents<T>(0)` and `Query<T>::forEach` raise OutOfRange for the id 0
below the ceiling. -/
theorem emplace_at_size_max_uncovers_ceiling :
    ((WorldState.new.registerComponent 0).state : WorldState Int)._nextId = 0 ∧
      Tracked.calls (⟨(WorldState.new.registerComponent 0).state, []⟩ : Tracked Int)
        [.createEntity, .emplaceComponentToEntity 0 (2 ^ 64 - 1) 7] =
          some ⟨⟨FlatMap.empty.insert 0 ⟨[]⟩, [], 1⟩, [0]⟩ ∧
      (((WorldState.new.registerComponent 0).state : WorldState Int).afterCalls
        [.createEntity, .emplaceComponentToEntity 0 (2 ^ 64 - 1) 7]).getCurrentId = 1 ∧
      (((WorldState.new.registerComponent 0).state : WorldState Int).afterCalls
        [.createEntity, .emplaceComponentToEntity 0 (2 ^ 64 - 1) 7])._components.find 0 =
          some ⟨[]⟩ ∧
      (((WorldState.new.registerComponent 0).state : WorldState Int).afterCalls
        [.createEntity, .emplaceComponentToEntity 0 (2 ^ 64 - 1) 7]).hasComponents [0] 0 =
          .error .SparseArrayExceptionOutOfRange ∧
      (Query.forEach [0] 1
        (((WorldState.new.registerComponent 0).state : WorldState Int).afterCalls
          [.createEntity, .emplaceComponentToEntity 0 (2 ^ 64 - 1) 7]) 0 readOnly).status =
          .raised .SparseArrayExceptionOutOfRange :=
  ⟨rfl, rfl, rfl, rfl, rfl, rfl⟩

/-- C34, amended: let the counter of `w0` be 0 and its free list empty (every component
type that will ever be registered is registered in `w0`, and no entity was created yet),
and let `calls` be any sequence of `createEntity`, `killEntity` of live ids,
`addComponentToEntity`, `emplaceComponentToEntity` and `removeComponentFromEntity` calls,
returning or throwing, in which every `emplaceComponentToEntity` has an index below
`max_size`, the greatest length of a vector (at most `SIZE_MAX`), and after which the
counter is at most `max_size`.  In the world the sequence leaves
the registered types are those of `w0` and every registered store is at least as long as
the ceiling.  So for an id below the ceiling `hasComponents` returns a value when the
types of the signature are registered, and can throw nothing but NotRegistered otherwise;
and under a callback that keeps the stores covering the ceiling, an exception that leaves
`Query::forEach` is that NotRegistered or was thrown by the callback: OutOfRange is never
raised by the scan. -/
theorem stores_cover_ceiling {α : Type} (w0 : WorldState α) (h0 : w0._nextId = 0)
    (hfree : w0._ids = []) (calls : List (WorldCall α)) (s : Tracked α)
    (hrun : Tracked.calls ⟨w0, []⟩ calls = some s)
    (max_size : Nat) (hmax : max_size ≤ 2 ^ 64 - 1)
    (hemp : ∀ t id v, WorldCall.emplaceComponentToEntity t id v ∈ calls → id < max_size)
    (hctr : s.world.getCurrentId ≤ max_size) :
    s.world = w0.afterCalls calls ∧
      s.world._components.keys = w0._components.keys ∧
      (∀ t st, s.world._components.find t = some st → s.world.getCurrentId ≤ st.size) ∧
      (∀ sig idx, idx < s.world.getCurrentId →
        (∀ t ∈ sig, t ∈ w0._components.keys) →
        ∃ b, s.world.hasComponents sig idx = .ok b) ∧
      (∀ sig idx e, idx < s.world.getCurrentId →
        s.world.hasComponents sig idx = .error e →
        e = .WorldExceptionComponentNotRegistered ∧ ∃ t ∈ sig, t ∉ w0._components.keys) ∧
      (∀ sig fuel dt (func : Callback α),
        (∀ (w1 : WorldState α) i refs,
          (w1._components.keys = w0._components.keys ∧
            ∀ t st, w1._components.find t = some st → w1.getCurrentId ≤ st.size) →
          ((func w1 dt i refs).state._components.keys = w0._components.keys ∧
            ∀ t st, (func w1 dt i refs).state._components.find t = some st →
              (func w1 dt i refs).state.getCurrentId ≤ st.size)) →
        ∀ e, (Query.forEach sig fuel s.world dt func).status = .raised e →
          (e = .WorldExceptionComponentNotRegistered ∧ ∃ t ∈ sig, t ∉ w0._components.keys) ∨
            ∃ (w1 : WorldState α) (i : Nat) (refs : List α),
              (func w1 dt i refs).value = .error e) := by
  have hbase : w0.CoversCeiling w0._components.keys :=
    ⟨rfl, fun t s _ => by rw [h0]; exact Nat.zero_le _⟩
  have hcov : s.world.CoversCeiling w0._components.keys :=
    Tracked.calls_coversCeiling _ calls ⟨w0, []⟩ s hrun
      (fun t id v hm => lt_of_lt_of_le (hemp t id v hm) hmax)
      (show s.world._nextId < 2 ^ 64 from by
        have h1 : s.world._nextId ≤ max_size := hctr
        omega)
      hbase
      (fun i hi => by
        have hi1 : i ∈ w0._ids := hi
        rw [hfree] at hi1
        cases hi1)
      (fun i hi => by cases hi)
  refine ⟨Tracked.calls_world calls ⟨w0, []⟩ s hrun, hcov.1, hcov.2, ?_, ?_, ?_⟩
  · intro sig idx hidx hreg
    cases hc : s.world.hasComponents sig idx with
    | ok b => exact ⟨b, rfl⟩
    | error e =>
      obtain ⟨-, t, ht, hn⟩ :=
        WorldState.hasComponents_error_of_coversCeiling _ _ hcov sig idx hidx e hc
      exact absurd (hreg t ht) hn
  · intro sig idx e hidx hc
    exact WorldState.hasComponents_error_of_coversCeiling _ _ hcov sig idx hidx e hc
  · intro sig fuel dt func hf e hst
    exact Query.forEachFrom_raised_of_coversCeiling w0._components.keys sig dt func
      (fun w1 i refs h1 => hf w1 i refs h1) fuel 0 _ hcov e hst

/-- Witness of C34: type 0 is registered in a default-constructed world, then two entities
are created, entity 1 receives a component, the live entity 0 is killed and a component is
emplaced at index 4. -/
theorem stores_cover_ceiling_witness :
    ((WorldState.new.registerComponent 0).state : WorldState Int)._nextId = 0 ∧
      ((WorldState.new.registerComponent 0).state : WorldState Int)._ids = [] ∧
      Tracked.calls (⟨(WorldState.new.registerComponent 0).state, []⟩ : Tracked Int)
        [.createEntity, .createEntity, .addComponentToEntity 0 1 5, .killEntity 0,
          .emplaceComponentToEntity 0 4 7] =
        some ⟨⟨FlatMap.empty.insert 0 ⟨[none, some 5, none, none, some 7]⟩, [0], 2⟩, [1]⟩ ∧
      2 ^ 60 - 1 ≤ 2 ^ 64 - 1 ∧
      (∀ t id v, WorldCall.emplaceComponentToEntity t id v ∈
        ([.createEntity, .createEntity, .addComponentToEntity 0 1 5, .killEntity 0,
          .emplaceComponentToEntity 0 4 7] : List (WorldCall Int)) → id < 2 ^ 60 - 1) ∧
      (⟨FlatMap.empty.insert 0 ⟨[none, some 5, none, none, some 7]⟩, [0], 2⟩ :
        WorldState Int).getCurrentId ≤ 2 ^ 60 - 1 ∧
      (∀ t st, (⟨FlatMap.empty.insert 0 ⟨[none, some 5, none, none, some 7]⟩, [0], 2⟩ :
          WorldState Int)._components.find t = some st →
        (⟨FlatMap.empty.insert 0 ⟨[none, some 5, none, none, some 7]⟩, [0], 2⟩ :
          WorldState Int).getCurrentId ≤ st.size) ∧
      ∃ b, (⟨FlatMap.empty.insert 0 ⟨[none, some 5, none, none, some 7]⟩, [0], 2⟩ :
        WorldState Int).hasComponents [0] 1 = .ok b :=
  ⟨rfl, rfl, rfl, by decide,
    fun t id v h => by
      simp only [List.mem_cons, List.mem_singleton, List.not_mem_nil, or_false,
        WorldCall.emplaceComponentToEntity.injEq, false_or, reduceCtorEq] at h
      rw [h.2.1]
      decide,
    by decide,
    (stores_cover_ceiling ((WorldState.new.registerComponent 0).state : WorldState Int) rfl
      rfl
      [.createEntity, .createEntity, .addComponentToEntity 0 1 5, .killEntity 0,
        .emplaceComponentToEntity 0 4 7]
      ⟨⟨FlatMap.empty.insert 0 ⟨[none, some 5, none, none, some 7]⟩, [0], 2⟩, [1]⟩ rfl
      (2 ^ 60 - 1) (by decide)
      (fun t id v h => by
        simp only [List.mem_cons, List.mem_singleton, List.not_mem_nil, or_false,
          WorldCall.emplaceComponentToEntity.injEq, false_or, reduceCtorEq] at h
        rw [h.2.1]
        decide)
      (by decide)).2.2.1,
    (stores_cover_ceiling ((WorldState.new.registerComponent 0).state : WorldState Int) rfl
      rfl
      [.createEntity, .createEntity, .addComponentToEntity 0 1 5, .killEntity 0,
        .emplaceComponentToEntity 0 4 7]
      ⟨⟨FlatMap.empty.insert 0 ⟨[none, some 5, none, none, some 7]⟩, [0], 2⟩, [1]⟩ rfl
      (2 ^ 60 - 1) (by decide)
      (fun t id v h => by
        simp only [List.mem_cons, List.mem_singleton, List.not_mem_nil, or_false,
          WorldCall.emplaceComponentToEntity.injEq, false_or, reduceCtorEq] at h
        rw [h.2.1]
        decide)
      (by decide)).2.2.2.1 [0] 1 (by decide) (by decide)⟩

/-! ## Late registration (C35) -/

/-- C35: let the ceiling of `w` be at least 1 and let `T` be registered only now: its store
has length 0.  Then `hasComponents<T>(0)` throws OutOfRange, as it does at every id and
whenever `T` stands first in the signature, and `Query<T>::forEach`, given at least one
iteration, stops at id 0 with OutOfRange: the callback is not invoked and the world is as
`registerComponent` left it. -/
theorem late_registration_raises_out_of_range {α : Type} (w : WorldState α) (T : TypeIndex)
    (hceil : 1 ≤ w.getCurrentId) (hT : w._components.find T = none) :
    (w.registerComponent T).value = .ok ⟨[]⟩ ∧
      (w.registerComponent T).state._components.find T = some ⟨[]⟩ ∧
      (w.registerComponent T).state.getCurrentId = w.getCurrentId ∧
      (w.registerComponent T).state.hasComponents [T] 0 =
        .error .SparseArrayExceptionOutOfRange ∧
      (∀ rest idx, (w.registerComponent T).state.hasComponents (T :: rest) idx =
        .error .SparseArrayExceptionOutOfRange) ∧
      (∀ fuel dt (func : Callback α),
        Query.forEach [T] (fuel + 1) (w.registerComponent T).state dt func =
          ⟨(w.registerComponent T).state, [], .raised .SparseArrayExceptionOutOfRange⟩) := by
  have hreg := WorldState.registerComponent_of_find_none w T hT
  have hfind : (w.registerComponent T).state._components.find T = some ⟨[]⟩ := by
    rw [hreg]
    show (w._components.insert T ⟨[]⟩).find T = _
    rw [FlatMap.find_insert, if_pos rfl]
  have hnext : (w.registerComponent T).state._nextId = w._nextId := by
    rw [hreg]
  have hhas : ∀ rest idx, (w.registerComponent T).state.hasComponents (T :: rest) idx =
      .error .SparseArrayExceptionOutOfRange := by
    intro rest idx
    simp only [WorldState.hasComponents,
      WorldState.getComponent_of_find _ T ⟨[]⟩ hfind,
      SparseArray.has_of_ge ⟨[]⟩ idx (Nat.zero_le _)]
  refine ⟨by rw [hreg], hfind, hnext, hhas [] 0, hhas, ?_⟩
  intro fuel dt func
  exact Query.forEachFrom_throw [T] dt func fuel 0 _ _
    (by rw [hnext]; exact hceil) (hhas [] 0)

/-- Witness of C35 on `oneStoreWorld`, whose two entities were created before type 1 is
registered. -/
theorem late_registration_raises_out_of_range_witness :
    1 ≤ oneStoreWorld.getCurrentId ∧ oneStoreWorld._components.find 1 = none ∧
      (oneStoreWorld.registerComponent 1).state.hasComponents [1] 0 =
        .error .SparseArrayExceptionOutOfRange ∧
      (Query.forEach [1] 2 (oneStoreWorld.registerComponent 1).state 0 readOnly).visited = [] ∧
      (Query.forEach [1] 2 (oneStoreWorld.registerComponent 1).state 0 readOnly).status =
        .raised .SparseArrayExceptionOutOfRange :=
  ⟨by decide, rfl,
    (late_registration_raises_out_of_range oneStoreWorld 1 (by decide) rfl).2.2.2.1,
    rfl, rfl⟩

/-! ## `killEntity` when a store is too short (C36) -/

theorem unevenWorld_reached :
    ((WorldState.new.registerComponents [0, 1, 2]).state.afterCalls
      [.createEntity, .addComponentToEntity 0 0 1, .addComponentToEntity 1 0 3,
        .addComponentToEntity 2 0 4, .emplaceComponentToEntity 0 1 2,
        .emplaceComponentToEntity 2 1 5]) = unevenWorld := rfl

/-- The erase loop when the store of some key of `ts` is too short for `id`: it stops with
OutOfRange at the first such key `t0`; the stores of the keys before `t0` have slot `id`
reset, all other stores are as they were. -/
theorem WorldState.forComponents_eraseFunc_fails {α : Type} (id : Nat) (ts : List TypeIndex)
    (w : WorldState α) (hnd : ts.Nodup)
    (hreg : ∀ t ∈ ts, ∃ s, w._components.find t = some s)
    (hfail : ∃ t ∈ ts, ∃ s, w._components.find t = some s ∧ s.size ≤ id) :
    ∃ pre t0 post s0, ts = pre ++ t0 :: post ∧
      (∀ t ∈ pre, ∀ s, w._components.find t = some s → id < s.size) ∧
      w._components.find t0 = some s0 ∧ s0.size ≤ id ∧
      ∃ r : WorldState α,
        forComponents eraseFunc id ts w = ⟨r, .error .SparseArrayExceptionOutOfRange⟩ ∧
        r._ids = w._ids ∧ r._nextId = w._nextId ∧
        ∀ t, r._components.find t =
          if t ∈ pre then (w._components.find t).map (fun s => ⟨s._array.set id none⟩)
          else w._components.find t := by
  induction ts generalizing w with
  | nil =>
    obtain ⟨t, ht, _⟩ := hfail
    cases ht
  | cons t ts ih =>
    obtain ⟨s, hs⟩ := hreg t (List.mem_cons_self t ts)
    have hnd1 := List.nodup_cons.mp hnd
    by_cases hlt : id < s._array.length
    · have hstep := eraseFunc_of_find t w id s _ hs (SparseArray.erase_of_lt s id hlt)
      have hfind : ∀ x, x ≠ t →
          (w._components.modify t (fun _ => (⟨s._array.set id none⟩ : SparseArray α))).find x
            = w._components.find x := by
        intro x hx
        rw [FlatMap.find_modify, if_neg hx]
      have hne : ∀ x ∈ ts, x ≠ t := fun x hx h => hnd1.1 (h ▸ hx)
      obtain ⟨pre, t0, post, s0, hts, hpre, ht0, hs0, r, hr, hids, hnext, hfr⟩ :=
        ih { w with _components := w._components.modify t (fun _ => ⟨s._array.set id none⟩) }
          hnd1.2
          (by
            intro x hx
            obtain ⟨sx, hsx⟩ := hreg x (List.mem_cons_of_mem t hx)
            exact ⟨sx, by rw [← hsx]; exact hfind x (hne x hx)⟩)
          (by
            obtain ⟨x, hx, sx, hsx, hle⟩ := hfail
            rcases List.mem_cons.mp hx with hxt | hx1
            · subst hxt
              rw [hs] at hsx
              injection hsx with hsx
              rw [← hsx] at hle
              exact absurd hlt (by show ¬ id < s._array.length; exact not_lt.mpr hle)
            · exact ⟨x, hx1, sx, by rw [← hsx]; exact hfind x (hne x hx1), hle⟩)
      have hpre_ts : ∀ x ∈ pre, x ∈ ts := by
        intro x hx
        rw [hts]
        exact List.mem_append_left _ hx
      have ht0_ts : t0 ∈ ts := by
        rw [hts]
        exact List.mem_append_right _ (List.mem_cons_self t0 post)
      refine ⟨t :: pre, t0, post, s0, by rw [hts]; rfl, ?_, ?_, hs0, r, ?_, hids, hnext, ?_⟩
      · intro x hx sx hsx
        rcases List.mem_cons.mp hx with hxt | hx1
        · subst hxt
          rw [hs] at hsx
          injection hsx with hsx
          rw [← hsx]
          exact hlt
        · exact hpre x hx1 sx (by rw [← hsx]; exact hfind x (hne x (hpre_ts x hx1)))
      · rw [← ht0]
        exact (hfind t0 (hne t0 ht0_ts)).symm
      · simp only [forComponents, hstep]
        exact hr
      · intro x
        rw [hfr x]
        by_cases hxt : x = t
        · subst hxt
          have hnp : x ∉ pre := fun h => hnd1.1 (hpre_ts x h)
          rw [if_neg hnp, if_pos (List.mem_cons_self x pre)]
          show (w._components.modify x _).find x = _
          rw [FlatMap.find_modify, if_pos rfl, hs]
          rfl
        · have h1 : (x ∈ t :: pre) ↔ x ∈ pre := by
            simp only [List.mem_cons, hxt, false_or]
          by_cases hxp : x ∈ pre
          · rw [if_pos hxp, if_pos (h1.mpr hxp)]
            show Option.map _ ((w._components.modify t _).find x) = _
            rw [hfind x hxt]
          · rw [if_neg hxp, if_neg (fun h => hxp (h1.mp h))]
            exact hfind x hxt
    · have hstep : eraseFunc t w id = ⟨w, .error .SparseArrayExceptionOutOfRange⟩ := by
        unfold eraseFunc
        rw [getComponent_of_find w t s hs]
        simp only [SparseArray.erase_of_ge s id (not_lt.mp hlt)]
      refine ⟨[], t, ts, s, rfl, ?_, hs, not_lt.mp hlt, w, ?_, rfl, rfl, ?_⟩
      · intro x hx
        cases hx
      · simp only [forComponents, hstep]
      · intro x
        simp

/-- C36: when some registered store has length at most `id`, `killEntity(id)` throws
OutOfRange, yet `id` has been appended to the free list, so that with a free list that was
empty the next `createEntity` returns `id`.  With `t0` the first type in key order whose
store is too short: the stores of the types before `t0` have slot `id` reset, and the
stores of `t0` and of the types after it are as they were, their erase closures were not
run. -/
theorem killEntity_not_atomic {α : Type} (w : WorldState α) (id : Nat)
    (hfail : ∃ t s, w._components.find t = some s ∧ s.size ≤ id) :
    (w.killEntity id).value = .error .SparseArrayExceptionOutOfRange ∧
      (w.killEntity id).state._ids = w._ids ++ [id] ∧
      (w.killEntity id).state._nextId = w._nextId ∧
      (w._ids = [] → (w.killEntity id).state.createEntity.value = .ok id) ∧
      ∃ pre t0 post s0, w._components.keys = pre ++ t0 :: post ∧
        w._components.find t0 = some s0 ∧ s0.size ≤ id ∧
        (∀ t ∈ pre, ∀ s, w._components.find t = some s → id < s.size ∧
          (w.killEntity id).state._components.find t = some ⟨s._array.set id none⟩) ∧
        (w.killEntity id).state._components.find t0 = some s0 ∧
        (∀ t ∈ post, t0 < t ∧
          (w.killEntity id).state._components.find t = w._components.find t) := by
  obtain ⟨tf, sf, hsf, hle⟩ := hfail
  obtain ⟨pre, t0, post, s0, hkeys, hpre, ht0, hs0, r, hr, hids, hnext, hfr⟩ :=
    WorldState.forComponents_eraseFunc_fails id w._components.keys
      { w with _ids := w._ids ++ [id] } w._components.keys_nodup
      (fun t ht => (FlatMap.mem_keys_iff _ _).mp ht)
      ⟨tf, (FlatMap.mem_keys_iff _ _).mpr ⟨sf, hsf⟩, sf, hsf, hle⟩
  have hkill : w.killEntity id = ⟨r, .error .SparseArrayExceptionOutOfRange⟩ := by
    unfold WorldState.killEntity
    exact hr
  have hnd : (pre ++ t0 :: post).Nodup := hkeys ▸ w._components.keys_nodup
  have hord : (pre ++ t0 :: post).Pairwise (fun a b => a < b) := hkeys ▸ w._components.ordered
  have ht0pre : t0 ∉ pre := by
    intro h
    exact (List.nodup_append.mp hnd).2.2 h (List.mem_cons_self t0 post)
  rw [hkill]
  refine ⟨rfl, hids, hnext, ?_, pre, t0, post, s0, hkeys, ht0, hs0, ?_, ?_, ?_⟩
  · intro hempty
    obtain ⟨r1, hr1, -⟩ := WorldState.createEntity_spec r
    have hrids : r._ids = [id] := by
      rw [hids]
      show w._ids ++ [id] = [id]
      rw [hempty]
      rfl
    show r.createEntity.value = .ok id
    rw [hr1, hrids]
    simp [minElement, minElementFrom, derefErased]
  · intro t ht s hs
    refine ⟨hpre t ht s hs, ?_⟩
    show r._components.find t = _
    rw [hfr t, if_pos ht]
    show Option.map _ (w._components.find t) = _
    rw [hs]
    rfl
  · show r._components.find t0 = _
    rw [hfr t0, if_neg ht0pre]
    exact ht0
  · intro t ht
    refine ⟨?_, ?_⟩
    · exact List.rel_of_pairwise_cons (List.pairwise_append.mp hord).2.1 ht
    · have htpre : t ∉ pre := by
        intro h
        exact (List.nodup_append.mp hnd).2.2 h (List.mem_cons_of_mem t0 ht)
      show r._components.find t = _
      rw [hfr t, if_neg htpre]

/-- Witness of C36 on `unevenWorld` with id 1: the store of type 0 has slot 1 reset, the
store of type 1 is too short, and the store of type 2 keeps its component at slot 1. -/
theorem killEntity_not_atomic_witness :
    (∃ t s, unevenWorld._components.find t = some s ∧ s.size ≤ 1) ∧
      (unevenWorld.killEntity 1).state._components.entries =
        [(0, ⟨[some 1, none]⟩), (1, ⟨[some 3]⟩), (2, ⟨[some 4, some 5]⟩)] ∧
      (unevenWorld.killEntity 1).value = .error .SparseArrayExceptionOutOfRange ∧
      (unevenWorld.killEntity 1).state._ids = unevenWorld._ids ++ [1] ∧
      (unevenWorld.killEntity 1).state.createEntity.value = .ok 1 :=
  ⟨⟨1, ⟨[some 3]⟩, rfl, by decide⟩, rfl,
    (killEntity_not_atomic unevenWorld 1 ⟨1, ⟨[some 3]⟩, rfl, by decide⟩).1,
    (killEntity_not_atomic unevenWorld 1 ⟨1, ⟨[some 3]⟩, rfl, by decide⟩).2.1,
    (killEntity_not_atomic unevenWorld 1 ⟨1, ⟨[some 3]⟩, rfl, by decide⟩).2.2.2.1 rfl⟩

/-! ## Components on a freed id (C38) -/

/-- Under a callback that returns normally and leaves the ceiling and the signature test as
they are, a scan that starts at or before `e` and has fuel to reach `e` invokes the callback
on `e` when `e` is below the ceiling and passes the signature test, provided the signature
test is defined up to `e`. -/
theorem Query.forEachFrom_visits {α : Type} (sig : List TypeIndex) (dt : ℚ) (func : Callback α)
    (e : Nat)
    (hpres : ∀ (w1 : WorldState α) i refs, w1.hasComponents sig i = .ok true →
      Query.componentRefs w1 sig i = .ok refs →
      (func w1 dt i refs).value = .ok () ∧
      (func w1 dt i refs).state._nextId = w1._nextId ∧
        ∀ j, (func w1 dt i refs).state.hasComponents sig j = w1.hasComponents sig j) :
    ∀ (fuel idx : Nat) (w : WorldState α), idx ≤ e → e < w._nextId → e - idx < fuel →
      (∀ j, j ≤ e → ∃ b, w.hasComponents sig j = .ok b) →
      w.hasComponents sig e = .ok true →
      e ∈ (Query.forEachFrom sig dt func fuel idx w).visited := by
  intro fuel
  induction fuel with
  | zero =>
    intro idx w _ _ hfuel
    omega
  | succ fuel ih =>
    intro idx w hidx he hfuel hdef htrue
    have hlt : idx < w._nextId := lt_of_le_of_lt hidx he
    obtain ⟨b, hb⟩ := hdef idx hidx
    cases b with
    | false =>
      have hne : idx ≠ e := by
        intro h
        rw [h, htrue] at hb
        cases hb
      rw [Query.forEachFrom_skip sig dt func fuel idx w hlt hb]
      exact ih (idx + 1) w (by omega) he (by omega) hdef htrue
    | true =>
      obtain ⟨refs, hr⟩ := Query.componentRefs_of_hasComponents w sig idx hb
      obtain ⟨hv, hn, hsame⟩ := hpres w idx refs hb hr
      cases hcall : func w dt idx refs with
      | mk w1 v =>
        rw [hcall] at hv hn hsame
        have hv1 : v = .ok () := hv
        rw [hv1] at hcall
        rw [Query.forEachFrom_call sig dt func fuel idx w w1 refs () hlt hb hr hcall]
        by_cases hie : idx = e
        · rw [hie]
          exact List.mem_cons_self _ _
        · refine List.mem_cons_of_mem _ ?_
          have hn1 : w1._nextId = w._nextId := hn
          exact ih (idx + 1) w1 (by omega) (by rw [hn1]; exact he) (by omega)
            (fun j hj => by rw [hsame j]; exact hdef j hj) (by rw [hsame e]; exact htrue)

/-- What `killEntity(e)` leaves, whether it returns or throws: `e` appended to the free
list, the counter as it was, and under every key a store of the length it had. -/
theorem WorldState.killEntity_state {α : Type} (w : WorldState α) (e : Nat) (T : TypeIndex)
    (s : SparseArray α) (hT : w._components.find T = some s) :
    (w.killEntity e).state._ids = w._ids ++ [e] ∧
      (w.killEntity e).state._nextId = w._nextId ∧
      ∃ s1, (w.killEntity e).state._components.find T = some s1 ∧
        s1._array.length = s._array.length := by
  unfold WorldState.killEntity
  refine WorldState.forComponents_preserves
    (fun x => x._ids = w._ids ++ [e] ∧ x._nextId = w._nextId ∧
      ∃ s1, x._components.find T = some s1 ∧ s1._array.length = s._array.length)
    WorldState.eraseFunc e ?_ _ _ ⟨rfl, rfl, s, hT, rfl⟩
  intro t x hx
  obtain ⟨hx1, hx2, s1, hx3, hx4⟩ := hx
  unfold WorldState.eraseFunc WorldState.getComponent
  cases hf : x._components.find t with
  | none => exact ⟨hx1, hx2, s1, hx3, hx4⟩
  | some st =>
    simp only []
    by_cases hlt : e < st._array.length
    · rw [SparseArray.erase_of_lt st e hlt]
      refine ⟨hx1, hx2, ?_⟩
      show ∃ s2, (x._components.modify t _).find T = some s2 ∧ _
      rw [FlatMap.find_modify]
      by_cases hTt : T = t
      · rw [if_pos hTt, hf]
        refine ⟨_, rfl, ?_⟩
        rw [← hTt, hx3] at hf
        injection hf with hf
        rw [← hf, List.length_set]
        exact hx4
      · rw [if_neg hTt]
        exact ⟨s1, hx3, hx4⟩
    · rw [SparseArray.erase_of_ge st e (not_lt.mp hlt)]
      exact ⟨hx1, hx2, s1, hx3, hx4⟩

/-- C38: let `T` be registered and `e` be below the ceiling and below the length of the
store of `T`.  After `killEntity(e)` the id `e` is on the free list (the call returns
normally when `e` is in range of every store), and `addComponentToEntity<T>(e, v)` still
returns `v`; `e` is then still on the free list and `hasComponents<T>(e)` is true.  The
world `Query<T>::forEach` leaves is the world left by invoking the callback on the ids of
its log, in that order; and with fuel to reach `e` and under a callback that returns
normally and leaves the ceiling and the signature test as they are, `e` is in that log: the
callback is invoked on `e`. -/
theorem freed_id_carries_component {α : Type} (w : WorldState α) (T : TypeIndex)
    (s : SparseArray α) (e : Nat) (v : α) (hT : w._components.find T = some s)
    (hes : e < s.size) (he : e < w.getCurrentId) :
    ((∀ t s1, w._components.find t = some s1 → e < s1.size) →
        (w.killEntity e).value = .ok () ∧
        (w.killEntity e).state.hasComponents [T] e = .ok false) ∧
      e ∈ (w.killEntity e).state._ids ∧
      ((w.killEntity e).state.addComponentToEntity T e v).value = .ok v ∧
      e ∈ ((w.killEntity e).state.addComponentToEntity T e v).state._ids ∧
      ((w.killEntity e).state.addComponentToEntity T e v).state.hasComponents [T] e
        = .ok true ∧
      (∀ fuel dt (func : Callback α),
        (Query.forEach [T] fuel
          ((w.killEntity e).state.addComponentToEntity T e v).state dt func).world =
          Query.replay [T] dt func
            (Query.forEach [T] fuel
              ((w.killEntity e).state.addComponentToEntity T e v).state dt func).visited
            ((w.killEntity e).state.addComponentToEntity T e v).state) ∧
      ∀ fuel dt (func : Callback α), e < fuel →
        (∀ (w3 : WorldState α) i refs, w3.hasComponents [T] i = .ok true →
          Query.componentRefs w3 [T] i = .ok refs →
          (func w3 dt i refs).value = .ok () ∧
          (func w3 dt i refs).state.getCurrentId = w3.getCurrentId ∧
            ∀ j, (func w3 dt i refs).state.hasComponents [T] j = w3.hasComponents [T] j) →
        e ∈ (Query.forEach [T] fuel
          ((w.killEntity e).state.addComponentToEntity T e v).state dt func).visited := by
  have hhas : ∀ (x : WorldState α) (sx : SparseArray α) (i : Nat),
      x._components.find T = some sx → i < sx._array.length →
      x.hasComponents [T] i = .ok (sx._array.getD i none).isSome := by
    intro x sx i hx hi
    simp only [WorldState.hasComponents, WorldState.getComponent_of_find x T sx hx,
      SparseArray.has_of_lt sx i hi]
    cases (sx._array.getD i none).isSome <;> rfl
  obtain ⟨hids1, hnext1, s1, hT1, hlen1⟩ := WorldState.killEntity_state w e T s hT
  have hes1 : e < s1._array.length := by
    rw [hlen1]
    exact hes
  have hadd : (w.killEntity e).state.addComponentToEntity T e v =
      ⟨{ (w.killEntity e).state with
          _components :=
            (w.killEntity e).state._components.modify T
              (fun _ => ⟨s1._array.set e (some v)⟩) },
        .ok v⟩ := by
    unfold WorldState.addComponentToEntity
    rw [WorldState.getComponent_of_find _ T _ hT1]
    simp only []
    rw [SparseArray.set_of_lt _ e v hes1]
    simp only []
    rw [SparseArray.get_of_lt _ e (by simpa using hes1)]
    simp [List.getD_eq_getElem?_getD, hes1]
  have hT2 : ((w.killEntity e).state.addComponentToEntity T e v).state._components.find T =
      some ⟨s1._array.set e (some v)⟩ := by
    rw [hadd]
    show ((w.killEntity e).state._components.modify T _).find T = _
    rw [FlatMap.find_modify, if_pos rfl, hT1]
    rfl
  have hids2 : ((w.killEntity e).state.addComponentToEntity T e v).state._ids =
      w._ids ++ [e] := by
    rw [hadd]
    exact hids1
  have hnext2 : ((w.killEntity e).state.addComponentToEntity T e v).state._nextId =
      w._nextId := by
    rw [hadd]
    exact hnext1
  have htrue : ((w.killEntity e).state.addComponentToEntity T e v).state.hasComponents [T] e
      = .ok true := by
    rw [hhas _ _ e hT2 (by simpa using hes1)]
    simp [List.getD_eq_getElem?_getD, hes1]
  refine ⟨?_, ?_, ?_, ?_, htrue,
    fun fuel dt func => Query.forEachFrom_world [T] dt func fuel 0 _, ?_⟩
  · intro hall
    obtain ⟨r, hkill, -, -, -, hfind⟩ := WorldState.killEntity_spec w e hall
    rw [hkill]
    refine ⟨rfl, ?_⟩
    have hTr : r._components.find T = some ⟨s._array.set e none⟩ := by
      rw [hfind T, hT]
      rfl
    show r.hasComponents [T] e = _
    rw [hhas r _ e hTr (by simpa using hes)]
    have hes0 : e < s._array.length := hes
    simp [List.getD_eq_getElem?_getD, hes0]
  · rw [hids1]
    simp
  · rw [hadd]
  · rw [hids2]
    simp
  · intro fuel dt func hfuel hpres
    exact Query.forEachFrom_visits [T] dt func e hpres fuel 0 _ (Nat.zero_le _)
      (by rw [hnext2]; exact he) (by omega)
      (fun j hj => ⟨_, hhas _ _ j hT2 (by simp; omega)⟩) htrue

/-- Witness of C38 on `oneStoreWorld`: entity 1 is killed, then receives the component 9
and is visited by the scan, whose callback `cop1.hp--` leaves it the component 8. -/
theorem freed_id_carries_component_witness :
    oneStoreWorld._components.find 0 = some ⟨[none, some 5]⟩ ∧
      1 < (⟨[none, some 5]⟩ : SparseArray Int).size ∧
      1 < oneStoreWorld.getCurrentId ∧
      (oneStoreWorld.killEntity 1).state._ids = [1] ∧
      ((oneStoreWorld.killEntity 1).state.addComponentToEntity 0 1 9).value = .ok 9 ∧
      1 ∈ ((oneStoreWorld.killEntity 1).state.addComponentToEntity 0 1 9).state._ids ∧
      ((oneStoreWorld.killEntity 1).state.addComponentToEntity 0 1 9).state.hasComponents [0] 1
        = .ok true ∧
      (Query.forEach [0] 2 ((oneStoreWorld.killEntity 1).state.addComponentToEntity 0 1 9).state
        0 readOnly).visited = [1] ∧
      (Query.forEach [0] 2 ((oneStoreWorld.killEntity 1).state.addComponentToEntity 0 1 9).state
        0 decrementHp).visited = [1] ∧
      (Query.forEach [0] 2 ((oneStoreWorld.killEntity 1).state.addComponentToEntity 0 1 9).state
        0 decrementHp).world._components.find 0 = some ⟨[none, some 8]⟩ ∧
      (Query.forEach [0] 2 ((oneStoreWorld.killEntity 1).state.addComponentToEntity 0 1 9).state
        0 decrementHp).world =
        Query.replay [0] 0 decrementHp
          (Query.forEach [0] 2
            ((oneStoreWorld.killEntity 1).state.addComponentToEntity 0 1 9).state
            0 decrementHp).visited
          ((oneStoreWorld.killEntity 1).state.addComponentToEntity 0 1 9).state :=
  ⟨rfl, by decide, by decide, rfl,
    (freed_id_carries_component oneStoreWorld 0 ⟨[none, some 5]⟩ 1 9 rfl (by decide)
      (by decide)).2.2.1,
    (freed_id_carries_component oneStoreWorld 0 ⟨[none, some 5]⟩ 1 9 rfl (by decide)
      (by decide)).2.2.2.1,
    (freed_id_carries_component oneStoreWorld 0 ⟨[none, some 5]⟩ 1 9 rfl (by decide)
      (by decide)).2.2.2.2.1,
    rfl, rfl, rfl,
    (freed_id_carries_component oneStoreWorld 0 ⟨[none, some 5]⟩ 1 9 rfl (by decide)
      (by decide)).2.2.2.2.2.1 2 0 decrementHp⟩

end Engine.Core

/-! ## Batch removal with a repeated index (C37) -/

namespace Engine.Event

open Engine.Core

/-- The loop of the batch `removeEvent` on the indexes `[k, k]` with `1 ≤ k` below the
length: the first pass erases position `k`, the second, with its index adjusted to `k - 1`,
erases position `k - 1`. -/
theorem removeEventsLoop_repeated {ε : Type} (q : EventHandler ε) (k : Nat) (h1 : 1 ≤ k)
    (hk : k < q._events.length) (hn : q._events.length < 2 ^ 64) :
    EventManager.removeEventsLoop 0 [k, k] q =
      ⟨q._events.take (k - 1) ++ q._events.drop (k + 1)⟩ := by
  have hfirst : q.removeEvent (sizeSub k 0) = ⟨q._events.eraseIdx k⟩ := by
    rw [sizeSub_of_le k 0 (Nat.zero_le _) (by omega)]
    unfold EventHandler.removeEvent
    rw [if_neg (by show ¬ (k - 0 ≥ q._events.length); omega)]
    rfl
  have hlen : (q._events.eraseIdx k).length = q._events.length - 1 := by
    rw [List.length_eraseIdx, if_pos hk]
  have hsecond : (⟨q._events.eraseIdx k⟩ : EventHandler ε).removeEvent (sizeSub k (0 + 1)) =
      ⟨(q._events.eraseIdx k).eraseIdx (k - 1)⟩ := by
    rw [sizeSub_of_le k (0 + 1) (by omega) (by omega)]
    unfold EventHandler.removeEvent
    rw [if_neg (by show ¬ (k - (0 + 1) ≥ (q._events.eraseIdx k).length); rw [hlen]; omega)]
  simp only [EventManager.removeEventsLoop, hfirst, hsecond]
  congr 1
  apply List.ext_getElem?
  intro j
  rw [List.getElem?_eraseIdx]
  by_cases hj : j < k - 1
  · rw [if_pos hj, List.getElem?_eraseIdx, if_pos (by omega),
      List.getElem?_append_left (by rw [List.length_take]; omega), List.getElem?_take_of_lt hj]
  · rw [if_neg hj, List.getElem?_eraseIdx, if_neg (by omega),
      List.getElem?_append_right (by rw [List.length_take]; omega), List.length_take,
      List.getElem?_drop]
    congr 1
    omega

/-- C37, evaluated where the code departs from it.  On `loadedBus` the queue of type 0 has
seven elements; the batch `removeEvent<E>({3, 3})` throws NoHandler and removes nothing.
The loop over the indexes itself, run on the handler, does what the claim says: it removes
the elements that stood at positions 3 and 2, not one element and not those at positions 3
and 4. -/
theorem removeEvents_repeated_index_fails :
    Core.loadedBus.queue 0 = some [10, 11, 12, 13, 14, 15, 16] ∧
      (Core.loadedBus.removeEvents 0 [3, 3]).value = .error .EventManagerExceptionNoHandler ∧
      (Core.loadedBus.removeEvents 0 [3, 3]).state.queue 0 =
        some [10, 11, 12, 13, 14, 15, 16] ∧
      EventManager.removeEventsLoop 0 [3, 3]
          (⟨[10, 11, 12, 13, 14, 15, 16]⟩ : EventHandler Int) = ⟨[10, 11, 14, 15, 16]⟩ :=
  ⟨rfl, rfl, rfl, by decide⟩

end Engine.Event
